import Mathlib

/-!
# ClamAV client of the DOS antivirus front end (`src/dos/antivir.cpp`)

A shallow embedding of `ClamAV_Base`, of the `std::string` operations it
uses and of the scan of `MSAV` (`src/dos/program_msav.cpp`: `Run`,
`ScanDrive`, `ScanPath`, `ScanFile`), followed by theorems about the scan of a
file, the negotiation of the session, the commands and their responses, and
the caller's bookkeeping.

Conventions of the embedding:

* a `std::string` is a `List Char`; a `uint8_t` buffer is a `List Nat`;
* `std::string::npos` is rendered as `none`: a found index is always smaller
  than the length of the string, hence never equal to `npos`;
* `size_t` subtraction wraps modulo `2 ^ 64` (`size_sub`);
* an out-of-range `substr` (which throws) or `operator[]` (undefined
  behaviour) is a `Fault`, so the functions that index strings return `Except`;
  `ScanFile_unchecked` is `ScanFile` with `operator[]` left unchecked, as it
  is when the program runs: a read outside the string yields a character that
  the embedding does not know (`peek`);
* a read of the guest file gives bytes or fails, and a failed read may leave
  anything in the buffer (`Read`);
* the virtual transport (`Open`, `Send`, `Receive`) is a script of outcomes
  together with a log of the calls made so far.
-/

namespace Antivir

/-- A `std::string`. -/
abbrev Str := List Char

/-- The enumeration `VirusCheckResult` of `include/antivir.h`. -/
inductive VirusCheckResult
  | Clean
  | Infected
  | ReadError
  | FileTooLarge
  | ConnectionLost
  | ScannerError
  deriving DecidableEq, Repr

/-- What goes wrong when a string is accessed outside its bounds. -/
inductive Fault
  | out_of_range
  | bad_index
  deriving DecidableEq, Repr

/-! ## `size_t` and `std::string` -/

/-- Number of values of a 64-bit `size_t`. -/
def SIZE_MOD : Nat := 2 ^ 64

/-- Subtraction of two `size_t` values, wrapping around below zero. -/
def size_sub (a b : Nat) : Nat := (a % SIZE_MOD + (SIZE_MOD - b % SIZE_MOD)) % SIZE_MOD

/-- The value `UINT16_MAX`. -/
def UINT16_MAX : Nat := 65535

/-- First index at which `pat` occurs in the string (`std::string::find`). -/
def find : Str → Str → Option Nat
  | [], pat => if pat = [] then some 0 else none
  | c :: s, pat =>
    if pat.isPrefixOf (c :: s) then some 0 else (find s pat).map (· + 1)

/-- Last index at which `pat` occurs in the string (`std::string::rfind`). -/
def rfind : Str → Str → Option Nat
  | [], pat => if pat = [] then some 0 else none
  | c :: s, pat =>
    match rfind s pat with
    | some i => some (i + 1)
    | none => if pat.isPrefixOf (c :: s) then some 0 else none

/-- The call `s.clear()`. -/
def clear (_s : Str) : Str := []

/-- The call `s.substr(pos)`: the rest of the string from `pos`; throws when
`pos` is beyond the end. -/
def substrFrom (s : Str) (pos : Nat) : Except Fault Str :=
  if pos ≤ s.length then .ok (s.drop pos) else .error Fault.out_of_range

/-- The call `s.substr(pos, len)`: at most `len` characters from `pos`; throws
when `pos` is beyond the end. -/
def substr (s : Str) (pos len : Nat) : Except Fault Str :=
  if pos ≤ s.length then .ok ((s.drop pos).take len) else .error Fault.out_of_range

/-- The access `s[pos]`: defined up to and including `pos = s.length`, where
it yields the terminating NUL. -/
def charAt (s : Str) (pos : Nat) : Except Fault Char :=
  if h : pos < s.length then .ok (s.get ⟨pos, h⟩)
  else if pos = s.length then .ok (Char.ofNat 0)
  else .error Fault.bad_index

/-- Modelled from the spec: `starts_with` of `string_utils.h` is not part of
the sources at hand; the spec has the prefix stripped "when present", so the
call `starts_with(pfx, str)` tells whether `str` begins with `pfx`. -/
def starts_with (pfx str : Str) : Bool := pfx.isPrefixOf str

/-! ## The transport behind `Open`, `Send` and `Receive` -/

/-- One call made on the transport. -/
inductive Event
  | opened (idx : Nat)
  | send (bytes : List Nat)
  | recv (timeout_ms : Nat)
  deriving DecidableEq, Repr

/-- The transport as `ClamAV_Base` sees it: the outcomes its next calls will
have, and the calls made so far, oldest first. A call that finds its script
exhausted fails as on a closed socket (`false`, or the empty string). -/
structure Transport where
  openResults : List Bool
  sendResults : List Bool
  recvResults : List Str
  log : List Event
  deriving DecidableEq, Repr

/-- `Open(num_protocol)`. -/
def Transport.Open (t : Transport) (num_protocol : Nat) : Bool × Transport :=
  (t.openResults.headD false,
   { t with openResults := t.openResults.tail,
            log := t.log ++ [Event.opened num_protocol] })

/-- `Send(buffer, size)`: the bytes handed over are recorded. -/
def Transport.SendBuffer (t : Transport) (bytes : List Nat) : Bool × Transport :=
  (t.sendResults.headD false,
   { t with sendResults := t.sendResults.tail,
            log := t.log ++ [Event.send bytes] })

/-- `Send(msg)`: the bytes of the string are handed over. -/
def Transport.Send (t : Transport) (msg : Str) : Bool × Transport :=
  t.SendBuffer (msg.map Char.toNat)

/-- `Receive(timeout_ms)`. -/
def Transport.Receive (t : Transport) (timeout_ms : Nat) : Str × Transport :=
  (t.recvResults.headD [],
   { t with recvResults := t.recvResults.tail,
            log := t.log ++ [Event.recv timeout_ms] })

/-! ## The guest file behind `DOS_ReadFile` -/

/-- The outcome of one read of a file handle: it fails, leaving `left` in the
buffer (the in/out parameter `amount` is then the length of `left`, whatever
the guest layer left there), or it gives the bytes read. -/
inductive Read
  | fails (left : List Nat)
  | gives (bytes : List Nat)
  deriving DecidableEq, Repr

/-- The outcomes of the successive reads of one file handle. Once the list is
used up the file is at its end and every read succeeds with zero bytes. -/
abbrev Source := List Read

/-- Modelled from the spec: `DOS_ReadFile` belongs to the guest file layer,
which is not part of the sources at hand; per the spec it "yields up to N
bytes per call and can fail", and "an empty successful read signals
end-of-file". Returns the success flag, the bytes in the buffer after the
call (at most `amount`; their number is the value left in `amount`) and the
rest of the source. -/
def DOS_ReadFile (src : Source) (amount : Nat) : Bool × List Nat × Source :=
  match src with
  | [] => (true, [], [])
  | Read.fails left :: rest => (false, left.take amount, rest)
  | Read.gives bytes :: rest => (true, bytes.take amount, rest)

/-! ## `ClamAV_Base` -/

/-- `ClamAV_Base::SendCommand`. -/
def SendCommand (t : Transport) (cmd : Str) : Bool × Transport :=
  t.Send ('z' :: cmd ++ [Char.ofNat 0])

/-- The lambda `strip_first_result` of `ClamAV_Base::GetResponse`. -/
def strip_first_result (result : Str) : Except Fault Str :=
  match find result ": ".toList with
  | none => .ok result
  | some pos => substrFrom result (pos + 2)

/-- `ClamAV_Base::GetResponse`: the decoded response (or the fault met while
decoding) and the transport after the receives. -/
def GetResponse (t : Transport) : Except Fault Str × Transport :=
  let r := t.Receive 500
  if r.1.isEmpty then (.ok r.1, r.2)
  else
    match strip_first_result r.1 with
    | .error e => (.error e, r.2)
    | .ok result =>
      if !result.isEmpty then (.ok result, r.2)
      else
        let r2 := r.2.Receive 300
        (.ok r2.1, r2.2)

/-- The four header bytes `buffer[0..3]` for a chunk of `amount` bytes. -/
def frameHeader (amount : Nat) : List Nat :=
  [0, 0, (amount / 0x100) % 256, (amount % 0x100) % 256]

/-- The bytes `buffer[0 .. amount + 4)` sent for the chunk `data`. -/
def frame (data : List Nat) : List Nat := frameHeader data.length ++ data

/-- The variables of the upload loop of `ScanFile`: the chunk in
`buffer[4 ..]` (its length is `amount`), `read_error`, the transport and the
source. -/
structure UploadState where
  data : List Nat
  read_error : Bool
  transport : Transport
  source : Source
  deriving DecidableEq, Repr

/-- The condition `amount && !read_error` of the upload loop. -/
def UploadState.continues (s : UploadState) : Bool :=
  s.data.length != 0 && !s.read_error

/-- One run of the body of the upload loop (lines 160-165). -/
def uploadStep (s : UploadState) : UploadState :=
  let t1 := (s.transport.SendBuffer (frame s.data)).2
  let r := DOS_ReadFile s.source UINT16_MAX
  { data := r.2.1, read_error := !r.1, transport := t1, source := r.2.2 }

/-- The loop `while (amount && !read_error)` of `ScanFile`, run for at most
`fuel` iterations. `ScanFile` allows one iteration more than the source has
reads left, which is always enough for the condition to become false
(`uploadLoop_exit`). -/
def uploadLoop : Nat → UploadState → UploadState
  | 0, s => s
  | fuel + 1, s => if s.continues then uploadLoop fuel (uploadStep s) else s

/-- The prefix rule of `ScanFile` (lines 209-213). -/
def stripWin (virus_name : Str) : Except Fault Str :=
  if virus_name.length > 4 ∧ starts_with "Win.".toList virus_name = true then
    substrFrom virus_name 4
  else .ok virus_name

/-- The loop `for (pos = ...; pos > 1; --pos)` of `ScanFile` (lines 217-227),
started at `pos`. -/
def stripSuffixLoop (virus_name : Str) : Nat → Except Fault Str
  | 0 => .ok virus_name
  | 1 => .ok virus_name
  | pos + 2 =>
    match charAt virus_name (pos + 2) with
    | .error e => .error e
    | .ok c =>
      if '0' ≤ c ∧ c ≤ '9' then stripSuffixLoop virus_name (pos + 1)
      else if c ≠ '-' then .ok virus_name
      else substr virus_name 0 (pos + 2)

/-- The suffix rule of `ScanFile`: the loop started at `length() - 1`. -/
def stripSuffix (virus_name : Str) : Except Fault Str :=
  stripSuffixLoop virus_name (size_sub virus_name.length 1)

/-- The FOUND branch of `ScanFile` past the position check (lines 198-229):
extraction and normalisation of the name. -/
def extractName (response : Str) (pos_name pos_status : Nat) : Except Fault Str :=
  let pos_start := pos_name + 8
  let pos_end := size_sub (size_sub pos_status pos_name) 8
  match substr response pos_start pos_end with
  | .error e => .error e
  | .ok name0 =>
    match stripWin name0 with
    | .error e => .error e
    | .ok name1 => stripSuffix name1

/-- The response parser of `ScanFile` (lines 180-234): the verdict and the
value left in `virus_name`, which is empty when the parser starts. -/
def parseVerdict (response : Str) : Except Fault (VirusCheckResult × Str) :=
  match rfind response "stream: ".toList, rfind response [' '] with
  | some pos_name, some pos_status =>
    match substrFrom response (pos_status + 1) with
    | .error e => .error e
    | .ok status =>
      if status = "OK".toList then .ok (VirusCheckResult.Clean, [])
      else if status = "FOUND".toList then
        if pos_name ≥ pos_status then .ok (VirusCheckResult.ScannerError, [])
        else
          match extractName response pos_name pos_status with
          | .error e => .error e
          | .ok name => .ok (VirusCheckResult.Infected, name)
      else .ok (VirusCheckResult.ScannerError, [])
  | _, _ => .ok (VirusCheckResult.ScannerError, [])

/-- What a call of `ScanFile` leaves behind: the returned verdict together
with the out-parameter `virus_name` (or the fault met on the way), the
transport and the source. -/
structure ScanOutcome where
  returned : Except Fault (VirusCheckResult × Str)
  transport : Transport
  source : Source

/-- `ClamAV_Base::ScanFile`. The handle is the source it reads; `file_name`
is only logged and is left out; `virus_name` is the value the caller passed
in. -/
def ScanFile (t : Transport) (src : Source) (virus_name : Str) : ScanOutcome :=
  let virus_name : Str := clear virus_name
  let r := DOS_ReadFile src UINT16_MAX
  if !r.1 then ⟨.ok (VirusCheckResult.ReadError, virus_name), t, r.2.2⟩
  else if r.2.1.length = 0 then ⟨.ok (VirusCheckResult.Clean, virus_name), t, r.2.2⟩
  else
    let t1 := (SendCommand t "INSTREAM".toList).2
    let s := uploadLoop (r.2.2.length + 1) ⟨r.2.1, false, t1, r.2.2⟩
    let t2 := (s.transport.SendBuffer (frameHeader 0)).2
    let g := GetResponse t2
    match g.1 with
    | .error e => ⟨.error e, g.2, s.source⟩
    | .ok response =>
      if s.read_error then ⟨.ok (VirusCheckResult.ReadError, virus_name), g.2, s.source⟩
      else
        match parseVerdict response with
        | .error e => ⟨.error e, g.2, s.source⟩
        | .ok (result, name) => ⟨.ok (result, name), g.2, s.source⟩

/-- The access `s[pos]` as the build runs it: `operator[]` does not check the
index, and beyond the terminating NUL it yields whatever stands in memory at
that place, `peek pos`. -/
def charAt_unchecked (peek : Nat → Char) (s : Str) (pos : Nat) : Char :=
  match charAt s pos with
  | .ok c => c
  | .error _ => peek pos

/-- The loop `for (pos = ...; pos > 1; --pos)` of `ScanFile` (lines 217-227)
with the unchecked access `virus_name[pos]`, started at `pos`. -/
def stripSuffixLoop_unchecked (peek : Nat → Char) (virus_name : Str) : Nat → Except Fault Str
  | 0 => .ok virus_name
  | 1 => .ok virus_name
  | pos + 2 =>
    let c := charAt_unchecked peek virus_name (pos + 2)
    if '0' ≤ c ∧ c ≤ '9' then stripSuffixLoop_unchecked peek virus_name (pos + 1)
    else if c ≠ '-' then .ok virus_name
    else substr virus_name 0 (pos + 2)

/-- The suffix rule of `ScanFile` with the unchecked access: the loop started
at `length() - 1`. -/
def stripSuffix_unchecked (peek : Nat → Char) (virus_name : Str) : Except Fault Str :=
  stripSuffixLoop_unchecked peek virus_name (size_sub virus_name.length 1)

/-- The FOUND branch of `ScanFile` past the position check (lines 198-229)
with the unchecked access. -/
def extractName_unchecked (peek : Nat → Char) (response : Str) (pos_name pos_status : Nat) :
    Except Fault Str :=
  let pos_start := pos_name + 8
  let pos_end := size_sub (size_sub pos_status pos_name) 8
  match substr response pos_start pos_end with
  | .error e => .error e
  | .ok name0 =>
    match stripWin name0 with
    | .error e => .error e
    | .ok name1 => stripSuffix_unchecked peek name1

/-- The response parser of `ScanFile` (lines 180-234) with the unchecked
access. -/
def parseVerdict_unchecked (peek : Nat → Char) (response : Str) :
    Except Fault (VirusCheckResult × Str) :=
  match rfind response "stream: ".toList, rfind response [' '] with
  | some pos_name, some pos_status =>
    match substrFrom response (pos_status + 1) with
    | .error e => .error e
    | .ok status =>
      if status = "OK".toList then .ok (VirusCheckResult.Clean, [])
      else if status = "FOUND".toList then
        if pos_name ≥ pos_status then .ok (VirusCheckResult.ScannerError, [])
        else
          match extractName_unchecked peek response pos_name pos_status with
          | .error e => .error e
          | .ok name => .ok (VirusCheckResult.Infected, name)
      else .ok (VirusCheckResult.ScannerError, [])
  | _, _ => .ok (VirusCheckResult.ScannerError, [])

/-- `ClamAV_Base::ScanFile` as the build runs it: the same statements as in
`ScanFile`, with the access `virus_name[pos]` of the suffix scan left
unchecked, as `operator[]` is; where `ScanFile` knows the index to be outside
the string, the character read is `peek pos`. -/
def ScanFile_unchecked (peek : Nat → Char) (t : Transport) (src : Source)
    (virus_name : Str) : ScanOutcome :=
  let virus_name : Str := clear virus_name
  let r := DOS_ReadFile src UINT16_MAX
  if !r.1 then ⟨.ok (VirusCheckResult.ReadError, virus_name), t, r.2.2⟩
  else if r.2.1.length = 0 then ⟨.ok (VirusCheckResult.Clean, virus_name), t, r.2.2⟩
  else
    let t1 := (SendCommand t "INSTREAM".toList).2
    let s := uploadLoop (r.2.2.length + 1) ⟨r.2.1, false, t1, r.2.2⟩
    let t2 := (s.transport.SendBuffer (frameHeader 0)).2
    let g := GetResponse t2
    match g.1 with
    | .error e => ⟨.error e, g.2, s.source⟩
    | .ok response =>
      if s.read_error then ⟨.ok (VirusCheckResult.ReadError, virus_name), g.2, s.source⟩
      else
        match parseVerdict_unchecked peek response with
        | .error e => ⟨.error e, g.2, s.source⟩
        | .ok (result, name) => ⟨.ok (result, name), g.2, s.source⟩

/-! ## `ClamAV_Base`: the session -/

/-- The data members of `ClamAV_Base`, with the transport its virtual methods
act on. -/
structure ClamAV_Base where
  is_initialized : Bool
  used_protocol : Nat
  engine_version : Str
  database_version : Str
  transport : Transport
  deriving DecidableEq, Repr

/-- `ClamAV::GetNumProtocols`. -/
def GetNumProtocols : Nat := 2

/-- The connection methods of `ClamAV`. -/
inductive Candidate
  | Unix
  | TcpIp
  deriving DecidableEq, Repr

/-- The `switch` of `ClamAV::Open`: the method behind each index. -/
def candidateOf : Nat → Option Candidate
  | 0 => some Candidate.Unix
  | 1 => some Candidate.TcpIp
  | _ => none

/-- `ClamAV_Base::PingDaemon`: the command is sent first, and the response is
read only when the send succeeded. -/
def PingDaemon (t : Transport) : Except Fault Bool × Transport :=
  let s := SendCommand t "PING".toList
  if s.1 then
    let g := GetResponse s.2
    match g.1 with
    | .error e => (.error e, g.2)
    | .ok response => (.ok (decide (response = "PONG".toList)), g.2)
  else (.ok false, s.2)

/-- The condition `Open(idx) && SendCommand("IDSESSION") && PingDaemon()` of
`PrepareConnection` (line 109), evaluated from left to right. -/
def tryProtocol (t : Transport) (idx : Nat) : Except Fault Bool × Transport :=
  let o := t.Open idx
  if o.1 then
    let s := SendCommand o.2 "IDSESSION".toList
    if s.1 then PingDaemon s.2 else (.ok false, s.2)
  else (.ok false, o.2)

/-- The loop `for (idx = 0; idx < num_protocols; ++idx)` of
`PrepareConnection` (lines 108-115), from `idx` on and for at most `fuel`
iterations; `PrepareConnection` allows `num_protocols` of them. -/
def negotiate (num_protocols : Nat) : Nat → Nat → ClamAV_Base →
    Except Fault Unit × ClamAV_Base
  | 0, _, c => (.ok (), c)
  | fuel + 1, idx, c =>
    if idx < num_protocols then
      let r := tryProtocol c.transport idx
      match r.1 with
      | .error e => (.error e, { c with transport := r.2 })
      | .ok true =>
        (.ok (), { c with used_protocol := idx, is_initialized := true, transport := r.2 })
      | .ok false => negotiate num_protocols fuel (idx + 1) { c with transport := r.2 }
    else (.ok (), c)

/-- The splitting done by `RetrieveVersion` (lines 281-301) on the decoded
response: the engine version and the database version. -/
def splitVersion (response : Str) : Except Fault (Str × Str) :=
  let engine_version := response
  let database_version : Str := []
  let split : Except Fault (Str × Str) :=
    match find engine_version "/".toList with
    | some pos =>
      match substrFrom engine_version (pos + 1), substr engine_version 0 pos with
      | .ok d, .ok e => .ok (e, d)
      | .error e, _ => .error e
      | _, .error e => .error e
    | none => .ok (engine_version, database_version)
  match split with
  | .error e => .error e
  | .ok (engine_version, database_version) =>
    match find database_version "/".toList with
    | some pos =>
      match substr database_version 0 pos, substrFrom database_version (pos + 1) with
      | .ok a, .ok b => .ok (engine_version, a ++ " (".toList ++ b ++ ")".toList)
      | .error e, _ => .error e
      | _, .error e => .error e
    | none => .ok (engine_version, database_version)

/-- `ClamAV_Base::RetrieveVersion`. -/
def RetrieveVersion (c : ClamAV_Base) : Except Fault Unit × ClamAV_Base :=
  let s := SendCommand c.transport "VERSION".toList
  let g := GetResponse s.2
  match g.1 with
  | .error e => (.error e, { c with transport := g.2 })
  | .ok response =>
    match splitVersion response with
    | .error e => (.error e, { c with transport := g.2 })
    | .ok (engine_version, database_version) =>
      (.ok (), { c with engine_version := engine_version,
                        database_version := database_version, transport := g.2 })

/-- `ClamAV_Base::PrepareConnection`: the returned flag and the object after
the call. -/
def PrepareConnection (c : ClamAV_Base) : Except Fault Bool × ClamAV_Base :=
  if c.is_initialized then (.ok true, c)
  else
    let c1 := { c with engine_version := [], database_version := [] }
    let num_protocols := GetNumProtocols
    let n := negotiate num_protocols num_protocols 0 c1
    match n.1 with
    | .error e => (.error e, n.2)
    | .ok _ =>
      if n.2.is_initialized then
        let v := RetrieveVersion n.2
        match v.1 with
        | .error e => (.error e, v.2)
        | .ok _ => (.ok v.2.is_initialized, v.2)
      else (.ok n.2.is_initialized, n.2)

/-- `ClamAV_Base::GetEngineVersion`. -/
def GetEngineVersion (c : ClamAV_Base) : Str := c.engine_version

/-- `ClamAV_Base::GetDatabaseVersion`. -/
def GetDatabaseVersion (c : ClamAV_Base) : Str := c.database_version

/-- What a call of `ANTIVIR_GetVersion` leaves behind: the returned flag (or
the fault met on the way), the object `clamav` and the two out-parameters. -/
structure VersionOutcome where
  returned : Except Fault Bool
  clamav : ClamAV_Base
  engine_version : Str
  database_version : Str

/-- `ANTIVIR_GetVersion`, on the static object `clamav`; `engine_version` and
`database_version` are the values the caller passed in. -/
def ANTIVIR_GetVersion (clamav : ClamAV_Base) (engine_version database_version : Str) :
    VersionOutcome :=
  let p := PrepareConnection clamav
  match p.1 with
  | .error e => ⟨.error e, p.2, engine_version, database_version⟩
  | .ok false => ⟨.ok false, p.2, engine_version, database_version⟩
  | .ok true =>
    let engine_version := GetEngineVersion p.2
    let database_version := GetDatabaseVersion p.2
    ⟨.ok (!engine_version.isEmpty && !database_version.isEmpty), p.2,
      engine_version, database_version⟩

/-! ## `MSAV` (`src/dos/program_msav.cpp`) -/

/-- The counters `MSAV::Summary`; `size_t` and `uint64_t` are 64 bits wide. -/
structure MSAV.Summary where
  directories : Nat
  files : Nat
  total_size : Nat
  infected : Nat
  skipped : Nat
  deriving DecidableEq, Repr

/-- `MSAV::ScanFile`: the returned flag and the summary after the call.
`open_ok` is the outcome of `DOS_OpenFile` and `result` the verdict of
`ANTIVIR_ScanFile` (read only when the file was opened); the console output
is left out. -/
def MSAV.ScanFile (open_ok : Bool) (result : VirusCheckResult) (file_size : Nat)
    (summary : MSAV.Summary) : Bool × MSAV.Summary :=
  let summary := { summary with files := (summary.files + 1) % SIZE_MOD }
  let summary := { summary with total_size := (summary.total_size + file_size) % SIZE_MOD }
  if !open_ok then
    (true, { summary with skipped := (summary.skipped + 1) % SIZE_MOD })
  else if result = VirusCheckResult.Clean then (true, summary)
  else
    let summary :=
      if result = VirusCheckResult.Infected then
        { summary with infected := (summary.infected + 1) % SIZE_MOD }
      else { summary with skipped := (summary.skipped + 1) % SIZE_MOD }
    let should_continue := false
    let should_continue :=
      match result with
      | VirusCheckResult.Infected => true
      | VirusCheckResult.ReadError => true
      | VirusCheckResult.FileTooLarge => true
      | VirusCheckResult.ConnectionLost => should_continue
      | VirusCheckResult.ScannerError => should_continue
      | VirusCheckResult.Clean => should_continue
    (should_continue, summary)

/-- `std::sort` on a vector of strings, as an insertion sort: `insert_sorted`
puts one string before the first string that is not smaller. Strings compare
as `std::string::operator<` does, character by character. -/
def insert_sorted (x : Str) : List Str → List Str
  | [] => [x]
  | y :: ys => if y < x then y :: insert_sorted x ys else x :: y :: ys

/-- `std::sort(object_list.begin(), object_list.end())`: the strings in
ascending order. -/
def std_sort : List Str → List Str
  | [] => []
  | x :: xs => insert_sorted x (std_sort xs)

/-- The first character `s[0]` of a string; on the empty string `operator[]`
yields the terminating null character. -/
def front (s : Str) : Char := s.headD (Char.ofNat 0)

/-- What a scan shows of the grouping: the drive title written by
`MSAV::ScanDrive` and the paths handed to `MSAV::ScanPath`. -/
inductive MSAV.Output
  | title_drive (drive_letter : Char)
  | scan_path (path : Str)
  deriving DecidableEq, Repr

/-- The loop `for (const auto &path : path_list)` of `MSAV::ScanDrive`
(lines 291-296). `ScanPath` stands for `MSAV::ScanPath`: the grouping does
not depend on what the walk of a path finds, so it is any function of the path
and the summary here (each call increments `summary.directories` first, so
the calls of one run all see different summaries). -/
def MSAV.scanPaths (ScanPath : Str → MSAV.Summary → Bool × MSAV.Summary) :
    List Str → MSAV.Summary → List MSAV.Output → Bool × MSAV.Summary × List MSAV.Output
  | [], summary, out => (true, summary, out)
  | path :: rest, summary, out =>
    let r := ScanPath path summary
    if !r.1 then (false, r.2, out ++ [MSAV.Output.scan_path path])
    else MSAV.scanPaths ScanPath rest r.2 (out ++ [MSAV.Output.scan_path path])

/-- `MSAV::ScanDrive`: the title of the drive is written, then the paths are
scanned in order until one scan returns false. Returns the flag, the summary
and the events so far. -/
def MSAV.ScanDrive (ScanPath : Str → MSAV.Summary → Bool × MSAV.Summary)
    (drive_letter : Char) (path_list : List Str) (summary : MSAV.Summary)
    (out : List MSAV.Output) : Bool × MSAV.Summary × List MSAV.Output :=
  MSAV.scanPaths ScanPath path_list summary (out ++ [MSAV.Output.title_drive drive_letter])

/-- The variables of `MSAV::Run` while it scans the drives, together with the
calls of `ScanDrive` made so far (drive letter and path list, oldest first)
and the events so far. -/
structure MSAV.RunState where
  drive_letter : Char
  drive_object_list : List Str
  summary : MSAV.Summary
  calls : List (Char × List Str)
  out : List MSAV.Output
  deriving DecidableEq, Repr

/-- The call `ScanDrive(drive_letter, drive_object_list, summary)` made by
`MSAV::Run` in state `s`: the returned flag and the state after the call. -/
def MSAV.callScanDrive (ScanPath : Str → MSAV.Summary → Bool × MSAV.Summary)
    (s : MSAV.RunState) : Bool × MSAV.RunState :=
  let r := MSAV.ScanDrive ScanPath s.drive_letter s.drive_object_list s.summary s.out
  (r.1, { s with summary := r.2.1, out := r.2.2,
                 calls := s.calls ++ [(s.drive_letter, s.drive_object_list)] })

/-- The loop `for (const auto &entry : object_list)` of `MSAV::Run`
(lines 127-147); the flag is false when a call of `ScanDrive` returned false
and `Run` returned from inside the loop. -/
def MSAV.groupLoop (ScanPath : Str → MSAV.Summary → Bool × MSAV.Summary) :
    List Str → MSAV.RunState → Bool × MSAV.RunState
  | [], s => (true, s)
  | entry :: rest, s =>
    if s.drive_letter = front entry then
      MSAV.groupLoop ScanPath rest
        { s with drive_object_list := s.drive_object_list ++ [entry] }
    else
      let r := MSAV.callScanDrive ScanPath s
      if !r.1 then (false, r.2)
      else MSAV.groupLoop ScanPath rest { r.2 with drive_object_list := [entry] }

/-- `MSAV::Run` from the point where `object_list` has been retrieved
(lines 111-157): the state when the scan of the drives is over. With an empty
`object_list` nothing is scanned. -/
def MSAV.Run (ScanPath : Str → MSAV.Summary → Bool × MSAV.Summary)
    (object_list : List Str) : MSAV.RunState :=
  if object_list.isEmpty then ⟨Char.ofNat 0, [], ⟨0, 0, 0, 0, 0⟩, [], []⟩
  else
    let object_list := std_sort object_list
    let summary : MSAV.Summary := ⟨0, 0, 0, 0, 0⟩
    let drive_object_list : List Str := []
    let drive_letter := front (object_list.headD [])
    let l := MSAV.groupLoop ScanPath object_list
      ⟨drive_letter, drive_object_list, summary, [], []⟩
    if !l.1 then l.2
    else (MSAV.callScanDrive ScanPath l.2).2

/-- An entry of a directory of the guest file system as `GetDirContents`
finds it: a subdirectory with its entries, or a file with its size. A file
comes with what the scan of it will meet: whether `DOS_OpenFile` succeeds and
the verdict of `ANTIVIR_ScanFile`. -/
inductive MSAV.Entry
  | directory (name : Str) (contents : List MSAV.Entry)
  | file (name : Str) (size : Nat) (open_ok : Bool) (result : VirusCheckResult)

/-- What a walk of the directories changes: the summary, the outcomes the
coming calls of `IsCancelRequest` will have (none left: no request), and the
paths handed to `MSAV::ScanFile` so far, oldest first. -/
structure MSAV.Walk where
  summary : MSAV.Summary
  cancels : List Bool
  scanned : List Str
  deriving DecidableEq, Repr

mutual
/-- The branches of the loop of `MSAV::ScanPath` for one entry (lines
318-326): a subdirectory is walked by `ScanPath(path + entry.name + "\\")`,
whose body is `++summary.directories` followed by the loop over its entries; a
file is handed to `ScanFile(path + entry.name, entry.size, summary)`. The flag
is the one the call returned. -/
def MSAV.scanEntry (path : Str) : MSAV.Entry → MSAV.Walk → Bool × MSAV.Walk
  | MSAV.Entry.directory name contents, w =>
    MSAV.scanEntries (path ++ name ++ "\\".toList) contents
      { w with summary :=
          { w.summary with directories := (w.summary.directories + 1) % SIZE_MOD } }
  | MSAV.Entry.file name size open_ok result, w =>
    let r := MSAV.ScanFile open_ok result size w.summary
    (r.1, { w with summary := r.2, scanned := w.scanned ++ [path ++ name] })
/-- The loop `for (const auto &entry : dir_contents)` of `MSAV::ScanPath`
(lines 313-327): a cancel request ends the walk, and so does an entry whose
scan returned false. -/
def MSAV.scanEntries (path : Str) : List MSAV.Entry → MSAV.Walk → Bool × MSAV.Walk
  | [], w => (true, w)
  | entry :: rest, w =>
    let cancel := w.cancels.headD false
    let w := { w with cancels := w.cancels.tail }
    if cancel then (false, w)
    else
      let r := MSAV.scanEntry path entry w
      if !r.1 then (false, r.2)
      else MSAV.scanEntries path rest r.2
end

/-- `MSAV::ScanPath` on the directory `path` whose entries, as found and
sorted by name, are `dir_contents`. -/
def MSAV.ScanPath (path : Str) (dir_contents : List MSAV.Entry) (w : MSAV.Walk) :
    Bool × MSAV.Walk :=
  MSAV.scanEntries path dir_contents
    { w with summary :=
        { w.summary with directories := (w.summary.directories + 1) % SIZE_MOD } }

/-! ## Vocabulary of the statements -/

/-- The byte lists handed to `Send`, one per call, oldest first. -/
def sends : List Event → List (List Nat)
  | [] => []
  | Event.send bytes :: es => bytes :: sends es
  | _ :: es => sends es

/-- All bytes handed to the transport, in order. -/
def wire : List Event → List Nat
  | [] => []
  | Event.send bytes :: es => bytes ++ wire es
  | _ :: es => wire es

/-- The transport after the listed byte lists have been sent, one call
each. -/
def sendAll (t : Transport) : List (List Nat) → Transport
  | [] => t
  | m :: ms => sendAll (t.SendBuffer m).2 ms

/-- The frames of a list of chunks, one after the other. -/
def frames : List (List Nat) → List Nat
  | [] => []
  | c :: cs => frame c ++ frames cs

/-- The chunks of a list, one after the other: the bytes read. -/
def payload : List (List Nat) → List Nat
  | [] => []
  | c :: cs => c ++ payload cs

/-- The bytes of the command `zINSTREAM\0`. -/
def instreamBytes : List Nat := [122, 73, 78, 83, 84, 82, 69, 65, 77, 0]

/-- Whether the name, once its trailing decimal digits are removed, ends in a
hyphen: the name ends in a hyphen followed by zero or more digits. -/
def endsInHyphenDigits (name : Str) : Bool :=
  (name.reverse.dropWhile (fun c => decide ('0' ≤ c ∧ c ≤ '9'))).head? == some '-'

/-- Whether the suffix rule cuts the name: once its trailing decimal digits
(zero or more) are removed, the name ends in a hyphen that has two characters
or more before it, that is a hyphen at index 2 or more. -/
def cutsAtHyphen (name : Str) : Bool :=
  match name.reverse.dropWhile (fun c => decide ('0' ≤ c ∧ c ≤ '9')) with
  | '-' :: before => decide (2 ≤ before.length)
  | _ => false

/-- The indices handed to `Open`, one per call, oldest first. -/
def opens : List Event → List Nat
  | [] => []
  | Event.opened idx :: es => idx :: opens es
  | _ :: es => opens es

/-- The bytes of the string `'z' + cmd + '\0'`. -/
def commandBytes (cmd : Str) : List Nat := ('z' :: cmd ++ [Char.ofNat 0]).map Char.toNat

/-- The unsigned integer a list of bytes spells out, most significant byte
first. -/
def bigEndian (bytes : List Nat) : Nat := bytes.foldl (fun acc b => acc * 256 + b) 0

/-- The statements of the directory walk that change the summary:
`++summary.directories` at the head of `MSAV::ScanPath`, and a call of
`MSAV::ScanFile` with the outcome of opening the file, the verdict and the
size. -/
inductive MSAV.Step
  | directory
  | file (open_ok : Bool) (result : VirusCheckResult) (file_size : Nat)
  deriving DecidableEq, Repr

/-- The summary after one such statement. -/
def MSAV.step (summary : MSAV.Summary) : MSAV.Step → MSAV.Summary
  | MSAV.Step.directory =>
    { summary with directories := (summary.directories + 1) % SIZE_MOD }
  | MSAV.Step.file open_ok result file_size =>
    (MSAV.ScanFile open_ok result file_size summary).2

/-- The summary after a run of such statements, oldest first. -/
def MSAV.walk (summary : MSAV.Summary) (steps : List MSAV.Step) : MSAV.Summary :=
  steps.foldl MSAV.step summary

/-- The object `clamav` after `n` further calls of `ANTIVIR_GetVersion`. -/
def afterCalls : Nat → ClamAV_Base → ClamAV_Base
  | 0, c => c
  | n + 1, c => afterCalls n (ANTIVIR_GetVersion c [] []).clamav

/-! ## The transport under sends and receives -/

theorem sends_append (l₁ l₂ : List Event) : sends (l₁ ++ l₂) = sends l₁ ++ sends l₂ := by
  induction l₁ with
  | nil => rfl
  | cons e es ih => cases e <;> simp [sends, ih]

theorem wire_append (l₁ l₂ : List Event) : wire (l₁ ++ l₂) = wire l₁ ++ wire l₂ := by
  induction l₁ with
  | nil => rfl
  | cons e es ih => cases e <;> simp [wire, ih]

theorem sends_map_send (ms : List (List Nat)) : sends (ms.map Event.send) = ms := by
  induction ms with
  | nil => rfl
  | cons m ms ih => simp [sends, ih]

theorem wire_map_send_frames (cs : List (List Nat)) :
    wire ((cs.map frame).map Event.send) = frames cs := by
  induction cs with
  | nil => rfl
  | cons c cs ih => simp only [List.map_cons, wire, frames, ih]

theorem sendAll_log (ms : List (List Nat)) (t : Transport) :
    (sendAll t ms).log = t.log ++ ms.map Event.send := by
  induction ms generalizing t with
  | nil => simp [sendAll]
  | cons m ms ih => simp [sendAll, ih, Transport.SendBuffer]

theorem sendAll_recvResults (ms : List (List Nat)) (t : Transport) :
    (sendAll t ms).recvResults = t.recvResults := by
  induction ms generalizing t with
  | nil => simp [sendAll]
  | cons m ms ih => simp [sendAll, ih, Transport.SendBuffer]

theorem sendAll_append (ms₁ ms₂ : List (List Nat)) (t : Transport) :
    sendAll t (ms₁ ++ ms₂) = sendAll (sendAll t ms₁) ms₂ := by
  induction ms₁ generalizing t with
  | nil => simp [sendAll]
  | cons m ms ih => simp [sendAll, ih]

/-! ## `GetResponse` -/

theorem find_add_length_le (pat : Str) :
    ∀ (s : Str) (i : Nat), find s pat = some i → i + pat.length ≤ s.length := by
  intro s
  induction s with
  | nil =>
    intro i h
    by_cases hp : pat = []
    · simp [find, hp] at h
      simp [hp, ← h]
    · simp [find, hp] at h
  | cons c s ih =>
    intro i h
    by_cases hp : pat.isPrefixOf (c :: s) = true
    · simp [find, hp] at h
      have hlen := (List.isPrefixOf_iff_prefix.1 hp).length_le
      omega
    · simp [find, hp] at h
      obtain ⟨j, hj, rfl⟩ := h
      have := ih j hj
      simp only [List.length_cons]
      omega

/-- Stripping the first result never leaves the string: it yields a string. -/
theorem strip_first_result_ok (result : Str) : ∃ r, strip_first_result result = .ok r := by
  unfold strip_first_result
  cases hf : find result ": ".toList with
  | none => exact ⟨result, rfl⟩
  | some pos =>
    have h := find_add_length_le _ _ _ hf
    have h2 : pos + 2 ≤ result.length := by simpa using h
    exact ⟨result.drop (pos + 2), by simp [substrFrom, h2]⟩

/-- The decoder always yields a string. -/
theorem GetResponse_ok (t : Transport) : ∃ r, (GetResponse t).1 = .ok r := by
  unfold GetResponse
  by_cases h1 : (t.Receive 500).1.isEmpty = true
  · simp [h1]
  · obtain ⟨r, hr⟩ := strip_first_result_ok (t.Receive 500).1
    by_cases h2 : r.isEmpty = true
    · simp [h1, hr, h2]
    · simp [h1, hr, h2]

/-- The decoded response depends on the pending receives only. -/
theorem GetResponse_congr (t t' : Transport) (h : t.recvResults = t'.recvResults) :
    (GetResponse t).1 = (GetResponse t').1 := by
  unfold GetResponse
  simp only [Transport.Receive, h]
  split
  · rfl
  · split
    · rfl
    · split <;> rfl

/-! ## The upload loop -/

theorem frame_ne_nil_take (c : List Nat) (h : c ≠ [] ∧ c.length ≤ UINT16_MAX) :
    c.take UINT16_MAX = c ∧ (c.length != 0) = true := by
  refine ⟨List.take_of_length_le h.2, ?_⟩
  have : c.length ≠ 0 := fun h0 => h.1 (List.length_eq_zero.1 h0)
  simpa using this

/-- The loop on a source that yields the chunks `cs` and then fails: every
chunk is framed and sent, the failure is remembered, and what the failed read
left in the buffer is not sent. -/
theorem uploadLoop_read_fails (left : List Nat) (rest : Source) :
    ∀ (cs : List (List Nat)) (c : List Nat) (t : Transport) (fuel : Nat),
      (∀ x ∈ c :: cs, x ≠ [] ∧ x.length ≤ UINT16_MAX) → cs.length + 1 ≤ fuel →
      uploadLoop fuel ⟨c, false, t, cs.map Read.gives ++ Read.fails left :: rest⟩ =
        ⟨left.take UINT16_MAX, true, sendAll t ((c :: cs).map frame), rest⟩ := by
  intro cs
  induction cs with
  | nil =>
    intro c t fuel hc hfuel
    obtain ⟨fuel, rfl⟩ : ∃ f, fuel = f + 1 := ⟨fuel - 1, by omega⟩
    have h := frame_ne_nil_take c (hc c (by simp))
    cases fuel <;>
      simp [uploadLoop, UploadState.continues, uploadStep, DOS_ReadFile, sendAll, h.2]
  | cons d ds ih =>
    intro c t fuel hc hfuel
    obtain ⟨fuel, rfl⟩ : ∃ f, fuel = f + 1 := ⟨fuel - 1, by omega⟩
    have h := frame_ne_nil_take c (hc c (by simp))
    have hd := frame_ne_nil_take d (hc d (by simp))
    have hfuel2 : ds.length + 1 ≤ fuel := by simp at hfuel; omega
    have := ih d (t.SendBuffer (frame c)).2 fuel
      (fun x hx => hc x (List.mem_cons_of_mem _ hx)) hfuel2
    simp [uploadLoop, UploadState.continues, uploadStep, DOS_ReadFile, sendAll, h.2, hd.1]
    simpa [sendAll] using this

/-- The loop on a source that yields the chunks `cs` and then a zero-length
read: every chunk is framed and sent, and no error is recorded. -/
theorem uploadLoop_reads_end (rest : Source) :
    ∀ (cs : List (List Nat)) (c : List Nat) (t : Transport) (fuel : Nat),
      (∀ x ∈ c :: cs, x ≠ [] ∧ x.length ≤ UINT16_MAX) → cs.length + 1 ≤ fuel →
      uploadLoop fuel ⟨c, false, t, cs.map Read.gives ++ Read.gives [] :: rest⟩ =
        ⟨[], false, sendAll t ((c :: cs).map frame), rest⟩ := by
  intro cs
  induction cs with
  | nil =>
    intro c t fuel hc hfuel
    obtain ⟨fuel, rfl⟩ : ∃ f, fuel = f + 1 := ⟨fuel - 1, by omega⟩
    have h := frame_ne_nil_take c (hc c (by simp))
    cases fuel <;>
      simp [uploadLoop, UploadState.continues, uploadStep, DOS_ReadFile, sendAll, h.2]
  | cons d ds ih =>
    intro c t fuel hc hfuel
    obtain ⟨fuel, rfl⟩ : ∃ f, fuel = f + 1 := ⟨fuel - 1, by omega⟩
    have h := frame_ne_nil_take c (hc c (by simp))
    have hd := frame_ne_nil_take d (hc d (by simp))
    have hfuel2 : ds.length + 1 ≤ fuel := by simp at hfuel; omega
    have := ih d (t.SendBuffer (frame c)).2 fuel
      (fun x hx => hc x (List.mem_cons_of_mem _ hx)) hfuel2
    simp [uploadLoop, UploadState.continues, uploadStep, DOS_ReadFile, sendAll, h.2, hd.1]
    simpa [sendAll] using this

/-- Once the condition of the loop is false, the loop is over. -/
theorem uploadLoop_done (fuel : Nat) (s : UploadState) (h : s.continues = false) :
    uploadLoop fuel s = s := by
  cases fuel with
  | zero => rfl
  | succ fuel => simp [uploadLoop, h]

/-- More iterations than the source has reads left are never needed: the loop
ends because its condition is false, not because the fuel is spent. -/
theorem uploadLoop_exit :
    ∀ (fuel : Nat) (s : UploadState), s.source.length < fuel →
      (uploadLoop fuel s).continues = false := by
  intro fuel
  induction fuel with
  | zero => intro s h; exact absurd h (Nat.not_lt_zero _)
  | succ fuel ih =>
    intro s h
    by_cases hc : s.continues = true
    · simp only [uploadLoop, hc, if_true]
      cases hsrc : s.source with
      | nil =>
        have hstop : (uploadStep s).continues = false := by
          simp [uploadStep, DOS_ReadFile, hsrc, UploadState.continues]
        rw [uploadLoop_done fuel _ hstop]
        exact hstop
      | cons o rest =>
        apply ih
        rw [hsrc] at h
        have hlen : (uploadStep s).source = rest := by
          cases o <;> simp [uploadStep, DOS_ReadFile, hsrc]
        rw [hlen]
        simpa using h
    · have hc2 : s.continues = false := by simpa using hc
      rw [uploadLoop_done _ _ hc2]
      exact hc2

/-- While no read fails the loop records no error, and it never touches the
pending receives. -/
theorem uploadLoop_no_error :
    ∀ (fuel : Nat) (s : UploadState), (∀ left, Read.fails left ∉ s.source) →
      s.read_error = false →
      (uploadLoop fuel s).read_error = false ∧
      (uploadLoop fuel s).transport.recvResults = s.transport.recvResults := by
  intro fuel
  induction fuel with
  | zero => intro s _ he; exact ⟨by simpa [uploadLoop] using he, by simp [uploadLoop]⟩
  | succ fuel ih =>
    intro s hs he
    by_cases hc : s.continues = true
    · simp only [uploadLoop, hc, if_true]
      have hstep : (∀ left, Read.fails left ∉ (uploadStep s).source) ∧
          (uploadStep s).read_error = false ∧
          (uploadStep s).transport.recvResults = s.transport.recvResults := by
        cases hsrc : s.source with
        | nil => simp [uploadStep, DOS_ReadFile, hsrc, Transport.SendBuffer]
        | cons o rest =>
          rw [hsrc] at hs
          cases o with
          | fails left => exact absurd (List.mem_cons_self _ _) (hs left)
          | gives bytes =>
            have : ∀ left, Read.fails left ∉ rest :=
              fun left h => hs left (List.mem_cons_of_mem _ h)
            simp [uploadStep, DOS_ReadFile, hsrc, Transport.SendBuffer, this]
      have := ih (uploadStep s) hstep.1 hstep.2.1
      exact ⟨this.1, this.2.trans hstep.2.2⟩
    · simp [uploadLoop, hc, he]

/-! ## `ScanFile`: the upload -/

/-- The calls `GetResponse` adds to the log: one receive, or two. -/
theorem GetResponse_log (t : Transport) :
    (GetResponse t).2.log = t.log ++ [Event.recv 500] ∨
    (GetResponse t).2.log = t.log ++ [Event.recv 500, Event.recv 300] := by
  unfold GetResponse
  simp only [Transport.Receive]
  split
  · exact Or.inl rfl
  · split
    · exact Or.inl rfl
    · split
      · exact Or.inl rfl
      · right; simp

theorem GetResponse_sends (t : Transport) : sends (GetResponse t).2.log = sends t.log := by
  rcases GetResponse_log t with h | h <;> rw [h, sends_append] <;> simp [sends]

theorem GetResponse_wire (t : Transport) : wire (GetResponse t).2.log = wire t.log := by
  rcases GetResponse_log t with h | h <;> rw [h, wire_append] <;> simp [wire]

theorem SendCommand_instream (t : Transport) :
    (SendCommand t "INSTREAM".toList).2 = (t.SendBuffer instreamBytes).2 := rfl

/-- The header of a chunk of at most 65535 bytes. -/
theorem frame_eq (c : List Nat) (h : c.length ≤ UINT16_MAX) :
    frame c = [0, 0, c.length / 256, c.length % 256] ++ c := by
  have h1 : c.length / 256 % 256 = c.length / 256 := by
    unfold UINT16_MAX at h
    omega
  simp [frame, frameHeader, h1]

/-- A source whose first read gives a non-empty chunk and none of whose reads
fails: the call returns what the parser makes of the decoded response. -/
theorem ScanFile_returned (t : Transport) (c : List Nat) (rest : Source) (vn response : Str)
    (hc : c ≠ []) (hrest : ∀ left, Read.fails left ∉ rest) (hresp : (GetResponse t).1 = .ok response) :
    (ScanFile t (Read.gives c :: rest) vn).returned = parseVerdict response := by
  have hne : (c.take UINT16_MAX).length ≠ 0 := by
    cases c with
    | nil => exact absurd rfl hc
    | cons x xs => simp [UINT16_MAX]
  have hloop := uploadLoop_no_error (rest.length + 1)
    ⟨c.take UINT16_MAX, false, (SendCommand t "INSTREAM".toList).2, rest⟩ hrest rfl
  have hrecv : ((uploadLoop (rest.length + 1)
      ⟨c.take UINT16_MAX, false, (SendCommand t "INSTREAM".toList).2, rest⟩).transport.SendBuffer
        (frameHeader 0)).2.recvResults = t.recvResults := by
    have := hloop.2
    simpa [Transport.SendBuffer, SendCommand, Transport.Send] using this
  have hg := GetResponse_congr _ _ hrecv
  rw [hresp] at hg
  simp only [ScanFile, DOS_ReadFile, Bool.not_true, Bool.false_eq_true, if_false, hne, hg,
    hloop.1]
  cases parseVerdict response with
  | error e => rfl
  | ok v => rfl

/-! ## `rfind` -/

/-- The search fails exactly when the pattern does not occur in the string. -/
theorem rfind_eq_none_iff (pat : Str) : ∀ s : Str, rfind s pat = none ↔ ¬ pat <:+: s := by
  intro s
  induction s with
  | nil =>
    by_cases hp : pat = []
    · simp [rfind, hp]
    · simp [rfind, hp]
  | cons c s ih =>
    rw [List.infix_cons_iff]
    cases hr : rfind s pat with
    | none =>
      have hni := ih.1 hr
      by_cases hpre : pat.isPrefixOf (c :: s) = true
      · have := List.isPrefixOf_iff_prefix.1 hpre
        simp [rfind, hr, hpre, this]
      · have : ¬ pat <+: c :: s := fun h => hpre (List.isPrefixOf_iff_prefix.2 h)
        simp [rfind, hr, hpre, this, hni]
    | some i =>
      have hin : pat <:+: s := by
        by_contra hcon
        rw [ih.2 hcon] at hr
        exact absurd hr (by simp)
      simp [rfind, hr, hin]

/-- The last occurrence: the pattern occurs where the second part starts, and
nowhere later. -/
theorem rfind_append_cons (pat a : Str) (c : Char) (b : Str)
    (hpre : pat.isPrefixOf (c :: b) = true) (hlater : rfind b pat = none) :
    rfind (a ++ c :: b) pat = some a.length := by
  induction a with
  | nil => simp [rfind, hlater, hpre]
  | cons x a ih => simp [rfind, ih]

/-- The last space of a string that ends in a space-free token. -/
theorem rfind_space (a tok : Str) (htok : ' ' ∉ tok) :
    rfind (a ++ ' ' :: tok) [' '] = some a.length := by
  apply rfind_append_cons
  · simp [List.isPrefixOf]
  · rw [rfind_eq_none_iff]
    intro h
    exact htok (h.subset (by simp))

/-! ## The positions found in a well-formed response line -/

theorem marker_toList : "stream: ".toList = ['s', 't', 'r', 'e', 'a', 'm', ':', ' '] := rfl

theorem size_sub_eq (a b : Nat) (hb : b ≤ a) (ha : a < SIZE_MOD) : size_sub a b = a - b := by
  unfold size_sub
  have hb2 : b < SIZE_MOD := by omega
  rw [Nat.mod_eq_of_lt ha, Nat.mod_eq_of_lt hb2]
  have h1 : a + (SIZE_MOD - b) = (a - b) + SIZE_MOD := by omega
  rw [h1, Nat.add_mod_right]
  exact Nat.mod_eq_of_lt (by omega)

/-- No marker starts inside a space-free name that does not end in
`stream:`, nor in the space-free token after it. -/
theorem rfind_marker_none (N tok : Str) (hN : ' ' ∉ N) (htok : ' ' ∉ tok)
    (hsuf : ¬ "stream:".toList <:+ N) :
    rfind (N ++ ' ' :: tok) "stream: ".toList = none := by
  rw [rfind_eq_none_iff]
  rintro ⟨a, b, hab⟩
  have hab2 : (a ++ "stream:".toList) ++ ' ' :: b = N ++ ' ' :: tok := by
    rw [← hab]
    simp [marker_toList]
  rcases List.append_eq_append_iff.1 hab2 with ⟨m, h1, h2⟩ | ⟨m, h1, h2⟩
  · cases m with
    | nil => exact hsuf ⟨a, by simpa using h1.symm⟩
    | cons x m =>
      simp at h2
      exact hN (by rw [h1, ← h2.1]; simp)
  · cases m with
    | nil => exact hsuf ⟨a, by simpa using h1⟩
    | cons x m =>
      simp at h2
      exact htok (by rw [h2.2]; simp)

/-- The last marker of `P ++ "stream: " ++ N ++ " " ++ tok` is the one
written out. -/
theorem rfind_marker (P N tok : Str) (hN : ' ' ∉ N) (htok : ' ' ∉ tok)
    (hsuf : ¬ "stream:".toList <:+ N) :
    rfind (P ++ "stream: ".toList ++ N ++ ' ' :: tok) "stream: ".toList = some P.length := by
  have h := rfind_marker_none N tok hN htok hsuf
  have hshape : P ++ "stream: ".toList ++ N ++ ' ' :: tok =
      P ++ 's' :: ('t' :: 'r' :: 'e' :: 'a' :: 'm' :: ':' :: ' ' :: (N ++ ' ' :: tok)) := by
    simp [marker_toList]
  rw [hshape]
  apply rfind_append_cons
  · simp [marker_toList, List.isPrefixOf]
  · rw [marker_toList] at h
    simp [rfind, h, marker_toList, List.isPrefixOf]

/-! ## The parser on a `FOUND` line -/

theorem substrFrom_status (a : Str) (c : Char) (tok : Str) :
    substrFrom (a ++ c :: tok) (a.length + 1) = .ok tok := by
  have h : a.length + 1 ≤ (a ++ c :: tok).length := by simp
  have hd : (a ++ c :: tok).drop (a.length + 1) = tok := by
    rw [← List.drop_drop, List.drop_left]
    rfl
  simp only [substrFrom, h, if_true, hd]

/-- The name extracted from `P ++ "stream: " ++ N ++ tail` between the marker
at `P.length` and the status position right after `N` is `N`, then
normalised. -/
theorem extractName_eq (P N tail n1 name : Str)
    (hlen : (P ++ "stream: ".toList ++ N ++ tail).length < SIZE_MOD)
    (hwin : stripWin N = .ok n1) (hsuffix : stripSuffix n1 = .ok name) :
    extractName (P ++ "stream: ".toList ++ N ++ tail) P.length
      (P ++ "stream: ".toList ++ N).length = .ok name := by
  have hm : "stream: ".toList.length = 8 := rfl
  simp only [List.length_append, hm] at hlen
  have hend : size_sub (size_sub (P ++ "stream: ".toList ++ N).length P.length) 8 = N.length := by
    simp only [List.length_append, hm]
    have hin : size_sub (P.length + 8 + N.length) P.length = 8 + N.length := by
      rw [size_sub_eq _ _ (by omega) (by omega)]
      omega
    rw [hin, size_sub_eq _ _ (by omega) (by omega)]
    omega
  have hpos : P.length + 8 ≤ (P ++ "stream: ".toList ++ N ++ tail).length := by
    simp only [List.length_append, hm]
    omega
  have hsub : ((P ++ "stream: ".toList ++ N ++ tail).drop (P.length + 8)).take N.length = N := by
    have h8 : P.length + 8 = (P ++ "stream: ".toList).length := by simp [hm]
    rw [List.append_assoc (P ++ "stream: ".toList), h8, List.drop_left, List.take_left]
  simp only [extractName, hend, substr, hpos, if_true, hsub, hwin, hsuffix]

/-- The parser on `P ++ "stream: " ++ N ++ " FOUND"`, where the name `N` has
no space and does not end in `stream:`. -/
theorem parseVerdict_found (P N n1 name : Str) (hN : ' ' ∉ N)
    (hsuf : ¬ "stream:".toList <:+ N)
    (hlen : (P ++ "stream: ".toList ++ N ++ " FOUND".toList).length < SIZE_MOD)
    (hwin : stripWin N = .ok n1) (hsuffix : stripSuffix n1 = .ok name) :
    parseVerdict (P ++ "stream: ".toList ++ N ++ " FOUND".toList) =
      .ok (VirusCheckResult.Infected, name) := by
  have hname := extractName_eq P N " FOUND".toList n1 name hlen hwin hsuffix
  have hR : " FOUND".toList = ' ' :: "FOUND".toList := rfl
  rw [hR] at hname ⊢
  have h1 := rfind_marker P N "FOUND".toList hN (by decide) hsuf
  have h2 := rfind_space (P ++ "stream: ".toList ++ N) "FOUND".toList (by decide)
  have h3 := substrFrom_status (P ++ "stream: ".toList ++ N) ' ' "FOUND".toList
  have hlt : ¬ P.length ≥ (P ++ "stream: ".toList ++ N).length := by
    simp [marker_toList]
  have hok : ¬ "FOUND".toList = "OK".toList := by decide
  simp only [parseVerdict, h1, h2, h3, hok, if_false, if_true, hlt, hname]

/-! ## Name normalisation -/

theorem win_toList : "Win.".toList = ['W', 'i', 'n', '.'] := rfl

/-- A name that begins with `Win.` and goes on loses these four characters. -/
theorem stripWin_win (M : Str) (hM : M ≠ []) : stripWin ("Win.".toList ++ M) = .ok M := by
  have hlen : ("Win.".toList ++ M).length > 4 := by
    cases M with
    | nil => exact absurd rfl hM
    | cons x xs => simp [win_toList]
  have hst : starts_with "Win.".toList ("Win.".toList ++ M) = true := by
    simp [starts_with, win_toList, List.isPrefixOf]
  have hle : 4 ≤ ("Win.".toList ++ M).length := by omega
  simp only [stripWin, hlen, hst, and_self, if_true, substrFrom, hle]
  rfl

/-- A name that does not begin with `Win.` is left alone. -/
theorem stripWin_other (N : Str) (h : ¬ "Win.".toList <+: N) : stripWin N = .ok N := by
  have hst : ¬ starts_with "Win.".toList N = true := by
    intro hs
    exact h (List.isPrefixOf_iff_prefix.1 hs)
  have hcond : ¬ (N.length > 4 ∧ starts_with "Win.".toList N = true) := fun hc => hst hc.2
  simp only [stripWin, hcond, if_false]

theorem charAt_append_cons (a : Str) (c : Char) (b : Str) :
    charAt (a ++ c :: b) a.length = .ok c := by
  have h : a.length < (a ++ c :: b).length := by simp
  have hget : (a ++ c :: b)[a.length] = c := List.getElem_of_append rfl rfl
  simp only [charAt, h, dite_true, List.get_eq_getElem, hget]

theorem stripSuffixLoop_step (name : Str) (pos : Nat) (c : Char) (hpos : 2 ≤ pos)
    (hc : charAt name pos = .ok c) :
    stripSuffixLoop name pos =
      if '0' ≤ c ∧ c ≤ '9' then stripSuffixLoop name (pos - 1)
      else if c ≠ '-' then .ok name
      else substr name 0 pos := by
  obtain ⟨p, rfl⟩ : ∃ p, pos = p + 2 := ⟨pos - 2, by omega⟩
  simp only [stripSuffixLoop, hc]
  rfl

/-- The scan started on the last of a run of digits that follows a hyphen at
index 2 or more cuts the name at the hyphen. -/
theorem stripSuffixLoop_hyphen (F : Str) (hF : 2 ≤ F.length) :
    ∀ (D T : Str), (∀ c ∈ D, '0' ≤ c ∧ c ≤ '9') →
      stripSuffixLoop (F ++ '-' :: (D ++ T)) (F.length + D.length) = .ok F := by
  intro D
  induction D using List.reverseRecOn with
  | nil =>
    intro T _
    have hc := charAt_append_cons F '-' T
    have hnd : ¬ ('0' ≤ '-' ∧ '-' ≤ '9') := by decide
    rw [List.nil_append, List.length_nil, Nat.add_zero,
      stripSuffixLoop_step _ _ _ hF hc, if_neg hnd]
    simp [substr]
  | append_singleton D d ih =>
    intro T hD
    have hd : '0' ≤ d ∧ d ≤ '9' := hD d (by simp)
    have hshape : F ++ '-' :: (D ++ [d] ++ T) = (F ++ '-' :: D) ++ d :: T := by simp
    have hc : charAt (F ++ '-' :: (D ++ [d] ++ T)) (F.length + (D ++ [d]).length) = .ok d := by
      rw [hshape]
      have := charAt_append_cons (F ++ '-' :: D) d T
      have hl : (F ++ '-' :: D).length = F.length + (D ++ [d]).length := by
        simp
      rw [← hl]
      exact this
    rw [stripSuffixLoop_step _ _ _ (by omega) hc, if_pos hd]
    have hpos : F.length + (D ++ [d]).length - 1 = F.length + D.length := by simp
    rw [hpos]
    have := ih (d :: T) (fun c hc => hD c (by simp [hc]))
    simpa using this

/-- A name `F ++ "-" ++ D` with `F` of two characters or more and `D` all
digits is cut down to `F`. -/
theorem stripSuffix_hyphen (F D : Str) (hF : 2 ≤ F.length)
    (hD : ∀ c ∈ D, '0' ≤ c ∧ c ≤ '9') (hlen : (F ++ '-' :: D).length < SIZE_MOD) :
    stripSuffix (F ++ '-' :: D) = .ok F := by
  have hpos : size_sub (F ++ '-' :: D).length 1 = F.length + D.length := by
    rw [size_sub_eq _ _ (by simp only [List.length_append, List.length_cons]; omega) hlen]
    simp
  have := stripSuffixLoop_hyphen F hF D [] hD
  rw [List.append_nil] at this
  rw [stripSuffix, hpos, this]

/-- The scan started at a position right of which all characters are digits
leaves alone a name that does not end in a hyphen followed by digits. -/
theorem stripSuffixLoop_unchanged :
    ∀ (A : Str) (c : Char) (T : Str), (∀ d ∈ T, '0' ≤ d ∧ d ≤ '9') →
      endsInHyphenDigits (A ++ c :: T) = false →
      stripSuffixLoop (A ++ c :: T) A.length = .ok (A ++ c :: T) := by
  intro A
  induction A using List.reverseRecOn with
  | nil => intro c T _ _; rfl
  | append_singleton A a ih =>
    intro c T hT hends
    by_cases hA : A = []
    · subst hA
      rfl
    · have hpos : 2 ≤ (A ++ [a]).length := by
        cases A with
        | nil => exact absurd rfl hA
        | cons x xs => simp
      have hc := charAt_append_cons (A ++ [a]) c T
      rw [stripSuffixLoop_step _ _ _ hpos hc]
      by_cases hd : '0' ≤ c ∧ c ≤ '9'
      · rw [if_pos hd]
        have hshape : A ++ [a] ++ c :: T = A ++ a :: (c :: T) := by simp
        have hl : (A ++ [a]).length - 1 = A.length := by simp
        rw [hl, hshape]
        apply ih
        · intro d hdm
          rcases List.mem_cons.1 hdm with rfl | h
          · exact hd
          · exact hT d h
        · rw [← hshape]
          exact hends
      · rw [if_neg hd]
        have hne : c ≠ '-' := by
          intro hceq
          have hrev : (A ++ [a] ++ c :: T).reverse = T.reverse ++ c :: (A ++ [a]).reverse := by
            simp
          have hdrop : ∀ x ∈ T.reverse,
              (fun c => decide ('0' ≤ c ∧ c ≤ '9')) x = true := by
            intro x hx
            simpa using hT x (List.mem_reverse.1 hx)
          have hcd : decide ('0' ≤ c ∧ c ≤ '9') = false := by simpa using hd
          have : endsInHyphenDigits (A ++ [a] ++ c :: T) = true := by
            unfold endsInHyphenDigits
            rw [hrev, List.dropWhile_append_of_pos hdrop, List.dropWhile_cons, hcd]
            simp [hceq]
          rw [this] at hends
          exact absurd hends (by simp)
        rw [if_pos hne]

/-- A non-empty name that does not end in a hyphen followed by digits is left
alone by the suffix rule. -/
theorem stripSuffix_unchanged (N : Str) (hne : N ≠ []) (hlen : N.length < SIZE_MOD)
    (hends : endsInHyphenDigits N = false) : stripSuffix N = .ok N := by
  obtain ⟨A, c, rfl⟩ : ∃ A c, N = A ++ [c] := by
    rcases List.eq_nil_or_concat N with h | ⟨A, c, h⟩
    · exact absurd h hne
    · exact ⟨A, c, by simpa using h⟩
  have hpos : size_sub (A ++ [c]).length 1 = A.length := by
    rw [size_sub_eq _ _ (by simp) hlen]
    simp
  rw [stripSuffix, hpos]
  exact stripSuffixLoop_unchanged A c [] (by simp) hends

/-! ## `ScanFile`: the transcript of the upload -/

/-- The transport once the command, the frames of the chunks and the
terminator have been sent. -/
theorem sendAll_upload (t : Transport) (chunks : List (List Nat)) :
    ((sendAll (SendCommand t "INSTREAM".toList).2 (chunks.map frame)).SendBuffer
      (frameHeader 0)).2 = sendAll t (instreamBytes :: chunks.map frame ++ [[0, 0, 0, 0]]) := by
  rw [SendCommand_instream]
  have h : instreamBytes :: chunks.map frame ++ [[0, 0, 0, 0]] =
      [instreamBytes] ++ chunks.map frame ++ [[0, 0, 0, 0]] := rfl
  rw [h, sendAll_append, sendAll_append]
  rfl

theorem upload_wire (t : Transport) (chunks : List (List Nat)) :
    wire (GetResponse (sendAll t (instreamBytes :: chunks.map frame ++ [[0, 0, 0, 0]]))).2.log =
      wire t.log ++ instreamBytes ++ frames chunks ++ [0, 0, 0, 0] := by
  have h : instreamBytes :: chunks.map frame ++ [[0, 0, 0, 0]] =
      [instreamBytes] ++ chunks.map frame ++ [[0, 0, 0, 0]] := rfl
  rw [GetResponse_wire, sendAll_log, wire_append, h, List.map_append, List.map_append,
    wire_append, wire_append, wire_map_send_frames]
  simp [wire]

theorem upload_sends (t : Transport) (chunks : List (List Nat)) :
    sends (GetResponse (sendAll t (instreamBytes :: chunks.map frame ++ [[0, 0, 0, 0]]))).2.log =
      sends t.log ++ (instreamBytes :: chunks.map frame ++ [[0, 0, 0, 0]]) := by
  rw [GetResponse_sends, sendAll_log, sends_append, sends_map_send]

/-- The whole call on a source that yields chunks and then fails. -/
theorem ScanFile_eq_read_fails (t : Transport) (c : List Nat) (cs : List (List Nat))
    (left : List Nat) (rest : Source) (vn : Str) (hchunks : ∀ x ∈ c :: cs, x ≠ [] ∧ x.length ≤ UINT16_MAX) :
    ScanFile t ((c :: cs).map Read.gives ++ Read.fails left :: rest) vn =
      ⟨.ok (VirusCheckResult.ReadError, []),
       (GetResponse (sendAll t (instreamBytes :: (c :: cs).map frame ++ [[0, 0, 0, 0]]))).2,
       rest⟩ := by
  have h := frame_ne_nil_take c (hchunks c (by simp))
  have hne : c.length ≠ 0 := by simpa using h.2
  have hloop := uploadLoop_read_fails left rest cs c (SendCommand t "INSTREAM".toList).2
    ((cs.map Read.gives ++ Read.fails left :: rest).length + 1) hchunks (by simp)
  obtain ⟨r, hr⟩ := GetResponse_ok
    (sendAll t (instreamBytes :: (c :: cs).map frame ++ [[0, 0, 0, 0]]))
  simp only [ScanFile, List.map_cons, List.cons_append, DOS_ReadFile, Bool.not_true,
    Bool.false_eq_true, if_false, h.1, hne]
  rw [hloop]
  simp only [sendAll_upload, hr, if_true]
  rfl

/-- The transport after the call on a source that yields chunks and then a
zero-length read. -/
theorem ScanFile_transport_reads_end (t : Transport) (c : List Nat) (cs : List (List Nat))
    (rest : Source) (vn : Str) (hchunks : ∀ x ∈ c :: cs, x ≠ [] ∧ x.length ≤ UINT16_MAX) :
    (ScanFile t ((c :: cs).map Read.gives ++ Read.gives [] :: rest) vn).transport =
      (GetResponse (sendAll t (instreamBytes :: (c :: cs).map frame ++ [[0, 0, 0, 0]]))).2 := by
  have h := frame_ne_nil_take c (hchunks c (by simp))
  have hne : c.length ≠ 0 := by simpa using h.2
  have hloop := uploadLoop_reads_end rest cs c (SendCommand t "INSTREAM".toList).2
    ((cs.map Read.gives ++ Read.gives [] :: rest).length + 1) hchunks (by simp)
  obtain ⟨r, hr⟩ := GetResponse_ok
    (sendAll t (instreamBytes :: (c :: cs).map frame ++ [[0, 0, 0, 0]]))
  simp only [ScanFile, List.map_cons, List.cons_append, DOS_ReadFile, Bool.not_true,
    Bool.false_eq_true, if_false, h.1, hne]
  rw [hloop]
  simp only [sendAll_upload, hr]
  cases parseVerdict r with
  | error e => rfl
  | ok v => rfl

/-- A name whose last character is a digit does not end in `stream:`. -/
theorem not_suffix_of_digit_last (M D : Str) (hD : D ≠ [])
    (hDd : ∀ x ∈ D, '0' ≤ x ∧ x ≤ '9') : ¬ "stream:".toList <:+ M ++ D := by
  rintro ⟨a, ha⟩
  rcases List.eq_nil_or_concat D with h | ⟨D0, d, h⟩
  · exact hD h
  · have hd : '0' ≤ d ∧ d ≤ '9' := hDd d (by rw [h]; simp)
    have hshape : (a ++ "stream".toList) ++ [':'] = (M ++ D0) ++ [d] := by
      rw [h, List.concat_eq_append] at ha
      rw [List.append_assoc, List.append_assoc, ← ha]
      rfl
    have := (List.append_inj' hshape rfl).2
    have hcolon : d = ':' := by simpa using this.symm
    rw [hcolon] at hd
    exact absurd hd (by decide)

/-! ## Claims about `ScanFile` -/

/-- C1: when the source yields one or more non-empty chunks and its next read
fails, whatever that read leaves in the buffer and in `amount` (`left`, which
may be non-empty), `ScanFile` returns `ReadError` with an empty `virus_name`,
whatever the daemon answers; the transport is left as by one call of
`GetResponse` made after the INSTREAM command, the frame of every chunk and
the zero-length terminator frame have been sent, in this order, and nothing
of `left` is sent. -/
theorem ScanFile_midstream_read_failure (t : Transport) (chunks : List (List Nat))
    (left : List Nat) (rest : Source) (vn : Str) (hk : chunks ≠ [])
    (hchunks : ∀ c ∈ chunks, c ≠ [] ∧ c.length ≤ UINT16_MAX) :
    (ScanFile t (chunks.map Read.gives ++ Read.fails left :: rest) vn).returned =
      .ok (VirusCheckResult.ReadError, []) ∧
    (ScanFile t (chunks.map Read.gives ++ Read.fails left :: rest) vn).transport =
      (GetResponse (sendAll t (instreamBytes :: chunks.map frame ++ [[0, 0, 0, 0]]))).2 ∧
    sends (ScanFile t (chunks.map Read.gives ++ Read.fails left :: rest) vn).transport.log =
      sends t.log ++ (instreamBytes :: chunks.map frame ++ [[0, 0, 0, 0]]) ∧
    wire (ScanFile t (chunks.map Read.gives ++ Read.fails left :: rest) vn).transport.log =
      wire t.log ++ instreamBytes ++ frames chunks ++ [0, 0, 0, 0] := by
  obtain ⟨c, cs, rfl⟩ := List.exists_cons_of_ne_nil hk
  rw [ScanFile_eq_read_fails t c cs left rest vn hchunks]
  exact ⟨rfl, rfl, upload_sends t (c :: cs), upload_wire t (c :: cs)⟩

theorem ScanFile_midstream_read_failure_witness :
    ([[1, 2, 3], [4]] ≠ [] ∧ ∀ c ∈ [[1, 2, 3], [4]], c ≠ [] ∧ c.length ≤ UINT16_MAX) ∧
    (ScanFile ⟨[], [], ["1: stream: Eicar FOUND".toList], []⟩
      ([[1, 2, 3], [4]].map Read.gives ++ Read.fails [6, 7] :: [Read.gives [5]])
      ['x']).returned = .ok (VirusCheckResult.ReadError, []) ∧
    wire (ScanFile ⟨[], [], ["1: stream: Eicar FOUND".toList], []⟩
      ([[1, 2, 3], [4]].map Read.gives ++ Read.fails [6, 7] :: [Read.gives [5]])
      ['x']).transport.log =
      instreamBytes ++ frames [[1, 2, 3], [4]] ++ [0, 0, 0, 0] :=
  have h := ScanFile_midstream_read_failure ⟨[], [], ["1: stream: Eicar FOUND".toList], []⟩
    [[1, 2, 3], [4]] [6, 7] [Read.gives [5]] ['x'] (by decide) (by decide)
  ⟨⟨by decide, by decide⟩, h.1, h.2.2.2⟩

/-- C2: when the source yields the non-empty chunks `c1 .. ck` (`k ≥ 1`, each
of at most 65535 bytes) and then a successful zero-length read, the bytes
handed to the transport are `z`, `INSTREAM`, NUL, then the frame of each chunk
in read order, then the terminator `00 00 00 00`; each frame is the four
header bytes `0, 0, n / 256, n % 256` followed by the `n` bytes of the chunk;
the command is sent exactly once and the payloads add up to the bytes read. -/
theorem ScanFile_upload_transcript (t : Transport) (chunks : List (List Nat))
    (rest : Source) (vn : Str) (hk : chunks ≠ [])
    (hchunks : ∀ c ∈ chunks, c ≠ [] ∧ c.length ≤ UINT16_MAX) :
    wire (ScanFile t (chunks.map Read.gives ++ Read.gives [] :: rest) vn).transport.log =
      wire t.log ++ instreamBytes ++ frames chunks ++ [0, 0, 0, 0] ∧
    sends (ScanFile t (chunks.map Read.gives ++ Read.gives [] :: rest) vn).transport.log =
      sends t.log ++ (instreamBytes :: chunks.map frame ++ [[0, 0, 0, 0]]) ∧
    instreamBytes = ('z' :: "INSTREAM".toList ++ [Char.ofNat 0]).map Char.toNat ∧
    (instreamBytes :: chunks.map frame ++ [[0, 0, 0, 0]]).count instreamBytes = 1 ∧
    (∀ c ∈ chunks, frame c = [0, 0, c.length / 256, c.length % 256] ++ c) ∧
    payload (chunks.map (fun c => (frame c).drop 4)) = payload chunks := by
  have hframe : ∀ c ∈ chunks, frame c = [0, 0, c.length / 256, c.length % 256] ++ c :=
    fun c hc => frame_eq c (hchunks c hc).2
  have hdrop : ∀ cs : List (List Nat), cs.map (fun c => (frame c).drop 4) = cs := by
    intro cs
    induction cs with
    | nil => rfl
    | cons c cs ih => simp [ih, frame, frameHeader]
  have hcount : (chunks.map frame ++ [[0, 0, 0, 0]]).count instreamBytes = 0 := by
    rw [List.count_eq_zero]
    intro hmem
    rcases List.mem_append.1 hmem with h | h
    · obtain ⟨c, _, hc⟩ := List.mem_map.1 h
      have h0 : (frame c).head? = some 0 := by simp [frame, frameHeader]
      rw [hc] at h0
      exact absurd h0 (by decide)
    · exact absurd h (by decide)
  obtain ⟨c, cs, rfl⟩ := List.exists_cons_of_ne_nil hk
  rw [ScanFile_transport_reads_end t c cs rest vn hchunks]
  refine ⟨upload_wire t (c :: cs), upload_sends t (c :: cs), rfl, ?_, hframe, ?_⟩
  · rw [List.cons_append, List.count_cons_self, hcount]
  · rw [hdrop]

theorem ScanFile_upload_transcript_witness :
    ([[7, 8], [9]] ≠ [] ∧ ∀ c ∈ [[7, 8], [9]], c ≠ [] ∧ c.length ≤ UINT16_MAX) ∧
    wire (ScanFile ⟨[], [], ["1: stream: OK".toList], []⟩
      ([[7, 8], [9]].map Read.gives ++ Read.gives [] :: []) []).transport.log =
      [122, 73, 78, 83, 84, 82, 69, 65, 77, 0] ++ frames [[7, 8], [9]] ++ [0, 0, 0, 0] :=
  ⟨⟨by decide, by decide⟩,
   (ScanFile_upload_transcript ⟨[], [], ["1: stream: OK".toList], []⟩ [[7, 8], [9]] [] []
      (by decide) (by decide)).1⟩

/-- C8: for a source whose first read gives a non-empty chunk and none of whose
reads fails, a decoded response that does not contain `stream: ` (the empty
response of a timeout included) gives `ScannerError` and an empty
`virus_name`. -/
theorem ScanFile_missing_marker (t : Transport) (c : List Nat) (rest : Source)
    (vn response : Str) (hc : c ≠ []) (hrest : ∀ left, Read.fails left ∉ rest)
    (hresp : (GetResponse t).1 = .ok response)
    (hno : ¬ "stream: ".toList <:+: response) :
    (ScanFile t (Read.gives c :: rest) vn).returned = .ok (VirusCheckResult.ScannerError, []) := by
  rw [ScanFile_returned t c rest vn response hc hrest hresp]
  have h := (rfind_eq_none_iff "stream: ".toList response).2 hno
  simp only [parseVerdict, h]

theorem ScanFile_missing_marker_witness :
    ([1] ≠ [] ∧ (∀ left, Read.fails left ∉ ([] : Source)) ∧
      (GetResponse ⟨[], [], [], []⟩).1 = .ok [] ∧ ¬ "stream: ".toList <:+: []) ∧
    (ScanFile ⟨[], [], [], []⟩ (Read.gives [1] :: []) ['x']).returned =
      .ok (VirusCheckResult.ScannerError, []) :=
  ⟨⟨by decide, by simp, rfl, by decide⟩,
   ScanFile_missing_marker ⟨[], [], [], []⟩ [1] [] ['x'] [] (by decide) (by simp) rfl
     (by decide)⟩

/-- C9: if the first read succeeds and returns zero bytes, `ScanFile` returns
`Clean` with an empty `virus_name` and leaves the transport as it was: nothing
is sent and nothing is received. -/
theorem ScanFile_empty_source (t : Transport) (src : Source) (vn : Str)
    (hok : (DOS_ReadFile src UINT16_MAX).1 = true)
    (hzero : (DOS_ReadFile src UINT16_MAX).2.1 = []) :
    (ScanFile t src vn).returned = .ok (VirusCheckResult.Clean, []) ∧
    (ScanFile t src vn).transport = t := by
  simp [ScanFile, hok, hzero, clear]

theorem ScanFile_empty_source_witness :
    ((DOS_ReadFile [Read.gives []] UINT16_MAX).1 = true ∧
      (DOS_ReadFile [Read.gives []] UINT16_MAX).2.1 = []) ∧
    (ScanFile ⟨[], [true], ["1: stream: OK".toList], []⟩ [Read.gives []] ['x']).returned =
      .ok (VirusCheckResult.Clean, []) ∧
    (ScanFile ⟨[], [true], ["1: stream: OK".toList], []⟩ [Read.gives []] ['x']).transport =
      ⟨[], [true], ["1: stream: OK".toList], []⟩ :=
  ⟨⟨rfl, rfl⟩,
   ScanFile_empty_source ⟨[], [true], ["1: stream: OK".toList], []⟩ [Read.gives []] ['x'] rfl rfl⟩

/-- C10: if the very first read of the source fails, `ScanFile` returns
`ReadError` with an empty `virus_name` and leaves the transport as it was:
nothing is sent and nothing is received. -/
theorem ScanFile_first_read_fails (t : Transport) (src : Source) (vn : Str)
    (hfail : (DOS_ReadFile src UINT16_MAX).1 = false) :
    (ScanFile t src vn).returned = .ok (VirusCheckResult.ReadError, []) ∧
    (ScanFile t src vn).transport = t := by
  simp [ScanFile, hfail, clear]

theorem ScanFile_first_read_fails_witness :
    (DOS_ReadFile [Read.fails [2, 3], Read.gives [1]] UINT16_MAX).1 = false ∧
    (ScanFile ⟨[], [true], ["1: stream: OK".toList], []⟩ [Read.fails [2, 3], Read.gives [1]] ['x']).returned =
      .ok (VirusCheckResult.ReadError, []) ∧
    (ScanFile ⟨[], [true], ["1: stream: OK".toList], []⟩ [Read.fails [2, 3], Read.gives [1]] ['x']).transport =
      ⟨[], [true], ["1: stream: OK".toList], []⟩ :=
  ⟨rfl, ScanFile_first_read_fails ⟨[], [true], ["1: stream: OK".toList], []⟩
    [Read.fails [2, 3], Read.gives [1]] ['x'] rfl⟩

/-- C3: the code at a FOUND line whose name start (index 8) is not before the
status position (index 7): the decoded response is `stream: FOUND`, the guard
`pos_name >= pos_status` compares 0 with 7 and lets it pass, the length
`pos_status - pos_name - 8` wraps around, and the call returns `Infected` with
the name `FOUND` instead of `ScannerError` with no name. -/
theorem ScanFile_inconsistent_found_line :
    (GetResponse ⟨[], [], ["1: stream: FOUND".toList], []⟩).1 = .ok "stream: FOUND".toList ∧
    rfind "stream: FOUND".toList "stream: ".toList = some 0 ∧
    rfind "stream: FOUND".toList [' '] = some 7 ∧
    size_sub (size_sub 7 0) 8 = SIZE_MOD - 1 ∧
    (ScanFile ⟨[], [], ["1: stream: FOUND".toList], []⟩ [Read.gives [1]] []).returned =
      .ok (VirusCheckResult.Infected, "FOUND".toList) :=
  ⟨rfl, rfl, rfl, rfl, rfl⟩

/-- C4: the code at a bare payload: the receive returns `stream: OK` (or
`stream: x OK`), the decoder strips it through its first `: `, the marker is
gone from the decoded response, and the call returns `ScannerError` instead of
`Clean`; with the id prefix the same payload gives `Clean`. -/
theorem ScanFile_bare_payload :
    (GetResponse ⟨[], [], ["stream: OK".toList], []⟩).1 = .ok "OK".toList ∧
    (ScanFile ⟨[], [], ["stream: OK".toList], []⟩ [Read.gives [1]] []).returned =
      .ok (VirusCheckResult.ScannerError, []) ∧
    (GetResponse ⟨[], [], ["stream: x OK".toList], []⟩).1 = .ok "x OK".toList ∧
    (ScanFile ⟨[], [], ["stream: x OK".toList], []⟩ [Read.gives [1]] []).returned =
      .ok (VirusCheckResult.ScannerError, []) ∧
    (ScanFile ⟨[], [], ["1: stream: OK".toList], []⟩ [Read.gives [1]] []).returned =
      .ok (VirusCheckResult.Clean, []) :=
  ⟨rfl, rfl, rfl, rfl, rfl⟩

/-- C5, as stated, fails for a family name of one character: the decoded
response `stream: Win.X-1 FOUND` reports the name `X-1`, not `X`, because the
suffix scan stops above index 1. -/
theorem ScanFile_name_normalised_counterexample :
    ("X".toList ≠ [] ∧ ' ' ∉ "X".toList ∧ "1".toList ≠ [] ∧
      ∀ x ∈ "1".toList, '0' ≤ x ∧ x ≤ '9') ∧
    (GetResponse ⟨[], [], ["1: stream: Win.X-1 FOUND".toList], []⟩).1 =
      .ok ([] ++ "stream: Win.".toList ++ "X".toList ++ "-".toList ++ "1".toList ++
        " FOUND".toList) ∧
    (ScanFile ⟨[], [], ["1: stream: Win.X-1 FOUND".toList], []⟩ [Read.gives [1]] []).returned =
      .ok (VirusCheckResult.Infected, "X-1".toList) ∧
    (ScanFile ⟨[], [], ["1: stream: Win.X-1 FOUND".toList], []⟩ [Read.gives [1]] []).returned ≠
      .ok (VirusCheckResult.Infected, "X".toList) :=
  ⟨⟨by decide, by decide, by decide, by decide⟩, rfl, rfl,
   fun h => absurd (Except.ok.inj ((rfl : (ScanFile ⟨[], [], ["1: stream: Win.X-1 FOUND".toList],
     []⟩ [Read.gives [1]] []).returned = .ok (VirusCheckResult.Infected, "X-1".toList)).symm.trans h))
     (by decide)⟩

/-- C5, amended: for a source whose first read gives a non-empty chunk and
none of whose reads fails, a family name `F` of two characters or more that
contains no space and a non-empty string `D` of decimal digits, when the
decoded response is `P ++ "stream: Win." ++ F ++ "-" ++ D ++ " FOUND"` (of a
length that fits a `size_t`), the result is `Infected` and the reported name
is exactly `F`. -/
theorem ScanFile_name_normalised (t : Transport) (c : List Nat) (rest : Source)
    (vn P F D : Str) (hc : c ≠ []) (hrest : ∀ left, Read.fails left ∉ rest)
    (hF : 2 ≤ F.length) (hFsp : ' ' ∉ F) (hD : D ≠ [])
    (hDd : ∀ x ∈ D, '0' ≤ x ∧ x ≤ '9')
    (hlen : (P ++ "stream: Win.".toList ++ F ++ "-".toList ++ D ++
      " FOUND".toList).length < SIZE_MOD)
    (hresp : (GetResponse t).1 =
      .ok (P ++ "stream: Win.".toList ++ F ++ "-".toList ++ D ++ " FOUND".toList)) :
    (ScanFile t (Read.gives c :: rest) vn).returned = .ok (VirusCheckResult.Infected, F) := by
  have hshape : P ++ "stream: Win.".toList ++ F ++ "-".toList ++ D ++ " FOUND".toList =
      P ++ "stream: ".toList ++ ("Win.".toList ++ (F ++ '-' :: D)) ++ " FOUND".toList := by
    have h1 : "stream: Win.".toList = "stream: ".toList ++ "Win.".toList := rfl
    have h2 : "-".toList = ['-'] := rfl
    rw [h1, h2]
    simp
  rw [hshape] at hlen hresp
  rw [ScanFile_returned t c rest vn _ hc hrest hresp]
  have hNsp : ' ' ∉ "Win.".toList ++ (F ++ '-' :: D) := by
    intro hmem
    rcases List.mem_append.1 hmem with h | h
    · exact absurd h (by decide)
    · rcases List.mem_append.1 h with h | h
      · exact hFsp h
      · rcases List.mem_cons.1 h with h | h
        · exact absurd h (by decide)
        · have := hDd ' ' h
          exact absurd this (by decide)
  have hsuf : ¬ "stream:".toList <:+ "Win.".toList ++ (F ++ '-' :: D) := by
    have := not_suffix_of_digit_last ("Win.".toList ++ F ++ ['-']) D hD hDd
    simpa using this
  have hFD : F ++ '-' :: D ≠ [] := by simp
  have hlen2 : (F ++ '-' :: D).length < SIZE_MOD := by
    simp only [List.length_append, List.length_cons] at hlen ⊢
    omega
  exact parseVerdict_found P _ _ F hNsp hsuf hlen (stripWin_win _ hFD)
    (stripSuffix_hyphen F D hF hDd hlen2)

theorem ScanFile_name_normalised_witness :
    ([1] ≠ [] ∧ (∀ left, Read.fails left ∉ ([] : Source)) ∧ 2 ≤ "Foo.Bar".toList.length ∧
      ' ' ∉ "Foo.Bar".toList ∧ "123".toList ≠ [] ∧
      (∀ x ∈ "123".toList, '0' ≤ x ∧ x ≤ '9')) ∧
    (ScanFile ⟨[], [], ["1: stream: Win.Foo.Bar-123 FOUND".toList], []⟩ (Read.gives [1] :: [])
      []).returned = .ok (VirusCheckResult.Infected, "Foo.Bar".toList) :=
  ⟨⟨by decide, by simp, by decide, by decide, by decide, by decide⟩,
   ScanFile_name_normalised ⟨[], [], ["1: stream: Win.Foo.Bar-123 FOUND".toList], []⟩ [1] []
     [] [] "Foo.Bar".toList "123".toList (by decide) (by simp) (by decide) (by decide)
     (by decide) (by decide) (by decide) rfl⟩

/-- C7: the code at the decoded response `stream:  FOUND` (two spaces): the
extracted name is empty, `length() - 1` wraps around to the largest `size_t`,
and the suffix scan indexes the empty name there, outside its bounds. -/
theorem ScanFile_index_out_of_range :
    (GetResponse ⟨[], [], ["1: stream:  FOUND".toList], []⟩).1 =
      .ok "stream:  FOUND".toList ∧
    substr "stream:  FOUND".toList 8 (size_sub (size_sub 8 0) 8) = .ok [] ∧
    size_sub ([] : Str).length 1 = SIZE_MOD - 1 ∧
    charAt [] (SIZE_MOD - 1) = .error Fault.bad_index ∧
    (ScanFile ⟨[], [], ["1: stream:  FOUND".toList], []⟩ [Read.gives [1]] []).returned =
      .error Fault.bad_index :=
  ⟨rfl, rfl, rfl, rfl, rfl⟩

/-! ## `find` -/

/-- The first occurrence: the pattern starts the second part and its first
character does not occur in the first part. -/
theorem find_append (p : Char) (ps a b : Str) (hp : p ∉ a)
    (hpre : (p :: ps).isPrefixOf b = true) : find (a ++ b) (p :: ps) = some a.length := by
  induction a with
  | nil =>
    cases b with
    | nil => simp [List.isPrefixOf] at hpre
    | cons c b => simp [find, hpre]
  | cons x a ih =>
    have hx : p ≠ x := fun h => hp (by simp [h])
    have ha : p ∉ a := fun h => hp (List.mem_cons_of_mem _ h)
    simp [find, List.isPrefixOf, hx, ih ha]

/-- The search fails when the first character of the pattern does not occur. -/
theorem find_none (p : Char) (ps : Str) : ∀ s : Str, p ∉ s → find s (p :: ps) = none := by
  intro s
  induction s with
  | nil => intro _; simp [find]
  | cons x s ih =>
    intro hp
    have hx : p ≠ x := fun h => hp (by simp [h])
    have hs : p ∉ s := fun h => hp (List.mem_cons_of_mem _ h)
    simp [find, List.isPrefixOf, hx, ih hs]

theorem substr_zero_append (a b : Str) : substr (a ++ b) 0 a.length = .ok a := by
  simp [substr]

/-! ## `splitVersion` -/

theorem slash_toList : "/".toList = ['/'] := rfl

/-- A response without `/` is the engine version; the database version is
empty. -/
theorem splitVersion_no_slash (r : Str) (hr : '/' ∉ r) : splitVersion r = .ok (r, []) := by
  have h1 := find_none '/' [] r hr
  have h2 : find [] ['/'] = none := rfl
  simp only [splitVersion, slash_toList, h1, h2]

/-- A response with one `/`: the text before it and the text after it. -/
theorem splitVersion_one_slash (e t : Str) (he : '/' ∉ e) (ht : '/' ∉ t) :
    splitVersion (e ++ '/' :: t) = .ok (e, t) := by
  have h1 := find_append '/' [] e ('/' :: t) he (by simp [List.isPrefixOf])
  have h2 := substrFrom_status e '/' t
  have h3 := substr_zero_append e ('/' :: t)
  have h4 := find_none '/' [] t ht
  simp only [splitVersion, slash_toList, h1, h2, h3, h4]

/-- A response with two `/` or more: the text after the second one is put in
brackets. -/
theorem splitVersion_two_slashes (e a b : Str) (he : '/' ∉ e) (ha : '/' ∉ a) :
    splitVersion (e ++ '/' :: (a ++ '/' :: b)) =
      .ok (e, a ++ " (".toList ++ b ++ ")".toList) := by
  have h1 := find_append '/' [] e ('/' :: (a ++ '/' :: b)) he (by simp [List.isPrefixOf])
  have h2 := substrFrom_status e '/' (a ++ '/' :: b)
  have h3 := substr_zero_append e ('/' :: (a ++ '/' :: b))
  have h4 := find_append '/' [] a ('/' :: b) ha (by simp [List.isPrefixOf])
  have h5 := substrFrom_status a '/' b
  have h6 := substr_zero_append a ('/' :: b)
  simp only [splitVersion, slash_toList, h1, h2, h3, h4, h5, h6]

theorem RetrieveVersion_of_split (c : ClamAV_Base) (r e d : Str)
    (hresp : (GetResponse (SendCommand c.transport "VERSION".toList).2).1 = .ok r)
    (hsplit : splitVersion r = .ok (e, d)) :
    (RetrieveVersion c).1 = .ok () ∧ (RetrieveVersion c).2.engine_version = e ∧
    (RetrieveVersion c).2.database_version = d := by
  simp only [RetrieveVersion, hresp, hsplit, and_self]

/-! ## `GetResponse` on a response with an id -/

theorem colon_space_toList : ": ".toList = [':', ' '] := rfl

theorem strip_first_result_id (D P : Str) (hD : ∀ x ∈ D, '0' ≤ x ∧ x ≤ '9') :
    strip_first_result (D ++ ": ".toList ++ P) = .ok P := by
  have hcolon : ':' ∉ D := fun h => absurd (hD ':' h) (by decide)
  have h1 := find_append ':' [' '] D (':' :: ' ' :: P) hcolon (by simp [List.isPrefixOf])
  have hshape : D ++ ": ".toList ++ P = D ++ ':' :: ' ' :: P := by simp [colon_space_toList]
  have hshape2 : D ++ ':' :: ' ' :: P = (D ++ [':']) ++ ' ' :: P := by simp
  have h2 := substrFrom_status (D ++ [':']) ' ' P
  have hlen : (D ++ [':']).length + 1 = D.length + 2 := by simp
  rw [← hshape2, hlen] at h2
  rw [hshape]
  simp only [strip_first_result, colon_space_toList, h1, h2]

/-! ## The session: what each step does to the transport -/

theorem opens_append (l₁ l₂ : List Event) : opens (l₁ ++ l₂) = opens l₁ ++ opens l₂ := by
  induction l₁ with
  | nil => rfl
  | cons e es ih => cases e <;> simp [opens, ih]

theorem SendCommand_log (t : Transport) (cmd : Str) :
    (SendCommand t cmd).2.log = t.log ++ [Event.send (commandBytes cmd)] := rfl

/-- The splitting always yields two strings. -/
theorem splitVersion_ok (r : Str) : ∃ e d, splitVersion r = .ok (e, d) := by
  have hsecond : ∀ e d : Str, ∃ e' d',
      (match find d "/".toList with
        | some pos =>
          match substr d 0 pos, substrFrom d (pos + 1) with
          | .ok a, .ok b => (.ok (e, a ++ " (".toList ++ b ++ ")".toList) : Except Fault _)
          | .error x, _ => .error x
          | _, .error x => .error x
        | none => .ok (e, d)) = .ok (e', d') := by
    intro e d
    cases hf : find d "/".toList with
    | none => exact ⟨e, d, rfl⟩
    | some pos =>
      have h := find_add_length_le _ _ _ hf
      have h1 : pos + 1 ≤ d.length := by simpa using h
      have hs1 : substrFrom d (pos + 1) = .ok (d.drop (pos + 1)) := by simp [substrFrom, h1]
      have hs2 : substr d 0 pos = .ok (d.take pos) := by simp [substr]
      exact ⟨e, d.take pos ++ " (".toList ++ d.drop (pos + 1) ++ ")".toList,
        by simp only [hs1, hs2]⟩
  cases hf : find r "/".toList with
  | none =>
    obtain ⟨e', d', h⟩ := hsecond r []
    exact ⟨e', d', by simp only [splitVersion, hf, h]⟩
  | some pos =>
    have h := find_add_length_le _ _ _ hf
    have h1 : pos + 1 ≤ r.length := by simpa using h
    have hs1 : substrFrom r (pos + 1) = .ok (r.drop (pos + 1)) := by simp [substrFrom, h1]
    have hs2 : substr r 0 pos = .ok (r.take pos) := by simp [substr]
    obtain ⟨e', d', h⟩ := hsecond (r.take pos) (r.drop (pos + 1))
    exact ⟨e', d', by simp only [splitVersion, hf, hs1, hs2, h]⟩

/-- `RetrieveVersion` sends one command and reads one response; it touches
neither the ready flag nor the index of the protocol in use. -/
theorem RetrieveVersion_frame (c : ClamAV_Base) :
    (RetrieveVersion c).1 = .ok () ∧
    (RetrieveVersion c).2.is_initialized = c.is_initialized ∧
    (RetrieveVersion c).2.used_protocol = c.used_protocol ∧
    (RetrieveVersion c).2.transport =
      (GetResponse (SendCommand c.transport "VERSION".toList).2).2 := by
  obtain ⟨r, hr⟩ := GetResponse_ok (SendCommand c.transport "VERSION".toList).2
  obtain ⟨e, d, hs⟩ := splitVersion_ok r
  simp only [RetrieveVersion, hr, hs, and_self]

/-- The ping never faults. -/
theorem PingDaemon_ok (t : Transport) : ∃ b, (PingDaemon t).1 = .ok b := by
  unfold PingDaemon
  by_cases hs : (SendCommand t "PING".toList).1 = true
  · obtain ⟨r, hr⟩ := GetResponse_ok (SendCommand t "PING".toList).2
    exact ⟨decide (r = "PONG".toList), by simp only [hs, if_true, hr]⟩
  · exact ⟨false, by simp only [hs, Bool.false_eq_true, if_false]⟩

/-- The calls of a ping: the command, then at most two receives. -/
theorem PingDaemon_log (t : Transport) :
    ∃ evs, (PingDaemon t).2.log = t.log ++ Event.send (commandBytes "PING".toList) :: evs ∧
      opens evs = [] ∧ sends evs = [] := by
  unfold PingDaemon
  by_cases hs : (SendCommand t "PING".toList).1 = true
  · obtain ⟨r, hr⟩ := GetResponse_ok (SendCommand t "PING".toList).2
    simp only [hs, if_true, hr]
    rcases GetResponse_log (SendCommand t "PING".toList).2 with h | h
    · exact ⟨[Event.recv 500], by rw [h, SendCommand_log]; simp, rfl, rfl⟩
    · exact ⟨[Event.recv 500, Event.recv 300], by rw [h, SendCommand_log]; simp, rfl, rfl⟩
  · simp only [hs, Bool.false_eq_true, if_false]
    exact ⟨[], by rw [SendCommand_log], rfl, rfl⟩

/-- The attempt on one candidate never faults. -/
theorem tryProtocol_ok (t : Transport) (idx : Nat) : ∃ b, (tryProtocol t idx).1 = .ok b := by
  unfold tryProtocol
  by_cases ho : (t.Open idx).1 = true
  · by_cases hs : (SendCommand (t.Open idx).2 "IDSESSION".toList).1 = true
    · simp only [ho, hs, if_true]
      exact PingDaemon_ok _
    · exact ⟨false, by simp only [ho, hs, if_true, Bool.false_eq_true, if_false]⟩
  · exact ⟨false, by simp only [ho, Bool.false_eq_true, if_false]⟩

/-- The calls of the attempt on one candidate: one `Open` with its index,
then only the commands IDSESSION and PING and receives. -/
theorem tryProtocol_log (t : Transport) (idx : Nat) :
    ∃ evs, (tryProtocol t idx).2.log = t.log ++ Event.opened idx :: evs ∧
      opens evs = [] ∧
      ∀ b ∈ sends evs, b = commandBytes "IDSESSION".toList ∨ b = commandBytes "PING".toList := by
  unfold tryProtocol
  have hopen : (t.Open idx).2.log = t.log ++ [Event.opened idx] := rfl
  by_cases ho : (t.Open idx).1 = true
  · by_cases hs : (SendCommand (t.Open idx).2 "IDSESSION".toList).1 = true
    · simp only [ho, hs, if_true]
      obtain ⟨evs, h1, h2, h3⟩ :=
        PingDaemon_log (SendCommand (t.Open idx).2 "IDSESSION".toList).2
      refine ⟨Event.send (commandBytes "IDSESSION".toList) ::
        Event.send (commandBytes "PING".toList) :: evs, ?_, ?_, ?_⟩
      · rw [h1, SendCommand_log, hopen]
        simp
      · simpa [opens] using h2
      · intro b hb
        simp only [sends, h3, List.mem_cons] at hb
        rcases hb with hb | hb | hb
        · exact Or.inl hb
        · exact Or.inr hb
        · exact absurd hb (List.not_mem_nil _)
    · simp only [ho, hs, if_true, Bool.false_eq_true, if_false]
      refine ⟨[Event.send (commandBytes "IDSESSION".toList)], ?_, rfl, ?_⟩
      · rw [SendCommand_log, hopen]
        simp
      · intro b hb
        simp only [sends, List.mem_cons] at hb
        rcases hb with hb | hb
        · exact Or.inl hb
        · exact absurd hb (List.not_mem_nil _)
  · simp only [ho, Bool.false_eq_true, if_false]
    exact ⟨[], hopen, rfl, by intro b hb; exact absurd hb (List.not_mem_nil _)⟩

/-! ## `PrepareConnection` on the two candidates of `ClamAV` -/

/-- A session that is ready is left alone. -/
theorem PrepareConnection_ready (c : ClamAV_Base) (h : c.is_initialized = true) :
    PrepareConnection c = (.ok true, c) := by
  simp only [PrepareConnection, h, if_true]

/-- The first candidate passes: it is used and the version is asked for. -/
theorem PrepareConnection_first (c : ClamAV_Base) (h : c.is_initialized = false)
    (h0 : (tryProtocol c.transport 0).1 = .ok true) :
    PrepareConnection c =
      (.ok true, (RetrieveVersion ⟨true, 0, [], [], (tryProtocol c.transport 0).2⟩).2) := by
  have hv := RetrieveVersion_frame ⟨true, 0, [], [], (tryProtocol c.transport 0).2⟩
  simp only [PrepareConnection, h, GetNumProtocols, negotiate, h0, Bool.false_eq_true,
    if_false, if_true, Nat.lt_succ_self, Nat.zero_lt_succ, hv.1, hv.2.1]

/-- The first candidate fails and the second passes: the second is used. -/
theorem PrepareConnection_second (c : ClamAV_Base) (h : c.is_initialized = false)
    (h0 : (tryProtocol c.transport 0).1 = .ok false)
    (h1 : (tryProtocol (tryProtocol c.transport 0).2 1).1 = .ok true) :
    PrepareConnection c =
      (.ok true, (RetrieveVersion
        ⟨true, 1, [], [], (tryProtocol (tryProtocol c.transport 0).2 1).2⟩).2) := by
  have hv := RetrieveVersion_frame
    ⟨true, 1, [], [], (tryProtocol (tryProtocol c.transport 0).2 1).2⟩
  simp only [PrepareConnection, h, GetNumProtocols, negotiate, h0, h1, Bool.false_eq_true,
    if_false, if_true, Nat.lt_succ_self, Nat.zero_lt_succ, Nat.zero_add, hv.1, hv.2.1]

/-- Both candidates fail: the session stays as it was, its versions cleared. -/
theorem PrepareConnection_none (c : ClamAV_Base) (h : c.is_initialized = false)
    (h0 : (tryProtocol c.transport 0).1 = .ok false)
    (h1 : (tryProtocol (tryProtocol c.transport 0).2 1).1 = .ok false) :
    PrepareConnection c =
      (.ok false, ⟨false, c.used_protocol, [], [],
        (tryProtocol (tryProtocol c.transport 0).2 1).2⟩) := by
  simp only [PrepareConnection, h, GetNumProtocols, negotiate, h0, h1, Bool.false_eq_true,
    if_false, if_true, Nat.lt_succ_self, Nat.zero_lt_succ, Nat.zero_add]

/-- The flag returned is the ready flag of the object after the call. -/
theorem PrepareConnection_returns_flag (c : ClamAV_Base) :
    (PrepareConnection c).1 = .ok (PrepareConnection c).2.is_initialized := by
  by_cases h : c.is_initialized = true
  · rw [PrepareConnection_ready c h]
    exact congrArg _ h.symm
  · have h' : c.is_initialized = false := by simpa using h
    obtain ⟨b0, h0⟩ := tryProtocol_ok c.transport 0
    cases b0 with
    | true =>
      rw [PrepareConnection_first c h' h0]
      simp only [(RetrieveVersion_frame _).2.1]
    | false =>
      obtain ⟨b1, h1⟩ := tryProtocol_ok (tryProtocol c.transport 0).2 1
      cases b1 with
      | true =>
        rw [PrepareConnection_second c h' h0 h1]
        simp only [(RetrieveVersion_frame _).2.1]
      | false => rw [PrepareConnection_none c h' h0 h1]

/-! ## The log of a negotiation -/

theorem opens_tryProtocol (t : Transport) (idx : Nat) :
    opens (tryProtocol t idx).2.log = opens t.log ++ [idx] := by
  obtain ⟨evs, h1, h2, _⟩ := tryProtocol_log t idx
  rw [h1, opens_append]
  simp [opens, h2]

/-- The calls of `RetrieveVersion`: no `Open` among them. -/
theorem RetrieveVersion_log (c : ClamAV_Base) :
    ∃ evs, (RetrieveVersion c).2.transport.log = c.transport.log ++ evs ∧ opens evs = [] := by
  rw [(RetrieveVersion_frame c).2.2.2]
  rcases GetResponse_log (SendCommand c.transport "VERSION".toList).2 with h | h
  · exact ⟨[Event.send (commandBytes "VERSION".toList), Event.recv 500],
      by rw [h, SendCommand_log]; simp, rfl⟩
  · exact ⟨[Event.send (commandBytes "VERSION".toList), Event.recv 500, Event.recv 300],
      by rw [h, SendCommand_log]; simp, rfl⟩

theorem opens_RetrieveVersion (c : ClamAV_Base) :
    opens (RetrieveVersion c).2.transport.log = opens c.transport.log := by
  obtain ⟨evs, h1, h2⟩ := RetrieveVersion_log c
  rw [h1, opens_append, h2, List.append_nil]

/-- A session that is not ready opens the first candidate, whatever
follows. -/
theorem PrepareConnection_opens_first (c : ClamAV_Base) (h : c.is_initialized = false) :
    ∃ evs, (PrepareConnection c).2.transport.log =
      c.transport.log ++ Event.opened 0 :: evs := by
  obtain ⟨evs0, hl0, _, _⟩ := tryProtocol_log c.transport 0
  obtain ⟨b0, h0⟩ := tryProtocol_ok c.transport 0
  cases b0 with
  | true =>
    rw [PrepareConnection_first c h h0]
    obtain ⟨evs, hl, _⟩ := RetrieveVersion_log ⟨true, 0, [], [], (tryProtocol c.transport 0).2⟩
    exact ⟨evs0 ++ evs, by rw [hl]; simp [hl0]⟩
  | false =>
    obtain ⟨evs1, hl1, _, _⟩ := tryProtocol_log (tryProtocol c.transport 0).2 1
    obtain ⟨b1, h1⟩ := tryProtocol_ok (tryProtocol c.transport 0).2 1
    cases b1 with
    | true =>
      rw [PrepareConnection_second c h h0 h1]
      obtain ⟨evs, hl, _⟩ := RetrieveVersion_log
        ⟨true, 1, [], [], (tryProtocol (tryProtocol c.transport 0).2 1).2⟩
      exact ⟨evs0 ++ Event.opened 1 :: evs1 ++ evs, by rw [hl]; simp [hl0, hl1]⟩
    | false =>
      rw [PrepareConnection_none c h h0 h1]
      exact ⟨evs0 ++ Event.opened 1 :: evs1, by simp [hl0, hl1]⟩

/-! ## Claims about the session -/

/-- C11: a session that is not ready tries the candidates in increasing
index order (0 is the local socket, 1 is TCP). On each candidate `Open`,
then the command IDSESSION, then the ping are performed, and the first step
that fails ends the attempt. The first candidate that passes the three
steps is recorded in `used_protocol` and no later candidate is opened; the
call returns true exactly when a candidate passed. -/
theorem PrepareConnection_negotiation (c : ClamAV_Base) (h : c.is_initialized = false) :
    (GetNumProtocols = 2 ∧ candidateOf 0 = some Candidate.Unix ∧
      candidateOf 1 = some Candidate.TcpIp) ∧
    (∀ (t : Transport) (idx : Nat),
      ((t.Open idx).1 = false → tryProtocol t idx = (.ok false, (t.Open idx).2)) ∧
      ((t.Open idx).1 = true → (SendCommand (t.Open idx).2 "IDSESSION".toList).1 = false →
        tryProtocol t idx = (.ok false, (SendCommand (t.Open idx).2 "IDSESSION".toList).2)) ∧
      ((t.Open idx).1 = true → (SendCommand (t.Open idx).2 "IDSESSION".toList).1 = true →
        tryProtocol t idx = PingDaemon (SendCommand (t.Open idx).2 "IDSESSION".toList).2)) ∧
    ((tryProtocol c.transport 0).1 = .ok true →
      (PrepareConnection c).1 = .ok true ∧
      (PrepareConnection c).2.is_initialized = true ∧
      (PrepareConnection c).2.used_protocol = 0 ∧
      opens (PrepareConnection c).2.transport.log = opens c.transport.log ++ [0]) ∧
    ((tryProtocol c.transport 0).1 = .ok false →
      (tryProtocol (tryProtocol c.transport 0).2 1).1 = .ok true →
      (PrepareConnection c).1 = .ok true ∧
      (PrepareConnection c).2.is_initialized = true ∧
      (PrepareConnection c).2.used_protocol = 1 ∧
      opens (PrepareConnection c).2.transport.log = opens c.transport.log ++ [0, 1]) ∧
    ((tryProtocol c.transport 0).1 = .ok false →
      (tryProtocol (tryProtocol c.transport 0).2 1).1 = .ok false →
      (PrepareConnection c).1 = .ok false ∧
      (PrepareConnection c).2.is_initialized = false ∧
      opens (PrepareConnection c).2.transport.log = opens c.transport.log ++ [0, 1]) ∧
    ((PrepareConnection c).1 = .ok true ↔
      (tryProtocol c.transport 0).1 = .ok true ∨
      ((tryProtocol c.transport 0).1 = .ok false ∧
        (tryProtocol (tryProtocol c.transport 0).2 1).1 = .ok true)) ∧
    ((PrepareConnection c).1 = .ok true ∨ (PrepareConnection c).1 = .ok false) := by
  have hfirst : (tryProtocol c.transport 0).1 = .ok true →
      (PrepareConnection c).1 = .ok true ∧
      (PrepareConnection c).2.is_initialized = true ∧
      (PrepareConnection c).2.used_protocol = 0 ∧
      opens (PrepareConnection c).2.transport.log = opens c.transport.log ++ [0] := by
    intro h0
    rw [PrepareConnection_first c h h0]
    have hv := RetrieveVersion_frame ⟨true, 0, [], [], (tryProtocol c.transport 0).2⟩
    exact ⟨rfl, hv.2.1, hv.2.2.1, by rw [opens_RetrieveVersion]; exact opens_tryProtocol _ _⟩
  have hsecond : (tryProtocol c.transport 0).1 = .ok false →
      (tryProtocol (tryProtocol c.transport 0).2 1).1 = .ok true →
      (PrepareConnection c).1 = .ok true ∧
      (PrepareConnection c).2.is_initialized = true ∧
      (PrepareConnection c).2.used_protocol = 1 ∧
      opens (PrepareConnection c).2.transport.log = opens c.transport.log ++ [0, 1] := by
    intro h0 h1
    rw [PrepareConnection_second c h h0 h1]
    have hv := RetrieveVersion_frame
      ⟨true, 1, [], [], (tryProtocol (tryProtocol c.transport 0).2 1).2⟩
    refine ⟨rfl, hv.2.1, hv.2.2.1, ?_⟩
    rw [opens_RetrieveVersion]
    show opens (tryProtocol (tryProtocol c.transport 0).2 1).2.log = _
    rw [opens_tryProtocol, opens_tryProtocol]
    simp
  have hnone : (tryProtocol c.transport 0).1 = .ok false →
      (tryProtocol (tryProtocol c.transport 0).2 1).1 = .ok false →
      (PrepareConnection c).1 = .ok false ∧
      (PrepareConnection c).2.is_initialized = false ∧
      opens (PrepareConnection c).2.transport.log = opens c.transport.log ++ [0, 1] := by
    intro h0 h1
    rw [PrepareConnection_none c h h0 h1]
    refine ⟨rfl, rfl, ?_⟩
    show opens (tryProtocol (tryProtocol c.transport 0).2 1).2.log = _
    rw [opens_tryProtocol, opens_tryProtocol]
    simp
  refine ⟨⟨rfl, rfl, rfl⟩, ?_, hfirst, hsecond, hnone, ?_, ?_⟩
  · intro t idx
    refine ⟨?_, ?_, ?_⟩
    · intro ho
      simp only [tryProtocol, ho, Bool.false_eq_true, if_false]
    · intro ho hs
      simp only [tryProtocol, ho, hs, if_true, Bool.false_eq_true, if_false]
    · intro ho hs
      simp only [tryProtocol, ho, hs, if_true]
  · constructor
    · intro hret
      obtain ⟨b0, h0⟩ := tryProtocol_ok c.transport 0
      cases b0 with
      | true => exact Or.inl h0
      | false =>
        obtain ⟨b1, h1⟩ := tryProtocol_ok (tryProtocol c.transport 0).2 1
        cases b1 with
        | true => exact Or.inr ⟨h0, h1⟩
        | false =>
          rw [(hnone h0 h1).1] at hret
          exact absurd (Except.ok.inj hret) (by decide)
    · rintro (h0 | ⟨h0, h1⟩)
      · exact (hfirst h0).1
      · exact (hsecond h0 h1).1
  · rw [PrepareConnection_returns_flag]
    cases (PrepareConnection c).2.is_initialized
    · exact Or.inr rfl
    · exact Or.inl rfl

theorem PrepareConnection_negotiation_witness :
    (⟨false, 0, ['x'], ['y'], ⟨[false, true], [true, true, true],
        ["1: PONG".toList, "2: 0.103.2/26 Jun 2024/27350".toList], []⟩⟩ :
      ClamAV_Base).is_initialized = false ∧
    (PrepareConnection ⟨false, 0, ['x'], ['y'], ⟨[false, true], [true, true, true],
        ["1: PONG".toList, "2: 0.103.2/26 Jun 2024/27350".toList], []⟩⟩).2.used_protocol = 1 ∧
    opens (PrepareConnection ⟨false, 0, ['x'], ['y'], ⟨[false, true], [true, true, true],
        ["1: PONG".toList, "2: 0.103.2/26 Jun 2024/27350".toList], []⟩⟩).2.transport.log =
      [0, 1] :=
  have h := (PrepareConnection_negotiation ⟨false, 0, ['x'], ['y'], ⟨[false, true],
    [true, true, true], ["1: PONG".toList, "2: 0.103.2/26 Jun 2024/27350".toList], []⟩⟩
    rfl).2.2.2.1 rfl rfl
  ⟨rfl, h.2.2.1, h.2.2.2⟩

/-- C12: once a call has returned true, the next call returns true and leaves
the object as it is: the ready flag, the index of the protocol in use, both
version strings, and the transport with its log, so that no `Open`, `Send` or
`Receive` is performed. -/
theorem PrepareConnection_idempotent (c : ClamAV_Base)
    (h : (PrepareConnection c).1 = .ok true) :
    PrepareConnection (PrepareConnection c).2 = (.ok true, (PrepareConnection c).2) := by
  have hflag := PrepareConnection_returns_flag c
  rw [h] at hflag
  exact PrepareConnection_ready _ (Except.ok.inj hflag).symm

theorem PrepareConnection_idempotent_witness :
    (PrepareConnection ⟨false, 0, [], [], ⟨[true], [true, true, true],
        ["1: PONG".toList, "2: 0.103.2/26 Jun 2024/27350".toList], []⟩⟩).1 = .ok true ∧
    PrepareConnection (PrepareConnection ⟨false, 0, [], [], ⟨[true], [true, true, true],
        ["1: PONG".toList, "2: 0.103.2/26 Jun 2024/27350".toList], []⟩⟩).2 =
      (.ok true, (PrepareConnection ⟨false, 0, [], [], ⟨[true], [true, true, true],
        ["1: PONG".toList, "2: 0.103.2/26 Jun 2024/27350".toList], []⟩⟩).2) :=
  ⟨rfl, PrepareConnection_idempotent _ rfl⟩

/-- C20: when the attempt fails on both candidates, the call of a session that
is not ready returns false, the session stays not ready, both version strings
are empty, the command VERSION is not among the bytes sent, and the next call
opens the first candidate again. -/
theorem PrepareConnection_total_failure (c : ClamAV_Base) (h : c.is_initialized = false)
    (h0 : (tryProtocol c.transport 0).1 = .ok false)
    (h1 : (tryProtocol (tryProtocol c.transport 0).2 1).1 = .ok false) :
    (PrepareConnection c).1 = .ok false ∧
    (PrepareConnection c).2.is_initialized = false ∧
    (PrepareConnection c).2.engine_version = [] ∧
    (PrepareConnection c).2.database_version = [] ∧
    (∃ evs, (PrepareConnection c).2.transport.log = c.transport.log ++ evs ∧
      commandBytes "VERSION".toList ∉ sends evs) ∧
    (∃ evs, (PrepareConnection (PrepareConnection c).2).2.transport.log =
      (PrepareConnection c).2.transport.log ++ Event.opened 0 :: evs) := by
  have hagain := PrepareConnection_opens_first (PrepareConnection c).2
  rw [PrepareConnection_none c h h0 h1] at hagain ⊢
  refine ⟨rfl, rfl, rfl, rfl, ?_, hagain rfl⟩
  obtain ⟨evs0, hl0, _, hs0⟩ := tryProtocol_log c.transport 0
  obtain ⟨evs1, hl1, _, hs1⟩ := tryProtocol_log (tryProtocol c.transport 0).2 1
  refine ⟨Event.opened 0 :: evs0 ++ Event.opened 1 :: evs1, ?_, ?_⟩
  · show (tryProtocol (tryProtocol c.transport 0).2 1).2.log = _
    rw [hl1, hl0]
    simp
  · intro hmem
    have hsends : sends (Event.opened 0 :: evs0 ++ Event.opened 1 :: evs1) =
        sends evs0 ++ sends evs1 := by
      rw [List.cons_append, sends, sends_append, sends]
      · intro bytes
        simp
      · intro bytes
        simp
    rw [hsends] at hmem
    rcases List.mem_append.1 hmem with hm | hm
    · rcases hs0 _ hm with hb | hb <;> exact absurd hb (by decide)
    · rcases hs1 _ hm with hb | hb <;> exact absurd hb (by decide)

theorem PrepareConnection_total_failure_witness :
    ((⟨false, 0, ['x'], ['y'], ⟨[false, true], [false], ["1: PONG".toList], []⟩⟩ :
        ClamAV_Base).is_initialized = false ∧
      (tryProtocol ⟨[false, true], [false], ["1: PONG".toList], []⟩ 0).1 = .ok false ∧
      (tryProtocol (tryProtocol ⟨[false, true], [false], ["1: PONG".toList], []⟩ 0).2 1).1 =
        .ok false) ∧
    (PrepareConnection ⟨false, 0, ['x'], ['y'],
      ⟨[false, true], [false], ["1: PONG".toList], []⟩⟩).1 = .ok false ∧
    (PrepareConnection ⟨false, 0, ['x'], ['y'],
      ⟨[false, true], [false], ["1: PONG".toList], []⟩⟩).2.engine_version = [] :=
  have h := PrepareConnection_total_failure ⟨false, 0, ['x'], ['y'],
    ⟨[false, true], [false], ["1: PONG".toList], []⟩⟩ rfl rfl rfl
  ⟨⟨rfl, rfl, rfl⟩, h.1, h.2.2.1⟩

/-- A string that contains a character splits at its first occurrence. -/
theorem exists_first_split (x : Char) :
    ∀ t : Str, x ∈ t → ∃ a b, t = a ++ x :: b ∧ x ∉ a := by
  intro t
  induction t with
  | nil => intro h; exact absurd h (List.not_mem_nil _)
  | cons y t ih =>
    intro h
    by_cases hy : y = x
    · exact ⟨[], t, by simp [hy], List.not_mem_nil _⟩
    · have ht : x ∈ t := by
        rcases List.mem_cons.1 h with h | h
        · exact absurd h.symm hy
        · exact h
      obtain ⟨a, b, hab, ha⟩ := ih ht
      refine ⟨y :: a, b, by simp [hab], ?_⟩
      intro hmem
      rcases List.mem_cons.1 hmem with h | h
      · exact hy h.symm
      · exact ha h

/-! ## Claims about the commands and their responses -/

/-- C13: when the decoded VERSION response is `e ++ "/" ++ t` with no `/` in
`e`, the engine version is `e`; the database version is `t` if `t` has no
`/`, and `a ++ " (" ++ b ++ ")"` if `t` is `a ++ "/" ++ b` with no `/` in
`a`. -/
theorem RetrieveVersion_split (c : ClamAV_Base) (e t : Str) (he : '/' ∉ e)
    (hresp : (GetResponse (SendCommand c.transport "VERSION".toList).2).1 =
      .ok (e ++ '/' :: t)) :
    (RetrieveVersion c).1 = .ok () ∧
    (RetrieveVersion c).2.engine_version = e ∧
    ('/' ∉ t → (RetrieveVersion c).2.database_version = t) ∧
    (∀ a b : Str, t = a ++ '/' :: b → '/' ∉ a →
      (RetrieveVersion c).2.database_version = a ++ " (".toList ++ b ++ ")".toList) := by
  obtain ⟨e', d', hs⟩ := splitVersion_ok (e ++ '/' :: t)
  have hall := RetrieveVersion_of_split c _ e' d' hresp hs
  have hengine : e' = e := by
    by_cases ht : '/' ∈ t
    · obtain ⟨a, b, hab, ha⟩ := exists_first_split '/' t ht
      rw [hab, splitVersion_two_slashes e a b he ha] at hs
      exact ((Prod.mk.inj (Except.ok.inj hs)).1).symm
    · rw [splitVersion_one_slash e t he ht] at hs
      exact ((Prod.mk.inj (Except.ok.inj hs)).1).symm
  refine ⟨hall.1, hall.2.1.trans hengine, ?_, ?_⟩
  · intro ht
    rw [splitVersion_one_slash e t he ht] at hs
    exact hall.2.2.trans ((Prod.mk.inj (Except.ok.inj hs)).2).symm
  · intro a b hab ha
    rw [hab, splitVersion_two_slashes e a b he ha] at hs
    exact hall.2.2.trans ((Prod.mk.inj (Except.ok.inj hs)).2).symm

theorem RetrieveVersion_split_witness :
    ('/' ∉ "0.103.2".toList ∧
      (GetResponse (SendCommand (⟨true, 0, [], [], ⟨[], [true],
        ["2: 0.103.2/26 Jun 2024/27350".toList], []⟩⟩ : ClamAV_Base).transport
          "VERSION".toList).2).1 = .ok ("0.103.2".toList ++ '/' :: "26 Jun 2024/27350".toList)) ∧
    (RetrieveVersion ⟨true, 0, [], [], ⟨[], [true],
      ["2: 0.103.2/26 Jun 2024/27350".toList], []⟩⟩).2.engine_version = "0.103.2".toList ∧
    (RetrieveVersion ⟨true, 0, [], [], ⟨[], [true],
      ["2: 0.103.2/26 Jun 2024/27350".toList], []⟩⟩).2.database_version =
      "26 Jun 2024 (27350)".toList :=
  have h := RetrieveVersion_split ⟨true, 0, [], [], ⟨[], [true],
    ["2: 0.103.2/26 Jun 2024/27350".toList], []⟩⟩ "0.103.2".toList "26 Jun 2024/27350".toList
    (by decide) rfl
  ⟨⟨by decide, rfl⟩, h.2.1,
   h.2.2.2 "26 Jun 2024".toList "27350".toList rfl (by decide)⟩

/-- C14: when the decoded VERSION response contains no `/`, the engine version
is the response unchanged and the database version is empty. -/
theorem RetrieveVersion_no_separator (c : ClamAV_Base) (r : Str) (hr : '/' ∉ r)
    (hresp : (GetResponse (SendCommand c.transport "VERSION".toList).2).1 = .ok r) :
    (RetrieveVersion c).1 = .ok () ∧
    (RetrieveVersion c).2.engine_version = r ∧
    (RetrieveVersion c).2.database_version = [] :=
  RetrieveVersion_of_split c r r [] hresp (splitVersion_no_slash r hr)

theorem RetrieveVersion_no_separator_witness :
    ('/' ∉ "ClamAV 0.103.2".toList ∧
      (GetResponse (SendCommand (⟨true, 0, ['x'], ['y'], ⟨[], [true],
        ["2: ClamAV 0.103.2".toList], []⟩⟩ : ClamAV_Base).transport
          "VERSION".toList).2).1 = .ok "ClamAV 0.103.2".toList) ∧
    (RetrieveVersion ⟨true, 0, ['x'], ['y'], ⟨[], [true],
      ["2: ClamAV 0.103.2".toList], []⟩⟩).2.engine_version = "ClamAV 0.103.2".toList ∧
    (RetrieveVersion ⟨true, 0, ['x'], ['y'], ⟨[], [true],
      ["2: ClamAV 0.103.2".toList], []⟩⟩).2.database_version = [] :=
  ⟨⟨by decide, rfl⟩,
   (RetrieveVersion_no_separator ⟨true, 0, ['x'], ['y'], ⟨[], [true],
      ["2: ClamAV 0.103.2".toList], []⟩⟩ "ClamAV 0.103.2".toList (by decide) rfl).2⟩

/-- C15: when the first receive returns `D ++ ": " ++ P` with `D` a non-empty
string of decimal digits and `P` non-empty, `GetResponse` returns exactly `P`
and has performed exactly one receive, the one with the 500 ms timeout. -/
theorem GetResponse_id_stripped (t : Transport) (D P : Str) (more : List Str)
    (hD : D ≠ []) (hDd : ∀ x ∈ D, '0' ≤ x ∧ x ≤ '9') (hP : P ≠ [])
    (hrecv : t.recvResults = (D ++ ": ".toList ++ P) :: more) :
    GetResponse t = (.ok P, (t.Receive 500).2) ∧
    (GetResponse t).2.log = t.log ++ [Event.recv 500] ∧
    (GetResponse t).2.recvResults = more := by
  have hraw : (t.Receive 500).1 = D ++ ": ".toList ++ P := by
    simp [Transport.Receive, hrecv]
  have hne : (D ++ ": ".toList ++ P).isEmpty = false := by
    cases D with
    | nil => exact absurd rfl hD
    | cons x xs => rfl
  have hPne : P.isEmpty = false := by
    cases P with
    | nil => exact absurd rfl hP
    | cons x xs => rfl
  have hget : GetResponse t = (.ok P, (t.Receive 500).2) := by
    simp only [GetResponse, hraw, hne, Bool.false_eq_true, if_false,
      strip_first_result_id D P hDd, hPne, Bool.not_false, if_true]
  rw [hget]
  exact ⟨rfl, rfl, by simp [Transport.Receive, hrecv]⟩

theorem GetResponse_id_stripped_witness :
    ("12".toList ≠ [] ∧ (∀ x ∈ "12".toList, '0' ≤ x ∧ x ≤ '9') ∧
      "stream: a: b OK".toList ≠ [] ∧
      (⟨[], [], ["12: stream: a: b OK".toList, "next".toList], []⟩ : Transport).recvResults =
        ("12".toList ++ ": ".toList ++ "stream: a: b OK".toList) :: ["next".toList]) ∧
    (GetResponse ⟨[], [], ["12: stream: a: b OK".toList, "next".toList], []⟩).1 =
      .ok "stream: a: b OK".toList ∧
    (GetResponse ⟨[], [], ["12: stream: a: b OK".toList, "next".toList], []⟩).2.log =
      [Event.recv 500] :=
  have h := GetResponse_id_stripped ⟨[], [], ["12: stream: a: b OK".toList, "next".toList], []⟩
    "12".toList "stream: a: b OK".toList ["next".toList] (by decide) (by decide) (by decide) rfl
  ⟨⟨by decide, by decide, by decide, rfl⟩, congrArg Prod.fst h.1, h.2.1⟩

/-- C16: for every command keyword, the bytes handed to the transport are the
byte `z` (122), the bytes of the keyword and one NUL byte, `|cmd| + 2` bytes
in all, in a single `Send`, whose result `SendCommand` returns. -/
theorem SendCommand_encoding (t : Transport) (cmd : Str) :
    (SendCommand t cmd).2.log =
      t.log ++ [Event.send ('z'.toNat :: cmd.map Char.toNat ++ [0])] ∧
    'z'.toNat = 122 ∧
    ('z'.toNat :: cmd.map Char.toNat ++ [0]).length = cmd.length + 2 ∧
    SendCommand t cmd = t.Send ('z' :: cmd ++ [Char.ofNat 0]) ∧
    (SendCommand t cmd).1 = t.sendResults.headD false := by
  refine ⟨?_, rfl, by simp, rfl, rfl⟩
  simp [SendCommand, Transport.Send, Transport.SendBuffer]

/-- C17: for a chunk of `n` bytes, `n` at most 65535, the header written
before the payload is `0, 0, n / 256, n % 256`, four bytes that spell out `n`
as a big-endian integer; the frame sent by the loop body has `n + 4` bytes;
the terminator header is `0, 0, 0, 0`, which spells out 0. -/
theorem frameHeader_big_endian (n : Nat) (hn : n ≤ 65535) :
    frameHeader n = [0, 0, n / 256, n % 256] ∧
    (∀ b ∈ frameHeader n, b < 256) ∧
    bigEndian (frameHeader n) = n ∧
    (∀ s : UploadState, s.data.length = n →
      (uploadStep s).transport.log =
        s.transport.log ++ [Event.send ([0, 0, n / 256, n % 256] ++ s.data)] ∧
      ([0, 0, n / 256, n % 256] ++ s.data).length = n + 4) ∧
    frameHeader 0 = [0, 0, 0, 0] ∧ bigEndian (frameHeader 0) = 0 := by
  have h1 : n / 256 % 256 = n / 256 := by omega
  have hh : frameHeader n = [0, 0, n / 256, n % 256] := by simp [frameHeader, h1]
  refine ⟨hh, ?_, ?_, ?_, rfl, rfl⟩
  · intro b hb
    rw [hh] at hb
    simp only [List.mem_cons, List.mem_singleton] at hb
    rcases hb with rfl | rfl | rfl | rfl | hb
    · omega
    · omega
    · omega
    · omega
    · exact absurd hb (List.not_mem_nil _)
  · rw [hh]
    simp only [bigEndian, List.foldl]
    omega
  · intro s hs
    constructor
    · simp only [uploadStep, Transport.SendBuffer, frame, hs, hh]
    · simp [hs]

theorem frameHeader_big_endian_witness :
    (65535 ≤ 65535 ∧ 300 ≤ 65535) ∧
    frameHeader 65535 = [0, 0, 255, 255] ∧ bigEndian (frameHeader 300) = 300 :=
  ⟨⟨by decide, by decide⟩, (frameHeader_big_endian 65535 (by decide)).1,
   (frameHeader_big_endian 300 (by decide)).2.2.1⟩

/-- C18: the ping succeeds exactly when the command PING was sent
successfully and the decoded response equals `PONG`; in every other case
it fails. -/
theorem PingDaemon_pong (t : Transport) :
    ((PingDaemon t).1 = .ok true ↔
      (SendCommand t "PING".toList).1 = true ∧
      (GetResponse (SendCommand t "PING".toList).2).1 = .ok "PONG".toList) ∧
    ((PingDaemon t).1 = .ok true ∨ (PingDaemon t).1 = .ok false) := by
  obtain ⟨r, hr⟩ := GetResponse_ok (SendCommand t "PING".toList).2
  by_cases hs : (SendCommand t "PING".toList).1 = true
  · by_cases hp : r = "PONG".toList
    · have hping : (PingDaemon t).1 = .ok true := by
        simp only [PingDaemon, hs, if_true, hr, hp, decide_True]
      exact ⟨⟨fun _ => ⟨hs, by rw [hr, hp]⟩, fun _ => hping⟩, Or.inl hping⟩
    · have hping : (PingDaemon t).1 = .ok false := by
        simp only [PingDaemon, hs, if_true, hr, hp, decide_False]
      refine ⟨⟨fun h => ?_, fun h => ?_⟩, Or.inr hping⟩
      · rw [hping] at h
        exact absurd (Except.ok.inj h) (by decide)
      · rw [hr] at h
        exact absurd (Except.ok.inj h.2) hp
  · have hping : (PingDaemon t).1 = .ok false := by
      simp only [PingDaemon, hs, Bool.false_eq_true, if_false]
    refine ⟨⟨fun h => ?_, fun h => absurd h.1 hs⟩, Or.inr hping⟩
    rw [hping] at h
    exact absurd (Except.ok.inj h) (by decide)

/-! ## Claims about `MSAV` -/

/-- C19, as stated, fails for `ScannerError`: the file is counted as skipped
but `MSAV::ScanFile` returns false, and the loop of `MSAV::ScanPath` returns
false without scanning the next file. -/
theorem MSAV_ScanFile_error_verdicts_counterexample :
    (MSAV.ScanFile true VirusCheckResult.ScannerError 10 ⟨1, 0, 0, 0, 0⟩).1 = false ∧
    (MSAV.ScanFile true VirusCheckResult.ScannerError 10 ⟨1, 0, 0, 0, 0⟩).1 ≠ true ∧
    (MSAV.ScanFile true VirusCheckResult.ScannerError 10 ⟨1, 0, 0, 0, 0⟩).2.skipped = 1 ∧
    MSAV.ScanPath "C:\\".toList
      [MSAV.Entry.file "A.EXE".toList 10 true VirusCheckResult.ScannerError,
        MSAV.Entry.file "B.EXE".toList 20 true VirusCheckResult.Clean]
      ⟨⟨0, 0, 0, 0, 0⟩, [], []⟩ =
      (false, ⟨⟨1, 1, 10, 0, 1⟩, [], ["C:\\A.EXE".toList]⟩) := by
  decide

/-- C19, amended: in `MSAV::ScanFile`, when the verdict is `ReadError` the
file is counted as skipped and the function returns true, and the loop of
`MSAV::ScanPath` goes on with the next entry; when the verdict is
`ScannerError` the file is counted as skipped and the function returns false,
and the loop of `MSAV::ScanPath` returns false at once, the remaining entries
unscanned; a walk of a subdirectory that returned false makes the enclosing
loop return false in the same way. -/
theorem MSAV_ScanFile_error_verdicts (path name : Str) (file_size : Nat)
    (rest : List MSAV.Entry) (w : MSAV.Walk) (hcancel : w.cancels.headD false = false) :
    (MSAV.ScanFile true VirusCheckResult.ReadError file_size w.summary).1 = true ∧
    (MSAV.ScanFile true VirusCheckResult.ReadError file_size w.summary).2.skipped =
      (w.summary.skipped + 1) % SIZE_MOD ∧
    MSAV.scanEntries path
        (MSAV.Entry.file name file_size true VirusCheckResult.ReadError :: rest) w =
      MSAV.scanEntries path rest
        ⟨(MSAV.ScanFile true VirusCheckResult.ReadError file_size w.summary).2,
          w.cancels.tail, w.scanned ++ [path ++ name]⟩ ∧
    (MSAV.ScanFile true VirusCheckResult.ScannerError file_size w.summary).1 = false ∧
    (MSAV.ScanFile true VirusCheckResult.ScannerError file_size w.summary).2.skipped =
      (w.summary.skipped + 1) % SIZE_MOD ∧
    MSAV.scanEntries path
        (MSAV.Entry.file name file_size true VirusCheckResult.ScannerError :: rest) w =
      (false, ⟨(MSAV.ScanFile true VirusCheckResult.ScannerError file_size w.summary).2,
        w.cancels.tail, w.scanned ++ [path ++ name]⟩) ∧
    ∀ (contents : List MSAV.Entry),
      (MSAV.ScanPath (path ++ name ++ "\\".toList) contents
        { w with cancels := w.cancels.tail }).1 = false →
      MSAV.scanEntries path (MSAV.Entry.directory name contents :: rest) w =
        (false, (MSAV.ScanPath (path ++ name ++ "\\".toList) contents
          { w with cancels := w.cancels.tail }).2) := by
  have h1 : (MSAV.ScanFile true VirusCheckResult.ReadError file_size w.summary).1 = true := by
    simp [MSAV.ScanFile]
  have h2 : (MSAV.ScanFile true VirusCheckResult.ScannerError file_size w.summary).1 =
      false := by
    simp [MSAV.ScanFile]
  refine ⟨h1, by simp [MSAV.ScanFile], ?_, h2, by simp [MSAV.ScanFile], ?_, ?_⟩
  · rw [MSAV.scanEntries]
    simp only [hcancel, Bool.false_eq_true, if_false, MSAV.scanEntry, h1, Bool.not_true]
  · rw [MSAV.scanEntries]
    simp only [hcancel, Bool.false_eq_true, if_false, MSAV.scanEntry, h2, Bool.not_false,
      if_true]
  · intro contents hfalse
    have hdir : MSAV.scanEntry path (MSAV.Entry.directory name contents)
        { w with cancels := w.cancels.tail } =
        MSAV.ScanPath (path ++ name ++ "\\".toList) contents
          { w with cancels := w.cancels.tail } := by
      simp [MSAV.scanEntry, MSAV.ScanPath]
    rw [MSAV.scanEntries]
    simp only [hcancel, Bool.false_eq_true, if_false, hdir, hfalse, Bool.not_false, if_true]

theorem MSAV_ScanFile_error_verdicts_witness :
    (⟨⟨0, 0, 0, 0, 0⟩, [], []⟩ : MSAV.Walk).cancels.headD false = false ∧
    MSAV.scanEntries "C:\\".toList
      [MSAV.Entry.file "A.EXE".toList 10 true VirusCheckResult.ReadError,
        MSAV.Entry.file "B.EXE".toList 20 true VirusCheckResult.Clean]
      ⟨⟨0, 0, 0, 0, 0⟩, [], []⟩ =
      (true, ⟨⟨0, 2, 30, 0, 1⟩, [], ["C:\\A.EXE".toList, "C:\\B.EXE".toList]⟩) ∧
    MSAV.scanEntries "C:\\".toList
      [MSAV.Entry.file "A.EXE".toList 10 true VirusCheckResult.ScannerError,
        MSAV.Entry.file "B.EXE".toList 20 true VirusCheckResult.Clean]
      ⟨⟨0, 0, 0, 0, 0⟩, [], []⟩ =
      (false, ⟨⟨0, 1, 10, 0, 1⟩, [], ["C:\\A.EXE".toList]⟩) :=
  have h := MSAV_ScanFile_error_verdicts "C:\\".toList "A.EXE".toList 10
    [MSAV.Entry.file "B.EXE".toList 20 true VirusCheckResult.Clean]
    ⟨⟨0, 0, 0, 0, 0⟩, [], []⟩ rfl
  ⟨rfl, h.2.2.1.trans (by decide), h.2.2.2.2.2.1.trans (by decide)⟩

/-! ## `rfind`: where the pattern is found -/

/-- A found index is an occurrence of the pattern that lies within the
string. -/
theorem rfind_some_spec (pat : Str) :
    ∀ (s : Str) (i : Nat), rfind s pat = some i →
      pat.isPrefixOf (s.drop i) = true ∧ i + pat.length ≤ s.length := by
  intro s
  induction s with
  | nil =>
    intro i h
    by_cases hp : pat = []
    · simp [rfind, hp] at h
      subst h
      simp [hp]
    · simp [rfind, hp] at h
  | cons c s ih =>
    intro i h
    cases hr : rfind s pat with
    | some j =>
      simp only [rfind, hr] at h
      have hi : i = j + 1 := (Option.some.inj h).symm
      subst hi
      have := ih j hr
      exact ⟨by simpa using this.1, by simp only [List.length_cons]; omega⟩
    | none =>
      by_cases hpre : pat.isPrefixOf (c :: s) = true
      · simp only [rfind, hr, hpre, if_true] at h
        have hi : i = 0 := (Option.some.inj h).symm
        subst hi
        have hlen := (List.isPrefixOf_iff_prefix.1 hpre).length_le
        exact ⟨by simpa using hpre, by omega⟩
      · simp [rfind, hr, hpre] at h

/-- The last occurrence is at or after any occurrence. -/
theorem rfind_ge (pat : Str) :
    ∀ (s : Str) (k : Nat), k ≤ s.length → pat.isPrefixOf (s.drop k) = true →
      ∃ j, rfind s pat = some j ∧ k ≤ j := by
  intro s
  induction s with
  | nil =>
    intro k hk h
    have hk0 : k = 0 := by simpa using hk
    subst hk0
    have hp : pat = [] := by
      cases pat with
      | nil => rfl
      | cons x xs => simp [List.isPrefixOf] at h
    exact ⟨0, by simp [rfind, hp], Nat.le_refl _⟩
  | cons c s ih =>
    intro k hk h
    cases k with
    | zero =>
      cases hr : rfind s pat with
      | some j => exact ⟨j + 1, by simp [rfind, hr], Nat.zero_le _⟩
      | none =>
        have h' : pat.isPrefixOf (c :: s) = true := by simpa using h
        exact ⟨0, by simp [rfind, hr, h'], Nat.le_refl _⟩
    | succ k =>
      have hk' : k ≤ s.length := by simpa using hk
      obtain ⟨j, hj, hkj⟩ := ih k hk' (by simpa using h)
      exact ⟨j + 1, by simp [rfind, hj], by omega⟩

/-! ## The suffix scan in general -/

/-- The scan passes over a run of digits: started on the last of them it
goes on as if started on the character before the run. -/
theorem stripSuffixLoop_skip :
    ∀ (T P tail : Str), (∀ d ∈ T, '0' ≤ d ∧ d ≤ '9') → P ≠ [] →
      stripSuffixLoop (P ++ T ++ tail) (P.length - 1 + T.length) =
        stripSuffixLoop (P ++ T ++ tail) (P.length - 1) := by
  intro T
  induction T using List.reverseRecOn with
  | nil => intro P tail _ _; rfl
  | append_singleton T d ih =>
    intro P tail hT hP
    have hd : '0' ≤ d ∧ d ≤ '9' := hT d (by simp)
    have hPlen : 1 ≤ P.length := by
      cases P with
      | nil => exact absurd rfl hP
      | cons x xs => simp
    have hshape : P ++ (T ++ [d]) ++ tail = (P ++ T) ++ d :: tail := by simp
    have hpos : P.length - 1 + (T ++ [d]).length = (P ++ T).length := by
      simp only [List.length_append, List.length_singleton]
      omega
    have hc : charAt (P ++ (T ++ [d]) ++ tail) (P.length - 1 + (T ++ [d]).length) = .ok d := by
      rw [hshape, hpos]
      exact charAt_append_cons (P ++ T) d tail
    have hih := ih P (d :: tail) (fun c hc => hT c (by simp [hc])) hP
    have hshape2 : P ++ T ++ d :: tail = P ++ (T ++ [d]) ++ tail := by simp
    rw [hshape2] at hih
    by_cases h2 : 2 ≤ P.length - 1 + (T ++ [d]).length
    · rw [stripSuffixLoop_step _ _ _ h2 hc, if_pos hd]
      have hprev : P.length - 1 + (T ++ [d]).length - 1 = P.length - 1 + T.length := by
        simp only [List.length_append, List.length_singleton]
        omega
      rw [hprev, hih]
    · have hT0 : T.length = 0 := by
        simp only [List.length_append, List.length_singleton] at h2
        omega
      have hP1 : P.length = 1 := by
        simp only [List.length_append, List.length_singleton] at h2
        omega
      have h1 : P.length - 1 + (T ++ [d]).length = 1 := by
        simp only [List.length_append, List.length_singleton]
        omega
      have h0 : P.length - 1 = 0 := by omega
      rw [h1, h0]
      rfl

/-- The scan of a name made of digits only leaves it alone. -/
theorem stripSuffix_digits (M : Str) (hne : M ≠ []) (hlen : M.length < SIZE_MOD)
    (hM : ∀ d ∈ M, '0' ≤ d ∧ d ≤ '9') : stripSuffix M = .ok M := by
  cases M with
  | nil => exact absurd rfl hne
  | cons x T =>
    have hpos : size_sub (x :: T).length 1 = T.length := by
      rw [size_sub_eq _ _ (by simp) hlen]
      simp
    have h := stripSuffixLoop_skip T [x] [] (fun d hd => hM d (by simp [hd])) (by simp)
    simp only [List.length_singleton, Nat.sub_self, Nat.zero_add, List.append_nil,
      List.singleton_append] at h
    rw [stripSuffix, hpos, h]
    rfl

/-- The scan of `A ++ [c] ++ T`, where `T` is made of digits, comes down to
the character `c` at index `A.length`. -/
theorem stripSuffix_at (A : Str) (c : Char) (T : Str) (hT : ∀ d ∈ T, '0' ≤ d ∧ d ≤ '9')
    (hlen : (A ++ c :: T).length < SIZE_MOD) :
    stripSuffix (A ++ c :: T) = stripSuffixLoop (A ++ c :: T) A.length := by
  have hpos : size_sub (A ++ c :: T).length 1 = A.length + T.length := by
    rw [size_sub_eq _ _ (by simp only [List.length_append, List.length_cons]; omega) hlen]
    simp
  have h := stripSuffixLoop_skip T (A ++ [c]) [] hT (by simp)
  have hshape : A ++ [c] ++ T ++ [] = A ++ c :: T := by simp
  have hl : (A ++ [c]).length - 1 = A.length := by simp
  rw [hshape, hl] at h
  rw [stripSuffix, hpos, h]

/-- A hyphen at index 2 or more, followed by digits only: the name is cut at
the hyphen. -/
theorem stripSuffix_cut (A T : Str) (hA : 2 ≤ A.length) (hT : ∀ d ∈ T, '0' ≤ d ∧ d ≤ '9')
    (hlen : (A ++ '-' :: T).length < SIZE_MOD) : stripSuffix (A ++ '-' :: T) = .ok A := by
  have hnd : ¬ ('0' ≤ '-' ∧ '-' ≤ '9') := by decide
  rw [stripSuffix_at A '-' T hT hlen,
    stripSuffixLoop_step _ _ _ hA (charAt_append_cons A '-' T), if_neg hnd]
  simp [substr]

/-- A hyphen at index 0 or 1 is not looked at. -/
theorem stripSuffix_low (A : Str) (c : Char) (T : Str) (hA : A.length < 2)
    (hT : ∀ d ∈ T, '0' ≤ d ∧ d ≤ '9') (hlen : (A ++ c :: T).length < SIZE_MOD) :
    stripSuffix (A ++ c :: T) = .ok (A ++ c :: T) := by
  rw [stripSuffix_at A c T hT hlen]
  have h01 : A.length = 0 ∨ A.length = 1 := by omega
  rcases h01 with h | h <;> rw [h] <;> rfl

/-- The first character met that is no digit is no hyphen either: the name is
left alone. -/
theorem stripSuffix_other (A : Str) (c : Char) (T : Str) (hc : ¬ ('0' ≤ c ∧ c ≤ '9'))
    (hc2 : c ≠ '-') (hT : ∀ d ∈ T, '0' ≤ d ∧ d ≤ '9')
    (hlen : (A ++ c :: T).length < SIZE_MOD) :
    stripSuffix (A ++ c :: T) = .ok (A ++ c :: T) := by
  by_cases hA : 2 ≤ A.length
  · rw [stripSuffix_at A c T hT hlen,
      stripSuffixLoop_step _ _ _ hA (charAt_append_cons A c T), if_neg hc, if_pos hc2]
  · exact stripSuffix_low A c T (by omega) hT hlen

/-- A non-empty string is made of digits only, or has a last character that
is no digit. -/
theorem exists_last_nondigit :
    ∀ M : Str, (∀ d ∈ M, '0' ≤ d ∧ d ≤ '9') ∨
      ∃ A c T, M = A ++ c :: T ∧ ¬ ('0' ≤ c ∧ c ≤ '9') ∧ ∀ d ∈ T, '0' ≤ d ∧ d ≤ '9' := by
  intro M
  induction M using List.reverseRecOn with
  | nil => exact Or.inl (fun d hd => absurd hd (List.not_mem_nil _))
  | append_singleton M x ih =>
    by_cases hx : '0' ≤ x ∧ x ≤ '9'
    · rcases ih with h | ⟨A, c, T, hM, hc, hT⟩
      · left
        intro d hd
        rcases List.mem_append.1 hd with h1 | h1
        · exact h d h1
        · rw [List.mem_singleton.1 h1]
          exact hx
      · right
        refine ⟨A, c, T ++ [x], by simp [hM], hc, ?_⟩
        intro d hd
        rcases List.mem_append.1 hd with h1 | h1
        · exact hT d h1
        · rw [List.mem_singleton.1 h1]
          exact hx
    · exact Or.inr ⟨M, x, [], rfl, hx, fun d hd => absurd hd (List.not_mem_nil _)⟩

/-- On a non-empty name the scan yields a name: the name itself or a proper
beginning of it of 2 characters or more. -/
theorem stripSuffix_total (M : Str) (hne : M ≠ []) (hlen : M.length < SIZE_MOD) :
    ∃ res, stripSuffix M = .ok res ∧ res <+: M ∧ res ≠ [] ∧
      (res ≠ M → 2 ≤ res.length ∧ res.length < M.length) := by
  rcases exists_last_nondigit M with h | ⟨A, c, T, hM, hc, hT⟩
  · exact ⟨M, stripSuffix_digits M hne hlen h, List.prefix_refl _, hne,
      fun hcon => absurd rfl hcon⟩
  · subst hM
    by_cases hcut : c = '-' ∧ 2 ≤ A.length
    · obtain ⟨rfl, hA⟩ := hcut
      refine ⟨A, stripSuffix_cut A T hA hT hlen, List.prefix_append _ _, ?_, fun _ => ⟨hA, ?_⟩⟩
      · intro hnil
        rw [hnil] at hA
        simp at hA
      · simp
    · refine ⟨A ++ c :: T, ?_, List.prefix_refl _, hne, fun hcon => absurd rfl hcon⟩
      by_cases hc2 : c = '-'
      · have hA : A.length < 2 := by
          by_contra hcon
          exact hcut ⟨hc2, by omega⟩
        exact stripSuffix_low A c T hA hT hlen
      · exact stripSuffix_other A c T hc hc2 hT hlen

/-! ## The outcomes of the parser and of `ScanFile` -/

/-- The only fault of the suffix scan is the index out of range. -/
theorem stripSuffixLoop_fault (name : Str) :
    ∀ (pos : Nat) (e : Fault), stripSuffixLoop name pos = .error e → e = Fault.bad_index := by
  intro pos
  induction pos using Nat.strongRecOn with
  | _ pos ih =>
    intro e h
    match pos, ih with
    | 0, _ => simp [stripSuffixLoop] at h
    | 1, _ => simp [stripSuffixLoop] at h
    | p + 2, ih =>
      cases hc : charAt name (p + 2) with
      | error e' =>
        simp only [stripSuffixLoop, hc] at h
        have he : e' = Fault.bad_index := by
          unfold charAt at hc
          split at hc
          · cases hc
          · split at hc
            · cases hc
            · exact (Except.error.inj hc).symm
        rw [← Except.error.inj h, he]
      | ok c =>
        simp only [stripSuffixLoop, hc] at h
        by_cases hd : '0' ≤ c ∧ c ≤ '9'
        · rw [if_pos hd] at h
          exact ih (p + 1) (by omega) e h
        · rw [if_neg hd] at h
          by_cases hh : c ≠ '-'
          · rw [if_pos hh] at h
            cases h
          · rw [if_neg hh] at h
            simp [substr] at h

/-- The prefix rule always yields a name, empty only if the name was. -/
theorem stripWin_total (N : Str) :
    ∃ n1, stripWin N = .ok n1 ∧ (N ≠ [] → n1 ≠ []) ∧ n1.length ≤ N.length := by
  by_cases hcond : N.length > 4 ∧ starts_with "Win.".toList N = true
  · have h4 : 4 ≤ N.length := by omega
    refine ⟨N.drop 4, by simp only [stripWin, hcond, and_self, if_true, substrFrom, h4], ?_, ?_⟩
    · intro _ hnil
      have : (N.drop 4).length = 0 := by rw [hnil]; rfl
      simp only [List.length_drop] at this
      omega
    · simp only [List.length_drop]
      omega
  · exact ⟨N, by simp only [stripWin, hcond, if_false], fun h => h, Nat.le_refl _⟩

/-- An in-range `substr`. -/
theorem substr_ok (s : Str) (pos len : Nat) (h : pos ≤ s.length) :
    substr s pos len = .ok ((s.drop pos).take len) := by
  unfold substr
  rw [if_pos h]

/-- The extraction, its positions spelled out. -/
theorem extractName_unfold (response : Str) (pos_name pos_status : Nat) :
    extractName response pos_name pos_status =
      match substr response (pos_name + 8) (size_sub (size_sub pos_status pos_name) 8) with
      | .error e => .error e
      | .ok name0 =>
        match stripWin name0 with
        | .error e => .error e
        | .ok name1 => stripSuffix name1 := rfl

/-- The extraction on the text cut out of the response. -/
theorem extractName_step1 (X : Str) :
    (match (Except.ok X : Except Fault Str) with
      | .error e => (Except.error e : Except Fault Str)
      | .ok name0 =>
        match stripWin name0 with
        | .error e => .error e
        | .ok name1 => stripSuffix name1) =
    match stripWin X with
    | .error e => .error e
    | .ok name1 => stripSuffix name1 := rfl

/-- The extraction after the prefix rule. -/
theorem extractName_step2 (n1 : Str) :
    (match (Except.ok n1 : Except Fault Str) with
      | .error e => (Except.error e : Except Fault Str)
      | .ok name1 => stripSuffix name1) = stripSuffix n1 := rfl

/-- The extraction once the marker is found: the two rules applied to the
text cut out of the response. -/
theorem extractName_of_stripWin (response : Str) (pos_name pos_status : Nat) (n1 : Str)
    (h8 : pos_name + 8 ≤ response.length)
    (hw : stripWin ((response.drop (pos_name + 8)).take
      (size_sub (size_sub pos_status pos_name) 8)) = .ok n1) :
    extractName response pos_name pos_status = stripSuffix n1 := by
  rw [extractName_unfold, substr_ok _ _ _ h8, extractName_step1, hw, extractName_step2]

/-- The parser on a status `OK`. -/
theorem parseVerdict_status_ok (response : Str) (pos_name pos_status : Nat)
    (hn : rfind response "stream: ".toList = some pos_name)
    (hs : rfind response [' '] = some pos_status)
    (hok : response.drop (pos_status + 1) = "OK".toList) :
    parseVerdict response = .ok (VirusCheckResult.Clean, []) := by
  have hsp := (rfind_some_spec _ _ _ hs).2
  have h1 : pos_status + 1 ≤ response.length := by simpa using hsp
  unfold parseVerdict
  rw [hn, hs]
  simp only [substrFrom, h1, if_true, hok]

/-- The parser on a status that is neither `OK` nor `FOUND`. -/
theorem parseVerdict_status_other (response : Str) (pos_name pos_status : Nat)
    (hn : rfind response "stream: ".toList = some pos_name)
    (hs : rfind response [' '] = some pos_status)
    (hok : response.drop (pos_status + 1) ≠ "OK".toList)
    (hfound : response.drop (pos_status + 1) ≠ "FOUND".toList) :
    parseVerdict response = .ok (VirusCheckResult.ScannerError, []) := by
  have hsp := (rfind_some_spec _ _ _ hs).2
  have h1 : pos_status + 1 ≤ response.length := by simpa using hsp
  unfold parseVerdict
  rw [hn, hs]
  simp only [substrFrom, h1, if_true, hok, hfound, if_false]

/-- The parser on a status `FOUND` whose name is extracted. -/
theorem parseVerdict_status_found (response : Str) (pos_name pos_status : Nat) (name : Str)
    (hn : rfind response "stream: ".toList = some pos_name)
    (hs : rfind response [' '] = some pos_status)
    (hfound : response.drop (pos_status + 1) = "FOUND".toList)
    (hguard : ¬ pos_name ≥ pos_status)
    (hex : extractName response pos_name pos_status = .ok name) :
    parseVerdict response = .ok (VirusCheckResult.Infected, name) := by
  have hsp := (rfind_some_spec _ _ _ hs).2
  have h1 : pos_status + 1 ≤ response.length := by simpa using hsp
  have hok : ¬ "FOUND".toList = "OK".toList := by decide
  unfold parseVerdict
  rw [hn, hs]
  simp only [substrFrom, h1, if_true, hfound, hok, if_false, hguard, hex]

/-- The parser on a status `FOUND` whose extraction faults. -/
theorem parseVerdict_status_fault (response : Str) (pos_name pos_status : Nat) (e : Fault)
    (hn : rfind response "stream: ".toList = some pos_name)
    (hs : rfind response [' '] = some pos_status)
    (hfound : response.drop (pos_status + 1) = "FOUND".toList)
    (hguard : ¬ pos_name ≥ pos_status)
    (hex : extractName response pos_name pos_status = .error e) :
    parseVerdict response = .error e := by
  have hsp := (rfind_some_spec _ _ _ hs).2
  have h1 : pos_status + 1 ≤ response.length := by simpa using hsp
  have hok : ¬ "FOUND".toList = "OK".toList := by decide
  unfold parseVerdict
  rw [hn, hs]
  simp only [substrFrom, h1, if_true, hfound, hok, if_false, hguard, hex]

/-- The parser on a status `FOUND` with the marker not before the last
space. -/
theorem parseVerdict_status_guard (response : Str) (pos_name pos_status : Nat)
    (hn : rfind response "stream: ".toList = some pos_name)
    (hs : rfind response [' '] = some pos_status)
    (hfound : response.drop (pos_status + 1) = "FOUND".toList)
    (hguard : pos_name ≥ pos_status) :
    parseVerdict response = .ok (VirusCheckResult.ScannerError, []) := by
  have hsp := (rfind_some_spec _ _ _ hs).2
  have h1 : pos_status + 1 ≤ response.length := by simpa using hsp
  have hok : ¬ "FOUND".toList = "OK".toList := by decide
  unfold parseVerdict
  rw [hn, hs]
  simp only [substrFrom, h1, if_true, hfound, hok, if_false, hguard]

/-- The parser when the marker or the space is missing. -/
theorem parseVerdict_missing (response : Str)
    (h : rfind response "stream: ".toList = none ∨ rfind response [' '] = none) :
    parseVerdict response = .ok (VirusCheckResult.ScannerError, []) := by
  unfold parseVerdict
  rcases h with h | h
  · rw [h]
  · rw [h]
    cases rfind response "stream: ".toList with
    | none => rfl
    | some _ => rfl

/-- The parser yields `Clean`, `ScannerError` or `Infected`, the first two
with no name, or it meets the index fault of the suffix scan. -/
theorem parseVerdict_cases (response : Str) :
    parseVerdict response = .error Fault.bad_index ∨
    parseVerdict response = .ok (VirusCheckResult.Clean, []) ∨
    parseVerdict response = .ok (VirusCheckResult.ScannerError, []) ∨
    ∃ name, parseVerdict response = .ok (VirusCheckResult.Infected, name) := by
  cases hn : rfind response "stream: ".toList with
  | none => exact Or.inr (Or.inr (Or.inl (parseVerdict_missing _ (Or.inl hn))))
  | some pos_name =>
    cases hs : rfind response [' '] with
    | none => exact Or.inr (Or.inr (Or.inl (parseVerdict_missing _ (Or.inr hs))))
    | some pos_status =>
      have hnm := (rfind_some_spec _ _ _ hn).2
      have h8 : pos_name + 8 ≤ response.length := by simpa [marker_toList] using hnm
      by_cases hok : response.drop (pos_status + 1) = "OK".toList
      · exact Or.inr (Or.inl (parseVerdict_status_ok _ _ _ hn hs hok))
      · by_cases hfound : response.drop (pos_status + 1) = "FOUND".toList
        · by_cases hguard : pos_name ≥ pos_status
          · exact Or.inr (Or.inr (Or.inl (parseVerdict_status_guard _ _ _ hn hs hfound hguard)))
          · obtain ⟨n1, hw, _, _⟩ := stripWin_total
              ((response.drop (pos_name + 8)).take
                (size_sub (size_sub pos_status pos_name) 8))
            have hex := extractName_of_stripWin _ _ _ n1 h8 hw
            cases hsuf : stripSuffix n1 with
            | error e =>
              have he := stripSuffixLoop_fault _ _ _ hsuf
              rw [hsuf, he] at hex
              exact Or.inl (parseVerdict_status_fault _ _ _ _ hn hs hfound hguard hex)
            | ok name =>
              rw [hsuf] at hex
              exact Or.inr (Or.inr (Or.inr
                ⟨name, parseVerdict_status_found _ _ _ _ hn hs hfound hguard hex⟩))
        · exact Or.inr (Or.inr (Or.inl (parseVerdict_status_other _ _ _ hn hs hok hfound)))

/-- The three ways `ScanFile` comes to its result: the first read fails or
the upload is cut short, the file is empty, or the response is parsed. -/
theorem ScanFile_returned_shape (t : Transport) (src : Source) (vn : Str) :
    (ScanFile t src vn).returned = .ok (VirusCheckResult.ReadError, []) ∨
    (ScanFile t src vn).returned = .ok (VirusCheckResult.Clean, []) ∨
    ∃ response, (ScanFile t src vn).returned = parseVerdict response := by
  unfold ScanFile
  by_cases hr : (DOS_ReadFile src UINT16_MAX).1 = true
  · by_cases hz : (DOS_ReadFile src UINT16_MAX).2.1.length = 0
    · refine Or.inr (Or.inl ?_)
      simp only [hr, Bool.not_true, Bool.false_eq_true, if_false, hz, if_true, clear]
    · generalize hs : (uploadLoop ((DOS_ReadFile src UINT16_MAX).2.2.length + 1)
        ⟨(DOS_ReadFile src UINT16_MAX).2.1, false, (SendCommand t "INSTREAM".toList).2,
          (DOS_ReadFile src UINT16_MAX).2.2⟩) = s
      obtain ⟨r, hg⟩ := GetResponse_ok (s.transport.SendBuffer (frameHeader 0)).2
      by_cases he : s.read_error = true
      · refine Or.inl ?_
        simp only [hr, Bool.not_true, Bool.false_eq_true, if_false, hz, hs, hg, he, if_true,
          clear]
      · refine Or.inr (Or.inr ⟨r, ?_⟩)
        simp only [hr, Bool.not_true, Bool.false_eq_true, if_false, hz, hs, hg, he]
        cases parseVerdict r with
        | error e => rfl
        | ok p =>
          cases p
          rfl
  · refine Or.inl ?_
    simp only [hr, Bool.not_false, if_true, clear]

/-- Every way `ScanFile` can end. -/
theorem ScanFile_returned_cases (t : Transport) (src : Source) (vn : Str) :
    (ScanFile t src vn).returned = .error Fault.bad_index ∨
    (ScanFile t src vn).returned = .ok (VirusCheckResult.ReadError, []) ∨
    (ScanFile t src vn).returned = .ok (VirusCheckResult.Clean, []) ∨
    (ScanFile t src vn).returned = .ok (VirusCheckResult.ScannerError, []) ∨
    ∃ name, (ScanFile t src vn).returned = .ok (VirusCheckResult.Infected, name) := by
  rcases ScanFile_returned_shape t src vn with h | h | ⟨r, h⟩
  · exact Or.inr (Or.inl h)
  · exact Or.inr (Or.inr (Or.inl h))
  · rw [h]
    rcases parseVerdict_cases r with h | h | h | ⟨name, h⟩
    · exact Or.inl h
    · exact Or.inr (Or.inr (Or.inl h))
    · exact Or.inr (Or.inr (Or.inr (Or.inl h)))
    · exact Or.inr (Or.inr (Or.inr (Or.inr ⟨name, h⟩)))

/-! ## The marker and the last space -/

/-- The marker ends in a space: the last space of a string lies 7 or more
after the last occurrence of the marker. -/
theorem rfind_space_ge_marker (r : Str) (i : Nat)
    (hn : rfind r "stream: ".toList = some i) :
    ∃ j, rfind r [' '] = some j ∧ i + 7 ≤ j := by
  obtain ⟨hpre, hle⟩ := rfind_some_spec _ _ _ hn
  rw [marker_toList] at hpre hle
  have hle8 : i + 8 ≤ r.length := hle
  obtain ⟨rest, hrest⟩ := List.isPrefixOf_iff_prefix.mp hpre
  have hdrop : r.drop (i + 7) = ' ' :: rest := by
    rw [← List.drop_drop, ← hrest]
    rfl
  apply rfind_ge [' '] r (i + 7) (by omega)
  rw [hdrop]
  simp [List.isPrefixOf]

/-- A `FOUND` line whose last space is not 8 after the marker: the name is
extracted and the verdict is `Infected`. -/
theorem parseVerdict_found_infected (response : Str) (i j : Nat)
    (hlen : response.length < SIZE_MOD)
    (hn : rfind response "stream: ".toList = some i)
    (hs : rfind response [' '] = some j)
    (hfound : response.drop (j + 1) = "FOUND".toList)
    (hj : j ≠ i + 8) :
    ∃ name, parseVerdict response = .ok (VirusCheckResult.Infected, name) := by
  obtain ⟨j', hs', hge⟩ := rfind_space_ge_marker response i hn
  rw [hs] at hs'
  have hjj : j = j' := Option.some.inj hs'
  subst hjj
  have hguard : ¬ i ≥ j := by omega
  have hnm := (rfind_some_spec _ _ _ hn).2
  have h8 : i + 8 ≤ response.length := by simpa [marker_toList] using hnm
  have hsp := (rfind_some_spec _ _ _ hs).2
  have hj1 : j + 1 ≤ response.length := by simpa using hsp
  have hsub1 : size_sub j i = j - i := size_sub_eq _ _ (by omega) (by omega)
  by_cases h7 : j = i + 7
  · have hsub2 : size_sub (size_sub j i) 8 = SIZE_MOD - 1 := by
      rw [hsub1, h7, Nat.add_sub_cancel_left]
      rfl
    have hX : (response.drop (i + 8)).take (size_sub (size_sub j i) 8) = "FOUND".toList := by
      rw [hsub2, List.take_of_length_le, ← hfound, h7]
      rw [List.length_drop]
      omega
    have hw : stripWin ((response.drop (i + 8)).take (size_sub (size_sub j i) 8)) =
        .ok "FOUND".toList := by
      rw [hX]
      rfl
    have hex := extractName_of_stripWin _ _ _ _ h8 hw
    have hsuf : stripSuffix "FOUND".toList = .ok "FOUND".toList := rfl
    rw [hsuf] at hex
    exact ⟨_, parseVerdict_status_found _ _ _ _ hn hs hfound hguard hex⟩
  · have hsub2 : size_sub (size_sub j i) 8 = j - i - 8 := by
      rw [hsub1]
      exact size_sub_eq _ _ (by omega) (by omega)
    have hXlen : ((response.drop (i + 8)).take (size_sub (size_sub j i) 8)).length =
        j - i - 8 := by
      rw [hsub2, List.length_take, List.length_drop]
      omega
    obtain ⟨n1, hw, hne, hle⟩ := stripWin_total
      ((response.drop (i + 8)).take (size_sub (size_sub j i) 8))
    have hn1 : n1 ≠ [] := by
      apply hne
      intro hnil
      rw [hnil] at hXlen
      simp only [List.length_nil] at hXlen
      omega
    obtain ⟨res, hres, _⟩ := stripSuffix_total n1 hn1 (by omega)
    have hex := extractName_of_stripWin _ _ _ _ h8 hw
    rw [hres] at hex
    exact ⟨_, parseVerdict_status_found _ _ _ _ hn hs hfound hguard hex⟩

/-! ## Claims about the verdicts of `ScanFile` -/

/-- C22: for a non-empty source whose reads all succeed, when the decoded
response contains `stream: ` and is `A ++ " OK"` (the text after its last
space is exactly `OK`), `ScanFile` returns `Clean` and leaves `virus_name`
empty, whatever the caller passed in. -/
theorem ScanFile_ok_verdict (t : Transport) (c : List Nat) (rest : Source)
    (vn response A : Str) (hc : c ≠ []) (hrest : ∀ left, Read.fails left ∉ rest)
    (hresp : (GetResponse t).1 = .ok response)
    (hmarker : "stream: ".toList <:+: response)
    (hlast : response = A ++ ' ' :: "OK".toList) :
    (ScanFile t (Read.gives c :: rest) vn).returned = .ok (VirusCheckResult.Clean, []) := by
  rw [ScanFile_returned t c rest vn response hc hrest hresp]
  cases hn : rfind response "stream: ".toList with
  | none => exact absurd hmarker ((rfind_eq_none_iff _ _).mp hn)
  | some i =>
    have hs : rfind response [' '] = some A.length := by
      rw [hlast]
      exact rfind_space A "OK".toList (by decide)
    apply parseVerdict_status_ok response i A.length hn hs
    rw [hlast]
    simp

theorem ScanFile_ok_verdict_witness :
    ((GetResponse ⟨[], [], ["1: stream: OK".toList], []⟩).1 = .ok "stream: OK".toList ∧
      "stream: ".toList <:+: "stream: OK".toList) ∧
    (ScanFile ⟨[], [], ["1: stream: OK".toList], []⟩ [Read.gives [1, 2], Read.gives [3]]
      "old".toList).returned = .ok (VirusCheckResult.Clean, []) :=
  ⟨⟨rfl, ⟨[], "OK".toList, rfl⟩⟩,
   ScanFile_ok_verdict ⟨[], [], ["1: stream: OK".toList], []⟩ [1, 2] [Read.gives [3]]
     "old".toList "stream: OK".toList "stream:".toList (by decide) (by simp) rfl
     ⟨[], "OK".toList, rfl⟩ rfl⟩

/-- C23: for a non-empty source whose reads all succeed, when the decoded
response contains `stream: ` and the text after its last space is neither
`OK` nor `FOUND` (the response is `A ++ " " ++ tok` with no space in `tok`,
which may be empty), `ScanFile` returns `ScannerError` and leaves
`virus_name` empty. -/
theorem ScanFile_unrecognised_token (t : Transport) (c : List Nat) (rest : Source)
    (vn response A tok : Str) (hc : c ≠ []) (hrest : ∀ left, Read.fails left ∉ rest)
    (hresp : (GetResponse t).1 = .ok response)
    (hmarker : "stream: ".toList <:+: response)
    (hlast : response = A ++ ' ' :: tok) (htok : ' ' ∉ tok)
    (hok : tok ≠ "OK".toList) (hfound : tok ≠ "FOUND".toList) :
    (ScanFile t (Read.gives c :: rest) vn).returned = .ok (VirusCheckResult.ScannerError, []) := by
  rw [ScanFile_returned t c rest vn response hc hrest hresp]
  cases hn : rfind response "stream: ".toList with
  | none => exact absurd hmarker ((rfind_eq_none_iff _ _).mp hn)
  | some i =>
    have hs : rfind response [' '] = some A.length := by
      rw [hlast]
      exact rfind_space A tok htok
    have hdrop : response.drop (A.length + 1) = tok := by
      rw [hlast]
      simp
    apply parseVerdict_status_other response i A.length hn hs
    · rw [hdrop]
      exact hok
    · rw [hdrop]
      exact hfound

theorem ScanFile_unrecognised_token_witness :
    ((GetResponse ⟨[], [], ["1: stream: x ERROR".toList], []⟩).1 =
        .ok "stream: x ERROR".toList ∧
      (ScanFile ⟨[], [], ["1: stream: x ERROR".toList], []⟩ [Read.gives [1]]
        "old".toList).returned = .ok (VirusCheckResult.ScannerError, [])) ∧
    ((GetResponse ⟨[], [], ["1: stream: ok".toList], []⟩).1 = .ok "stream: ok".toList ∧
      (ScanFile ⟨[], [], ["1: stream: ok".toList], []⟩ [Read.gives [1]]
        "old".toList).returned = .ok (VirusCheckResult.ScannerError, [])) ∧
    ((GetResponse ⟨[], [], ["1: stream: x ".toList], []⟩).1 = .ok "stream: x ".toList ∧
      (ScanFile ⟨[], [], ["1: stream: x ".toList], []⟩ [Read.gives [1]]
        "old".toList).returned = .ok (VirusCheckResult.ScannerError, [])) :=
  ⟨⟨rfl, ScanFile_unrecognised_token ⟨[], [], ["1: stream: x ERROR".toList], []⟩ [1] []
      "old".toList "stream: x ERROR".toList "stream: x".toList "ERROR".toList
      (by decide) (by simp) rfl ⟨[], "x ERROR".toList, rfl⟩ rfl (by decide) (by decide)
      (by decide)⟩,
   ⟨rfl, ScanFile_unrecognised_token ⟨[], [], ["1: stream: ok".toList], []⟩ [1] []
      "old".toList "stream: ok".toList "stream:".toList "ok".toList
      (by decide) (by simp) rfl ⟨[], "ok".toList, rfl⟩ rfl (by decide) (by decide)
      (by decide)⟩,
   ⟨rfl, ScanFile_unrecognised_token ⟨[], [], ["1: stream: x ".toList], []⟩ [1] []
      "old".toList "stream: x ".toList "stream: x".toList []
      (by decide) (by simp) rfl ⟨[], "x ".toList, rfl⟩ rfl (by decide) (by decide)
      (by decide)⟩⟩

/-- C27: whatever the caller passed in as `virus_name`, when `ScanFile`
returns a verdict other than `Infected` the name it leaves behind is empty. -/
theorem ScanFile_virus_name_cleared (t : Transport) (src : Source) (vn : Str)
    (result : VirusCheckResult) (name : Str)
    (h : (ScanFile t src vn).returned = .ok (result, name))
    (hne : result ≠ VirusCheckResult.Infected) : name = [] := by
  rcases ScanFile_returned_cases t src vn with h' | h' | h' | h' | ⟨n, h'⟩
  · rw [h'] at h
    cases h
  · rw [h'] at h
    cases h
    rfl
  · rw [h'] at h
    cases h
    rfl
  · rw [h'] at h
    cases h
    rfl
  · rw [h'] at h
    cases h
    exact absurd rfl hne

theorem ScanFile_virus_name_cleared_witness :
    (GetResponse (sendAll (SendCommand ⟨[], [], ["1: stream: Eicar FOUND".toList], []⟩
        "INSTREAM".toList).2 [frame [1, 2], frameHeader 0])).1 =
      .ok "stream: Eicar FOUND".toList ∧
    (ScanFile ⟨[], [], ["1: stream: Eicar FOUND".toList], []⟩ [Read.gives [1, 2], Read.fails [3]]
      "old".toList).returned = .ok (VirusCheckResult.ReadError, []) ∧
    ([] : Str) = [] :=
  ⟨rfl, rfl,
   ScanFile_virus_name_cleared ⟨[], [], ["1: stream: Eicar FOUND".toList], []⟩
     [Read.gives [1, 2], Read.fails [3]] "old".toList VirusCheckResult.ReadError [] rfl (by decide)⟩

/-! ## Claims about the decoder and the name normalisation -/

/-- C24: `GetResponse` performs one receive with the 500 ms timeout, or that
one and a second with the 300 ms timeout, and nothing else; when the first
receive returns the empty string the empty string is returned and there is no
second receive; the second receive takes place if and only if the first one
is non-empty and stripping it through its first `: ` leaves the empty string,
and then the text of the second receive is returned as it is. -/
theorem GetResponse_retry (t : Transport) :
    ((GetResponse t).2.log = t.log ++ [Event.recv 500] ∨
      (GetResponse t).2.log = t.log ++ [Event.recv 500, Event.recv 300]) ∧
    ((t.Receive 500).1 = [] →
      GetResponse t = (.ok [], (t.Receive 500).2) ∧
      (GetResponse t).2.log = t.log ++ [Event.recv 500]) ∧
    ((GetResponse t).2.log = t.log ++ [Event.recv 500, Event.recv 300] ↔
      (t.Receive 500).1 ≠ [] ∧ strip_first_result (t.Receive 500).1 = .ok []) ∧
    ((t.Receive 500).1 ≠ [] → strip_first_result (t.Receive 500).1 = .ok [] →
      GetResponse t =
        (.ok ((t.Receive 500).2.Receive 300).1, ((t.Receive 500).2.Receive 300).2)) := by
  have hlog1 : (t.Receive 500).2.log = t.log ++ [Event.recv 500] := rfl
  have hlog2 : ((t.Receive 500).2.Receive 300).2.log =
      t.log ++ [Event.recv 500, Event.recv 300] := by
    simp [Transport.Receive]
  have hdiff : t.log ++ [Event.recv 500] ≠ t.log ++ [Event.recv 500, Event.recv 300] := by
    intro h
    have := congrArg List.length h
    simp at this
  by_cases he : (t.Receive 500).1 = []
  · have hg : GetResponse t = (.ok [], (t.Receive 500).2) := by
      unfold GetResponse
      simp only [he, List.isEmpty_nil, if_true]
    have hl : (GetResponse t).2.log = t.log ++ [Event.recv 500] := by
      rw [hg]
      exact hlog1
    refine ⟨Or.inl hl, fun _ => ⟨hg, hl⟩, ⟨fun h => ?_, fun h => absurd he h.1⟩,
      fun h => absurd he h⟩
    rw [hl] at h
    exact absurd h hdiff
  · have hemp : (t.Receive 500).1.isEmpty = false := by
      cases hr : (t.Receive 500).1 with
      | nil => exact absurd hr he
      | cons x xs => rfl
    obtain ⟨s, hs⟩ := strip_first_result_ok (t.Receive 500).1
    by_cases hs0 : s = []
    · rw [hs0] at hs
      have hg : GetResponse t =
          (.ok ((t.Receive 500).2.Receive 300).1, ((t.Receive 500).2.Receive 300).2) := by
        unfold GetResponse
        simp only [hemp, Bool.false_eq_true, if_false, hs, List.isEmpty_nil, Bool.not_true]
      have hl : (GetResponse t).2.log = t.log ++ [Event.recv 500, Event.recv 300] := by
        rw [hg]
        exact hlog2
      exact ⟨Or.inr hl, fun h => absurd h he, ⟨fun _ => ⟨he, hs⟩, fun _ => hl⟩, fun _ _ => hg⟩
    · have hsemp : s.isEmpty = false := by
        cases s with
        | nil => exact absurd rfl hs0
        | cons x xs => rfl
      have hg : GetResponse t = (.ok s, (t.Receive 500).2) := by
        unfold GetResponse
        simp only [hemp, Bool.false_eq_true, if_false, hs, hsemp, Bool.not_false, if_true]
      have hl : (GetResponse t).2.log = t.log ++ [Event.recv 500] := by
        rw [hg]
        exact hlog1
      refine ⟨Or.inl hl, fun h => absurd h he, ⟨fun h => ?_, fun h => ?_⟩, fun _ h => ?_⟩
      · rw [hl] at h
        exact absurd h hdiff
      · rw [hs] at h
        exact absurd (Except.ok.inj h.2) hs0
      · rw [hs] at h
        exact absurd (Except.ok.inj h) hs0

theorem GetResponse_retry_witness :
    ((Transport.Receive ⟨[], [], ["1: ".toList, "2: stream: OK".toList], []⟩ 500).1 ≠ [] ∧
      strip_first_result
        (Transport.Receive ⟨[], [], ["1: ".toList, "2: stream: OK".toList], []⟩ 500).1 =
          .ok []) ∧
    GetResponse ⟨[], [], ["1: ".toList, "2: stream: OK".toList], []⟩ =
      (.ok "2: stream: OK".toList, ⟨[], [], [], [Event.recv 500, Event.recv 300]⟩) ∧
    GetResponse ⟨[], [], [[], "stream: OK".toList], []⟩ =
      (.ok [], ⟨[], [], ["stream: OK".toList], [Event.recv 500]⟩) :=
  ⟨⟨by decide, rfl⟩,
   (GetResponse_retry ⟨[], [], ["1: ".toList, "2: stream: OK".toList], []⟩).2.2.2
     (by decide) rfl,
   ((GetResponse_retry ⟨[], [], [[], "stream: OK".toList], []⟩).2.1 rfl).1⟩

/-- C25: the prefix rule removes the leading `Win.` when the name starts with
`Win.` and is longer than 4 characters, and leaves the name alone otherwise;
`Win.` alone is kept, `Win.X` becomes `X`, and of two leading `Win.` only the
first is removed, also in the name `ScanFile` reports. -/
theorem stripWin_prefix_rule (N : Str) :
    (N.length > 4 ∧ "Win.".toList <+: N →
      stripWin N = .ok (N.drop 4) ∧ N = "Win.".toList ++ N.drop 4) ∧
    (¬ (N.length > 4 ∧ "Win.".toList <+: N) → stripWin N = .ok N) ∧
    stripWin "Win.".toList = .ok "Win.".toList ∧
    stripWin "Win.X".toList = .ok "X".toList ∧
    stripWin "Win.Win.X".toList = .ok "Win.X".toList ∧
    (ScanFile ⟨[], [], ["1: stream: Win. FOUND".toList], []⟩ [Read.gives [1]] []).returned =
      .ok (VirusCheckResult.Infected, "Win.".toList) ∧
    (ScanFile ⟨[], [], ["1: stream: Win.X FOUND".toList], []⟩ [Read.gives [1]] []).returned =
      .ok (VirusCheckResult.Infected, "X".toList) ∧
    (ScanFile ⟨[], [], ["1: stream: Win.Win.X FOUND".toList], []⟩ [Read.gives [1]] []).returned =
      .ok (VirusCheckResult.Infected, "Win.X".toList) := by
  refine ⟨fun h => ?_, fun h => ?_, rfl, rfl, rfl, rfl, rfl, rfl⟩
  · have hp : starts_with "Win.".toList N = true := List.isPrefixOf_iff_prefix.mpr h.2
    have h4 : 4 ≤ N.length := by omega
    obtain ⟨M, hM⟩ := h.2
    refine ⟨by simp only [stripWin, h.1, hp, and_self, if_true, substrFrom, h4], ?_⟩
    rw [← hM]
    rfl
  · have hc : ¬ (N.length > 4 ∧ starts_with "Win.".toList N = true) := by
      intro hc
      exact h ⟨hc.1, List.isPrefixOf_iff_prefix.mp hc.2⟩
    simp only [stripWin, hc, if_false]

theorem stripWin_prefix_rule_witness :
    ("Win.Trojan.Agent".toList.length > 4 ∧ "Win.".toList <+: "Win.Trojan.Agent".toList) ∧
    stripWin "Win.Trojan.Agent".toList = .ok "Trojan.Agent".toList ∧
    ¬ ("Unix.Win.".toList.length > 4 ∧ "Win.".toList <+: "Unix.Win.".toList) ∧
    stripWin "Unix.Win.".toList = .ok "Unix.Win.".toList :=
  ⟨⟨by decide, by decide⟩,
   ((stripWin_prefix_rule "Win.Trojan.Agent".toList).1 ⟨by decide, by decide⟩).1,
   by decide,
   (stripWin_prefix_rule "Unix.Win.".toList).2.1 (by decide)⟩

/-- C28: on a non-empty name `M` the suffix scan yields a name that is a
beginning of `M`; with `M = A ++ c :: T`, `T` the trailing digits (possibly
none): the name is cut to `A` when `c` is a hyphen at index 2 or more; it is
left alone when `c` lies at index 0 or 1, whatever `c` is, or when `c` is
neither a digit nor a hyphen, or when `M` is made of digits only; a name that
is cut keeps 2 characters or more. -/
theorem stripSuffix_rule (M : Str) (hne : M ≠ []) (hlen : M.length < SIZE_MOD) :
    ∃ res, stripSuffix M = .ok res ∧ res <+: M ∧ (res ≠ M → 2 ≤ res.length) ∧
      (∀ A T, M = A ++ '-' :: T → (∀ d ∈ T, '0' ≤ d ∧ d ≤ '9') → 2 ≤ A.length → res = A) ∧
      (∀ A c T, M = A ++ c :: T → (∀ d ∈ T, '0' ≤ d ∧ d ≤ '9') → A.length < 2 → res = M) ∧
      (∀ A c T, M = A ++ c :: T → (∀ d ∈ T, '0' ≤ d ∧ d ≤ '9') →
        ¬ ('0' ≤ c ∧ c ≤ '9') → c ≠ '-' → res = M) ∧
      ((∀ d ∈ M, '0' ≤ d ∧ d ≤ '9') → res = M) := by
  obtain ⟨res, hres, hpre, _, hcut⟩ := stripSuffix_total M hne hlen
  refine ⟨res, hres, hpre, fun h => (hcut h).1, ?_, ?_, ?_, ?_⟩
  · intro A T hM hT hA
    subst hM
    have h := stripSuffix_cut A T hA hT hlen
    rw [hres] at h
    exact Except.ok.inj h
  · intro A c T hM hT hA
    subst hM
    have h := stripSuffix_low A c T hA hT hlen
    rw [hres] at h
    exact Except.ok.inj h
  · intro A c T hM hT hc hc2
    subst hM
    have h := stripSuffix_other A c T hc hc2 hT hlen
    rw [hres] at h
    exact Except.ok.inj h
  · intro hM
    have h := stripSuffix_digits M hne hlen hM
    rw [hres] at h
    exact Except.ok.inj h

theorem stripSuffix_rule_witness :
    ("Foo-123".toList ≠ [] ∧ "Foo-123".toList.length < SIZE_MOD) ∧
    (∃ res, stripSuffix "Foo-123".toList = .ok res ∧ res = "Foo".toList) ∧
    stripSuffix "Foo-".toList = .ok "Foo".toList ∧
    stripSuffix "X-1".toList = .ok "X-1".toList ∧
    stripSuffix "-12".toList = .ok "-12".toList ∧
    stripSuffix "Foo-12a".toList = .ok "Foo-12a".toList := by
  refine ⟨⟨by decide, by decide⟩, ?_, rfl, rfl, rfl, rfl⟩
  obtain ⟨res, hres, _, _, hcut, _⟩ :=
    stripSuffix_rule "Foo-123".toList (by decide) (by decide)
  exact ⟨res, hres, hcut "Foo".toList "123".toList rfl (by decide) (by decide)⟩

/-! ## `ANTIVIR_GetVersion` -/

/-- On a session that is ready the cached versions are handed out and the
object is left alone. -/
theorem ANTIVIR_GetVersion_ready (c : ClamAV_Base) (e d : Str)
    (h : c.is_initialized = true) :
    (ANTIVIR_GetVersion c e d).returned =
      .ok (!c.engine_version.isEmpty && !c.database_version.isEmpty) ∧
    (ANTIVIR_GetVersion c e d).clamav = c := by
  unfold ANTIVIR_GetVersion
  rw [PrepareConnection_ready c h]
  exact ⟨rfl, rfl⟩

/-- Further calls on a session that is ready leave the object alone. -/
theorem afterCalls_ready (c : ClamAV_Base) (h : c.is_initialized = true) :
    ∀ n, afterCalls n c = c := by
  intro n
  induction n with
  | zero => rfl
  | succ n ih =>
    unfold afterCalls
    rw [(ANTIVIR_GetVersion_ready c [] [] h).2]
    exact ih

/-- The call in terms of `PrepareConnection`. -/
theorem ANTIVIR_GetVersion_of_prepare (c : ClamAV_Base) (e d : Str)
    (h : (PrepareConnection c).1 = .ok true) :
    (ANTIVIR_GetVersion c e d).returned =
      .ok (!(PrepareConnection c).2.engine_version.isEmpty &&
        !(PrepareConnection c).2.database_version.isEmpty) ∧
    (ANTIVIR_GetVersion c e d).clamav = (PrepareConnection c).2 := by
  unfold ANTIVIR_GetVersion
  simp only [h, GetEngineVersion, GetDatabaseVersion, and_self]

/-- The call when `PrepareConnection` does not return true. -/
theorem ANTIVIR_GetVersion_not_true (c : ClamAV_Base) (e d : Str)
    (h : (PrepareConnection c).1 ≠ .ok true) :
    (ANTIVIR_GetVersion c e d).returned ≠ .ok true := by
  cases hp : (PrepareConnection c).1 with
  | error x =>
    unfold ANTIVIR_GetVersion
    simp only [hp]
    intro hc
    cases hc
  | ok b =>
    cases b with
    | true => exact absurd hp h
    | false =>
      unfold ANTIVIR_GetVersion
      simp only [hp]
      intro hc
      cases hc

/-! ## Claims about `ANTIVIR_GetVersion` -/

/-- C29: `ANTIVIR_GetVersion` returns true if and only if `PrepareConnection`
returns true and both cached versions are non-empty. When `PrepareConnection`
returns true with an empty cached version, the call returns false, the
session is ready, and every later call leaves the object as it is (no command
is sent again) and returns false. That is the case when a candidate passes and
the decoded VERSION reply has no `/` (so also when it is empty): the database
version is cached empty. -/
theorem ANTIVIR_GetVersion_cached (c : ClamAV_Base) (e d : Str) :
    ((ANTIVIR_GetVersion c e d).returned = .ok true ↔
      (PrepareConnection c).1 = .ok true ∧ (PrepareConnection c).2.engine_version ≠ [] ∧
        (PrepareConnection c).2.database_version ≠ []) ∧
    ((PrepareConnection c).1 = .ok true →
      ((PrepareConnection c).2.engine_version = [] ∨
        (PrepareConnection c).2.database_version = []) →
      (ANTIVIR_GetVersion c e d).returned = .ok false ∧
      (ANTIVIR_GetVersion c e d).clamav.is_initialized = true ∧
      ∀ (n : Nat) (e' d' : Str),
        afterCalls n (ANTIVIR_GetVersion c e d).clamav = (ANTIVIR_GetVersion c e d).clamav ∧
        (ANTIVIR_GetVersion (afterCalls n (ANTIVIR_GetVersion c e d).clamav) e' d').returned =
          .ok false) ∧
    (∀ (r : Str) (t' : Transport), c.is_initialized = false →
      ((tryProtocol c.transport 0).1 = .ok true ∧ t' = (tryProtocol c.transport 0).2) ∨
        ((tryProtocol c.transport 0).1 = .ok false ∧
          (tryProtocol (tryProtocol c.transport 0).2 1).1 = .ok true ∧
          t' = (tryProtocol (tryProtocol c.transport 0).2 1).2) →
      (GetResponse (SendCommand t' "VERSION".toList).2).1 = .ok r → '/' ∉ r →
      (PrepareConnection c).1 = .ok true ∧ (PrepareConnection c).2.engine_version = r ∧
        (PrepareConnection c).2.database_version = []) := by
  refine ⟨⟨fun h => ?_, fun h => ?_⟩, fun hp hemp => ?_, ?_⟩
  · by_cases hp : (PrepareConnection c).1 = .ok true
    · have hv := (ANTIVIR_GetVersion_of_prepare c e d hp).1
      rw [hv] at h
      have hb := Except.ok.inj h
      simp only [Bool.and_eq_true, Bool.not_eq_true', List.isEmpty_eq_false] at hb
      exact ⟨hp, hb.1, hb.2⟩
    · exact absurd h (ANTIVIR_GetVersion_not_true c e d hp)
  · rw [(ANTIVIR_GetVersion_of_prepare c e d h.1).1]
    have h1 : (PrepareConnection c).2.engine_version.isEmpty = false := by
      simpa using h.2.1
    have h2 : (PrepareConnection c).2.database_version.isEmpty = false := by
      simpa using h.2.2
    rw [h1, h2]
    rfl
  · have hv := ANTIVIR_GetVersion_of_prepare c e d hp
    have hflag := PrepareConnection_returns_flag c
    rw [hp] at hflag
    have hready : (PrepareConnection c).2.is_initialized = true :=
      (Except.ok.inj hflag).symm
    have hfalse : (!(PrepareConnection c).2.engine_version.isEmpty &&
        !(PrepareConnection c).2.database_version.isEmpty) = false := by
      rcases hemp with h | h <;> rw [h] <;> simp
    rw [hv.2]
    refine ⟨by rw [hv.1, hfalse], hready, fun n e' d' => ?_⟩
    rw [afterCalls_ready _ hready n]
    refine ⟨rfl, ?_⟩
    rw [(ANTIVIR_GetVersion_ready _ e' d' hready).1, hfalse]
  · intro r t' hinit hcand hresp hr
    rcases hcand with ⟨h0, ht⟩ | ⟨h0, h1, ht⟩
    · subst ht
      rw [PrepareConnection_first c hinit h0]
      have hs := RetrieveVersion_of_split ⟨true, 0, [], [], (tryProtocol c.transport 0).2⟩
        r r [] hresp (splitVersion_no_slash r hr)
      exact ⟨rfl, hs.2.1, hs.2.2⟩
    · subst ht
      rw [PrepareConnection_second c hinit h0 h1]
      have hs := RetrieveVersion_of_split
        ⟨true, 1, [], [], (tryProtocol (tryProtocol c.transport 0).2 1).2⟩
        r r [] hresp (splitVersion_no_slash r hr)
      exact ⟨rfl, hs.2.1, hs.2.2⟩

theorem ANTIVIR_GetVersion_cached_witness :
    ((PrepareConnection ⟨false, 0, [], [], ⟨[true], [true, true, true],
        ["1: PONG".toList, "2: ClamAV 0.103.2".toList], []⟩⟩).1 = .ok true ∧
      (PrepareConnection ⟨false, 0, [], [], ⟨[true], [true, true, true],
        ["1: PONG".toList, "2: ClamAV 0.103.2".toList], []⟩⟩).2.engine_version =
          "ClamAV 0.103.2".toList ∧
      (PrepareConnection ⟨false, 0, [], [], ⟨[true], [true, true, true],
        ["1: PONG".toList, "2: ClamAV 0.103.2".toList], []⟩⟩).2.database_version = []) ∧
    (ANTIVIR_GetVersion ⟨false, 0, [], [], ⟨[true], [true, true, true],
      ["1: PONG".toList, "2: ClamAV 0.103.2".toList], []⟩⟩ [] []).returned = .ok false ∧
    (ANTIVIR_GetVersion ⟨false, 0, [], [], ⟨[true], [true, true, true],
      ["1: PONG".toList, "2: ClamAV 0.103.2".toList], []⟩⟩ [] []).clamav.is_initialized =
        true ∧
    (ANTIVIR_GetVersion (afterCalls 3 (ANTIVIR_GetVersion ⟨false, 0, [], [], ⟨[true],
      [true, true, true], ["1: PONG".toList, "2: ClamAV 0.103.2".toList], []⟩⟩
        [] []).clamav) [] []).returned = .ok false :=
  have h := (ANTIVIR_GetVersion_cached ⟨false, 0, [], [], ⟨[true], [true, true, true],
    ["1: PONG".toList, "2: ClamAV 0.103.2".toList], []⟩⟩ [] []).2.1 rfl (Or.inr rfl)
  ⟨(ANTIVIR_GetVersion_cached ⟨false, 0, [], [], ⟨[true], [true, true, true],
      ["1: PONG".toList, "2: ClamAV 0.103.2".toList], []⟩⟩ [] []).2.2
      "ClamAV 0.103.2".toList _ rfl (Or.inl ⟨rfl, rfl⟩) rfl (by decide),
   h.1, h.2.1, (h.2.2 3 [] []).2⟩

/-! ## The counters of `MSAV` -/

/-- What one call of `MSAV::ScanFile` does to each counter, in the arithmetic
of the counters. -/
theorem MSAV_ScanFile_counters (open_ok : Bool) (result : VirusCheckResult) (file_size : Nat)
    (summary : MSAV.Summary) :
    (MSAV.ScanFile open_ok result file_size summary).2.files =
      (summary.files + 1) % SIZE_MOD ∧
    (MSAV.ScanFile open_ok result file_size summary).2.total_size =
      (summary.total_size + file_size) % SIZE_MOD ∧
    (MSAV.ScanFile open_ok result file_size summary).2.directories = summary.directories ∧
    (MSAV.ScanFile open_ok result file_size summary).2.infected =
      (if open_ok = true ∧ result = VirusCheckResult.Infected
        then (summary.infected + 1) % SIZE_MOD else summary.infected) ∧
    (MSAV.ScanFile open_ok result file_size summary).2.skipped =
      (if open_ok = false ∨
          (result ≠ VirusCheckResult.Clean ∧ result ≠ VirusCheckResult.Infected)
        then (summary.skipped + 1) % SIZE_MOD else summary.skipped) := by
  cases open_ok <;> cases result <;> simp [MSAV.ScanFile]

/-- One statement of the walk keeps `infected + skipped ≤ files` as long as
`files` does not wrap. -/
theorem MSAV_step_inv (s : MSAV.Summary) (a : MSAV.Step)
    (hinv : s.infected + s.skipped ≤ s.files) (hf : s.files + 1 < SIZE_MOD) :
    (MSAV.step s a).infected + (MSAV.step s a).skipped ≤ (MSAV.step s a).files ∧
    (MSAV.step s a).files ≤ s.files + 1 := by
  cases a with
  | directory =>
    simp only [MSAV.step]
    omega
  | file open_ok result file_size =>
    obtain ⟨h1, _, _, h4, h5⟩ := MSAV_ScanFile_counters open_ok result file_size s
    simp only [MSAV.step]
    rw [h1, h4, h5, Nat.mod_eq_of_lt hf]
    have hi := Nat.mod_le (s.infected + 1) SIZE_MOD
    have hk := Nat.mod_le (s.skipped + 1) SIZE_MOD
    cases open_ok <;> cases result <;> simp <;> omega

/-- A walk keeps `infected + skipped ≤ files` as long as `files` does not
wrap. -/
theorem MSAV_walk_inv :
    ∀ (steps : List MSAV.Step) (s : MSAV.Summary),
      s.infected + s.skipped ≤ s.files → s.files + steps.length < SIZE_MOD →
      (MSAV.walk s steps).infected + (MSAV.walk s steps).skipped ≤ (MSAV.walk s steps).files ∧
      (MSAV.walk s steps).files ≤ s.files + steps.length := by
  intro steps
  induction steps with
  | nil =>
    intro s hinv _
    exact ⟨hinv, Nat.le_refl _⟩
  | cons a l ih =>
    intro s hinv hlen
    simp only [List.length_cons] at hlen
    obtain ⟨h1, h2⟩ := MSAV_step_inv s a hinv (by omega)
    obtain ⟨h3, h4⟩ := ih (MSAV.step s a) h1 (by omega)
    have hw : MSAV.walk s (a :: l) = MSAV.walk (MSAV.step s a) l := rfl
    rw [hw]
    refine ⟨h3, ?_⟩
    simp only [List.length_cons]
    omega

/-! ## Claims about the summary of `MSAV` -/

/-- C30: every call of `MSAV::ScanFile` adds 1 to `files` and the file size
to `total_size` (in the arithmetic of the counters, modulo 2^64), leaves
`directories` alone, adds 1 to `infected` exactly when the file was opened and
the verdict is `Infected`, and adds 1 to `skipped` exactly when the file could
not be opened or the verdict is neither `Clean` nor `Infected`. In a scan that
starts from a zero summary and makes fewer than 2^64 steps no counter wraps:
the call adds exactly 1 to `files` and to at most one of `infected` and
`skipped`, and `infected + skipped ≤ files` holds before and after it. -/
theorem MSAV_summary_counters (steps : List MSAV.Step) (open_ok : Bool)
    (result : VirusCheckResult) (file_size : Nat) (summary : MSAV.Summary)
    (hlen : steps.length + 1 < SIZE_MOD) :
    ((MSAV.ScanFile open_ok result file_size summary).2.files =
        (summary.files + 1) % SIZE_MOD ∧
      (MSAV.ScanFile open_ok result file_size summary).2.total_size =
        (summary.total_size + file_size) % SIZE_MOD ∧
      (MSAV.ScanFile open_ok result file_size summary).2.directories = summary.directories ∧
      (MSAV.ScanFile open_ok result file_size summary).2.infected =
        (if open_ok = true ∧ result = VirusCheckResult.Infected
          then (summary.infected + 1) % SIZE_MOD else summary.infected) ∧
      (MSAV.ScanFile open_ok result file_size summary).2.skipped =
        (if open_ok = false ∨
            (result ≠ VirusCheckResult.Clean ∧ result ≠ VirusCheckResult.Infected)
          then (summary.skipped + 1) % SIZE_MOD else summary.skipped)) ∧
    (MSAV.walk ⟨0, 0, 0, 0, 0⟩ steps).infected + (MSAV.walk ⟨0, 0, 0, 0, 0⟩ steps).skipped ≤
      (MSAV.walk ⟨0, 0, 0, 0, 0⟩ steps).files ∧
    ((MSAV.ScanFile open_ok result file_size (MSAV.walk ⟨0, 0, 0, 0, 0⟩ steps)).2.files =
        (MSAV.walk ⟨0, 0, 0, 0, 0⟩ steps).files + 1 ∧
      (MSAV.ScanFile open_ok result file_size (MSAV.walk ⟨0, 0, 0, 0, 0⟩ steps)).2.infected =
        (MSAV.walk ⟨0, 0, 0, 0, 0⟩ steps).infected +
          (if open_ok = true ∧ result = VirusCheckResult.Infected then 1 else 0) ∧
      (MSAV.ScanFile open_ok result file_size (MSAV.walk ⟨0, 0, 0, 0, 0⟩ steps)).2.skipped =
        (MSAV.walk ⟨0, 0, 0, 0, 0⟩ steps).skipped +
          (if open_ok = false ∨
              (result ≠ VirusCheckResult.Clean ∧ result ≠ VirusCheckResult.Infected)
            then 1 else 0)) ∧
    (MSAV.ScanFile open_ok result file_size (MSAV.walk ⟨0, 0, 0, 0, 0⟩ steps)).2.infected +
        (MSAV.ScanFile open_ok result file_size (MSAV.walk ⟨0, 0, 0, 0, 0⟩ steps)).2.skipped ≤
      (MSAV.ScanFile open_ok result file_size (MSAV.walk ⟨0, 0, 0, 0, 0⟩ steps)).2.files := by
  obtain ⟨hinv, hfiles⟩ := MSAV_walk_inv steps ⟨0, 0, 0, 0, 0⟩ (Nat.le_refl _)
    (by simp only [Nat.zero_add]; omega)
  simp only [Nat.zero_add] at hfiles
  generalize MSAV.walk ⟨0, 0, 0, 0, 0⟩ steps = s at hinv hfiles
  obtain ⟨h1, _, _, h4, h5⟩ := MSAV_ScanFile_counters open_ok result file_size s
  have hf : (s.files + 1) % SIZE_MOD = s.files + 1 := Nat.mod_eq_of_lt (by omega)
  have hi : (s.infected + 1) % SIZE_MOD = s.infected + 1 := Nat.mod_eq_of_lt (by omega)
  have hk : (s.skipped + 1) % SIZE_MOD = s.skipped + 1 := Nat.mod_eq_of_lt (by omega)
  rw [hf] at h1
  rw [hi] at h4
  rw [hk] at h5
  refine ⟨MSAV_ScanFile_counters open_ok result file_size summary, hinv, ⟨h1, ?_, ?_⟩, ?_⟩
  · rw [h4]
    split <;> rfl
  · rw [h5]
    split <;> rfl
  · rw [h1, h4, h5]
    cases open_ok <;> cases result <;> simp <;> omega

theorem MSAV_summary_counters_witness :
    [MSAV.Step.directory, MSAV.Step.file true VirusCheckResult.Infected 10,
      MSAV.Step.file false VirusCheckResult.Clean 5].length + 1 < SIZE_MOD ∧
    MSAV.walk ⟨0, 0, 0, 0, 0⟩ [MSAV.Step.directory,
      MSAV.Step.file true VirusCheckResult.Infected 10,
      MSAV.Step.file false VirusCheckResult.Clean 5] = ⟨1, 2, 15, 1, 1⟩ ∧
    (MSAV.ScanFile true VirusCheckResult.ReadError 7 ⟨1, 2, 15, 1, 1⟩).2 = ⟨1, 3, 22, 1, 2⟩ ∧
    (MSAV.ScanFile true VirusCheckResult.ReadError 7 (MSAV.walk ⟨0, 0, 0, 0, 0⟩
        [MSAV.Step.directory, MSAV.Step.file true VirusCheckResult.Infected 10,
          MSAV.Step.file false VirusCheckResult.Clean 5])).2.infected +
      (MSAV.ScanFile true VirusCheckResult.ReadError 7 (MSAV.walk ⟨0, 0, 0, 0, 0⟩
        [MSAV.Step.directory, MSAV.Step.file true VirusCheckResult.Infected 10,
          MSAV.Step.file false VirusCheckResult.Clean 5])).2.skipped ≤
      (MSAV.ScanFile true VirusCheckResult.ReadError 7 (MSAV.walk ⟨0, 0, 0, 0, 0⟩
        [MSAV.Step.directory, MSAV.Step.file true VirusCheckResult.Infected 10,
          MSAV.Step.file false VirusCheckResult.Clean 5])).2.files :=
  ⟨by decide, by decide, by decide,
   (MSAV_summary_counters [MSAV.Step.directory,
      MSAV.Step.file true VirusCheckResult.Infected 10,
      MSAV.Step.file false VirusCheckResult.Clean 5] true VirusCheckResult.ReadError 7
      ⟨0, 0, 0, 0, 0⟩ (by decide)).2.2.2⟩

/-! ## The drives scanned by `MSAV::Run` -/

/-- Sorting keeps the strings. -/
theorem mem_insert_sorted (x y : Str) : ∀ l : List Str, y ∈ insert_sorted x l ↔ y = x ∨ y ∈ l := by
  intro l
  induction l with
  | nil => simp [insert_sorted]
  | cons z zs ih =>
    unfold insert_sorted
    split
    · simp only [List.mem_cons, ih]
      tauto
    · simp only [List.mem_cons]

theorem mem_std_sort (y : Str) : ∀ l : List Str, y ∈ std_sort l ↔ y ∈ l := by
  intro l
  induction l with
  | nil => simp [std_sort]
  | cons x xs ih =>
    unfold std_sort
    rw [mem_insert_sorted, ih, List.mem_cons]

theorem insert_sorted_ne_nil (x : Str) (l : List Str) : insert_sorted x l ≠ [] := by
  cases l with
  | nil => simp [insert_sorted]
  | cons y ys =>
    unfold insert_sorted
    split <;> simp

theorem std_sort_ne_nil (l : List Str) (h : l ≠ []) : std_sort l ≠ [] := by
  cases l with
  | nil => exact absurd rfl h
  | cons x xs => exact insert_sorted_ne_nil x _

/-- The scans of a list of paths all go through when `ScanPath` never
returns false. -/
theorem MSAV_scanPaths_true (ScanPath : Str → MSAV.Summary → Bool × MSAV.Summary)
    (hsp : ∀ p s, (ScanPath p s).1 = true) :
    ∀ (paths : List Str) (summary : MSAV.Summary) (out : List MSAV.Output),
      (MSAV.scanPaths ScanPath paths summary out).1 = true := by
  intro paths
  induction paths with
  | nil => intro summary out; rfl
  | cons p ps ih =>
    intro summary out
    simp only [MSAV.scanPaths, hsp, Bool.not_true, Bool.false_eq_true, if_false]
    exact ih _ _

/-- A call of `ScanDrive` from `Run` leaves the drive letter and the list as
they are and is recorded with them. -/
theorem MSAV_callScanDrive_state (ScanPath : Str → MSAV.Summary → Bool × MSAV.Summary)
    (s : MSAV.RunState) :
    (MSAV.callScanDrive ScanPath s).2.drive_letter = s.drive_letter ∧
    (MSAV.callScanDrive ScanPath s).2.drive_object_list = s.drive_object_list ∧
    (MSAV.callScanDrive ScanPath s).2.calls =
      s.calls ++ [(s.drive_letter, s.drive_object_list)] :=
  ⟨rfl, rfl, rfl⟩

/-- The loop of `Run` never changes `drive_letter`: every call of `ScanDrive`
it makes carries the letter the loop was entered with. -/
theorem MSAV_groupLoop_letter (ScanPath : Str → MSAV.Summary → Bool × MSAV.Summary) :
    ∀ (entries : List Str) (s : MSAV.RunState),
      (MSAV.groupLoop ScanPath entries s).2.drive_letter = s.drive_letter ∧
      ∃ lists : List (List Str), (MSAV.groupLoop ScanPath entries s).2.calls =
        s.calls ++ lists.map (fun l => (s.drive_letter, l)) := by
  intro entries
  induction entries with
  | nil =>
    intro s
    exact ⟨rfl, [], by simp [MSAV.groupLoop]⟩
  | cons entry rest ih =>
    intro s
    unfold MSAV.groupLoop
    by_cases hl : s.drive_letter = front entry
    · rw [if_pos hl]
      obtain ⟨h1, lists, h2⟩ := ih { s with drive_object_list := s.drive_object_list ++ [entry] }
      exact ⟨h1, lists, h2⟩
    · rw [if_neg hl]
      obtain ⟨c1, _, c3⟩ := MSAV_callScanDrive_state ScanPath s
      by_cases hr : (MSAV.callScanDrive ScanPath s).1 = true
      · simp only [hr, Bool.not_true, Bool.false_eq_true, if_false]
        obtain ⟨h1, lists, h2⟩ := ih
          { (MSAV.callScanDrive ScanPath s).2 with drive_object_list := [entry] }
        refine ⟨h1.trans c1, s.drive_object_list :: lists, ?_⟩
        rw [h2]
        simp only [c1, c3, List.map_cons, List.append_assoc, List.singleton_append]
      · simp only [hr, Bool.not_false, if_true]
        exact ⟨c1, [s.drive_object_list], by rw [c3]; rfl⟩

/-- Every call of `ScanDrive` made by `Run` carries the drive letter of the
first path of the sorted list. -/
theorem MSAV_Run_calls_letter (ScanPath : Str → MSAV.Summary → Bool × MSAV.Summary)
    (object_list : List Str) :
    ∃ lists : List (List Str), (MSAV.Run ScanPath object_list).calls =
      lists.map (fun l => (front ((std_sort object_list).headD []), l)) := by
  unfold MSAV.Run
  by_cases he : object_list.isEmpty = true
  · rw [if_pos he]
    exact ⟨[], rfl⟩
  · rw [if_neg he]
    obtain ⟨h1, lists, h2⟩ := MSAV_groupLoop_letter ScanPath (std_sort object_list)
      ⟨front ((std_sort object_list).headD []), [], ⟨0, 0, 0, 0, 0⟩, [], []⟩
    by_cases hr : (MSAV.groupLoop ScanPath (std_sort object_list)
      ⟨front ((std_sort object_list).headD []), [], ⟨0, 0, 0, 0, 0⟩, [], []⟩).1 = true
    · simp only [hr, Bool.not_true, Bool.false_eq_true, if_false]
      refine ⟨lists ++ [(MSAV.groupLoop ScanPath (std_sort object_list)
        ⟨front ((std_sort object_list).headD []), [], ⟨0, 0, 0, 0, 0⟩, [], []⟩).2.drive_object_list],
        ?_⟩
      rw [(MSAV_callScanDrive_state ScanPath _).2.2, h2, h1]
      simp
    · simp only [hr, Bool.not_false, if_true]
      exact ⟨lists, by rw [h2]; simp⟩

/-- Entries on the drive of `drive_letter` are collected without a call. -/
theorem MSAV_groupLoop_same (ScanPath : Str → MSAV.Summary → Bool × MSAV.Summary) :
    ∀ (entries : List Str) (s : MSAV.RunState),
      (∀ e ∈ entries, front e = s.drive_letter) →
      MSAV.groupLoop ScanPath entries s =
        (true, { s with drive_object_list := s.drive_object_list ++ entries }) := by
  intro entries
  induction entries with
  | nil =>
    intro s _
    simp [MSAV.groupLoop]
  | cons entry rest ih =>
    intro s h
    unfold MSAV.groupLoop
    rw [if_pos (h entry (List.mem_cons_self _ _)).symm]
    have hi := ih { s with drive_object_list := s.drive_object_list ++ [entry] }
      (fun e he => h e (List.mem_cons_of_mem _ he))
    rw [hi]
    simp

/-- Entries on other drives, once the scans go through: each one makes
`Run` call `ScanDrive` with the old letter and the list collected so far, and
becomes a list of its own. -/
theorem MSAV_groupLoop_other (ScanPath : Str → MSAV.Summary → Bool × MSAV.Summary)
    (hsp : ∀ p s, (ScanPath p s).1 = true) :
    ∀ (entries : List Str) (entry : Str) (s : MSAV.RunState),
      (∀ e ∈ entry :: entries, front e ≠ s.drive_letter) →
      (MSAV.groupLoop ScanPath (entry :: entries) s).1 = true ∧
      (MSAV.groupLoop ScanPath (entry :: entries) s).2.drive_letter = s.drive_letter ∧
      (MSAV.groupLoop ScanPath (entry :: entries) s).2.drive_object_list =
        [(entry :: entries).getLast (List.cons_ne_nil _ _)] ∧
      (MSAV.groupLoop ScanPath (entry :: entries) s).2.calls =
        s.calls ++ (s.drive_letter, s.drive_object_list) ::
          ((entry :: entries).dropLast).map (fun p => (s.drive_letter, [p])) := by
  intro entries
  induction entries with
  | nil =>
    intro entry s h
    have hne : ¬ s.drive_letter = front entry := fun hc => h entry (List.mem_cons_self _ _) hc.symm
    have hr : (MSAV.callScanDrive ScanPath s).1 = true := MSAV_scanPaths_true ScanPath hsp _ _ _
    simp only [MSAV.groupLoop, hne, if_false, hr, Bool.not_true, Bool.false_eq_true]
    exact ⟨trivial, rfl, rfl, rfl⟩
  | cons e2 rest ih =>
    intro entry s h
    have hne : ¬ s.drive_letter = front entry := fun hc => h entry (List.mem_cons_self _ _) hc.symm
    have hr : (MSAV.callScanDrive ScanPath s).1 = true := MSAV_scanPaths_true ScanPath hsp _ _ _
    obtain ⟨i1, i2, i3, i4⟩ := ih e2
      { (MSAV.callScanDrive ScanPath s).2 with drive_object_list := [entry] }
      (fun e he => h e (List.mem_cons_of_mem _ he))
    have hstep : MSAV.groupLoop ScanPath (entry :: e2 :: rest) s =
        MSAV.groupLoop ScanPath (e2 :: rest)
          { (MSAV.callScanDrive ScanPath s).2 with drive_object_list := [entry] } := by
      rw [MSAV.groupLoop]
      simp only [hne, if_false, hr, Bool.not_true, Bool.false_eq_true]
    rw [hstep]
    refine ⟨i1, i2.trans rfl, ?_, ?_⟩
    · rw [i3]
      simp
    · rw [i4]
      simp [MSAV.callScanDrive]

/-- Entries on the drive of `drive_letter` at the head of the list are
collected, and the loop goes on with the rest. -/
theorem MSAV_groupLoop_append (ScanPath : Str → MSAV.Summary → Bool × MSAV.Summary) :
    ∀ (A B : List Str) (s : MSAV.RunState),
      (∀ e ∈ A, front e = s.drive_letter) →
      MSAV.groupLoop ScanPath (A ++ B) s =
        MSAV.groupLoop ScanPath B { s with drive_object_list := s.drive_object_list ++ A } := by
  intro A
  induction A with
  | nil =>
    intro B s _
    simp
  | cons entry rest ih =>
    intro B s h
    rw [List.cons_append, MSAV.groupLoop, if_pos (h entry (List.mem_cons_self _ _)).symm]
    have hi := ih B { s with drive_object_list := s.drive_object_list ++ [entry] }
      (fun e he => h e (List.mem_cons_of_mem _ he))
    rw [hi]
    simp

/-- The drive letter `Run` starts with, when the paths are all on drive
`d` or the sorted list begins with such a path. -/
theorem front_head_append (A B : List Str) (d : Char) (hA : A ≠ [])
    (hAd : ∀ a ∈ A, front a = d) : front ((A ++ B).headD []) = d := by
  cases A with
  | nil => exact absurd rfl hA
  | cons a as => exact hAd a (List.mem_cons_self _ _)

/-- Paths on one drive: `Run` makes one call of `ScanDrive`, with the letter
of the drive and the sorted list. -/
theorem MSAV_Run_one_drive (ScanPath : Str → MSAV.Summary → Bool × MSAV.Summary)
    (object_list : List Str) (d : Char) (hne : object_list ≠ [])
    (h : ∀ e ∈ object_list, front e = d) :
    (MSAV.Run ScanPath object_list).calls = [(d, std_sort object_list)] := by
  have he : ¬ object_list.isEmpty = true := by
    cases object_list with
    | nil => exact absurd rfl hne
    | cons x xs => simp
  have hs : ∀ e ∈ std_sort object_list, front e = d :=
    fun e hm => h e ((mem_std_sort e object_list).mp hm)
  have hd : front ((std_sort object_list).headD []) = d := by
    have := front_head_append (std_sort object_list) [] d (std_sort_ne_nil _ hne) hs
    simpa using this
  unfold MSAV.Run
  rw [if_neg he]
  simp only [hd]
  rw [MSAV_groupLoop_same ScanPath (std_sort object_list) ⟨d, [], ⟨0, 0, 0, 0, 0⟩, [], []⟩ hs]
  simp [MSAV.callScanDrive]

/-- Paths on more than one drive, every scan going through: the sorted list
is `A ++ B`, with `A` the paths on the first drive `d`. `Run` calls
`ScanDrive` once with `d` and `A`, and then once for each path of `B`, with
the letter `d` again and that path alone. -/
theorem MSAV_Run_more_drives (ScanPath : Str → MSAV.Summary → Bool × MSAV.Summary)
    (hsp : ∀ p s, (ScanPath p s).1 = true)
    (object_list A B : List Str) (d : Char)
    (hsort : std_sort object_list = A ++ B) (hA : A ≠ []) (hB : B ≠ [])
    (hAd : ∀ a ∈ A, front a = d) (hBd : ∀ b ∈ B, front b ≠ d) :
    (MSAV.Run ScanPath object_list).calls = (d, A) :: B.map (fun p => (d, [p])) := by
  have he : ¬ object_list.isEmpty = true := by
    cases object_list with
    | nil =>
      have : A ++ B = [] := hsort.symm
      exact absurd (List.append_eq_nil.mp this).1 hA
    | cons x xs => simp
  have hd : front ((A ++ B).headD []) = d := front_head_append A B d hA hAd
  unfold MSAV.Run
  rw [if_neg he]
  simp only [hsort, hd]
  rw [MSAV_groupLoop_append ScanPath A B ⟨d, [], ⟨0, 0, 0, 0, 0⟩, [], []⟩ hAd]
  cases B with
  | nil => exact absurd rfl hB
  | cons b bs =>
    obtain ⟨g1, g2, g3, g4⟩ := MSAV_groupLoop_other ScanPath hsp bs b
      ⟨d, [] ++ A, ⟨0, 0, 0, 0, 0⟩, [], []⟩ hBd
    simp only [g1, Bool.not_true, Bool.false_eq_true, if_false]
    rw [(MSAV_callScanDrive_state ScanPath _).2.2, g2, g3, g4]
    have hl := List.dropLast_append_getLast (List.cons_ne_nil b bs)
    have hm : (b :: bs).map (fun p => (d, [p])) =
        ((b :: bs).dropLast).map (fun p => (d, [p])) ++
          [(d, [(b :: bs).getLast (List.cons_ne_nil _ _)])] := by
      conv_lhs => rw [← hl]
      rw [List.map_append]
      rfl
    rw [hm]
    simp

/-! ## Claims about the drives of `MSAV` -/

/-- C31: the code on paths of two drives. The list `C:\GAMES`, `D:\TOOLS`,
`D:\WORK` is sorted. `drive_letter` is set to `C` before the loop and never
assigned again, so each path on drive `D` differs from it: `Run` calls
`ScanDrive` three times, every time with the letter `C`, the second and the
third time with one path of drive `D`, and both are scanned under the title
of drive `C`. Paths on one drive make one call with the letter of that
drive. -/
theorem MSAV_Run_drive_grouping :
    std_sort ["C:\\GAMES".toList, "D:\\TOOLS".toList, "D:\\WORK".toList] =
      ["C:\\GAMES".toList, "D:\\TOOLS".toList, "D:\\WORK".toList] ∧
    (MSAV.Run (fun _ s => (true, { s with directories := (s.directories + 1) % SIZE_MOD }))
      ["C:\\GAMES".toList, "D:\\TOOLS".toList, "D:\\WORK".toList]).calls =
      [('C', ["C:\\GAMES".toList]), ('C', ["D:\\TOOLS".toList]),
        ('C', ["D:\\WORK".toList])] ∧
    (MSAV.Run (fun _ s => (true, { s with directories := (s.directories + 1) % SIZE_MOD }))
      ["C:\\GAMES".toList, "D:\\TOOLS".toList, "D:\\WORK".toList]).out =
      [MSAV.Output.title_drive 'C', MSAV.Output.scan_path "C:\\GAMES".toList,
        MSAV.Output.title_drive 'C', MSAV.Output.scan_path "D:\\TOOLS".toList,
        MSAV.Output.title_drive 'C', MSAV.Output.scan_path "D:\\WORK".toList] ∧
    (MSAV.Run (fun _ s => (true, { s with directories := (s.directories + 1) % SIZE_MOD }))
      ["D:\\TOOLS".toList, "D:\\WORK".toList]).calls =
      [('D', ["D:\\TOOLS".toList, "D:\\WORK".toList])] :=
  ⟨by decide, by decide, by decide, by decide⟩

/-! ## Names the suffix rule leaves alone -/

/-- The test on a name split at its last character that is no digit. -/
theorem cutsAtHyphen_split (A : Str) (c : Char) (T : Str)
    (hc : ¬ ('0' ≤ c ∧ c ≤ '9')) (hT : ∀ d ∈ T, '0' ≤ d ∧ d ≤ '9') :
    cutsAtHyphen (A ++ c :: T) = decide (c = '-' ∧ 2 ≤ A.length) := by
  have hrev : (A ++ c :: T).reverse = T.reverse ++ c :: A.reverse := by simp
  have hdrop : ∀ x ∈ T.reverse, (fun c => decide ('0' ≤ c ∧ c ≤ '9')) x = true := by
    intro x hx
    simpa using hT x (List.mem_reverse.1 hx)
  have hcd : decide ('0' ≤ c ∧ c ≤ '9') = false := by simpa using hc
  unfold cutsAtHyphen
  rw [hrev, List.dropWhile_append_of_pos hdrop, List.dropWhile_cons, hcd]
  by_cases hh : c = '-'
  · subst hh
    simp
  · simp only [Bool.false_eq_true, if_false, hh, false_and, decide_False]
    split
    · rename_i heq
      exact absurd (List.cons.inj heq).1 hh
    · rfl

/-- A non-empty name in which the scan meets no hyphen at index 2 or more is
left alone by the suffix rule. -/
theorem stripSuffix_kept (N : Str) (hne : N ≠ []) (hlen : N.length < SIZE_MOD)
    (hcut : cutsAtHyphen N = false) : stripSuffix N = .ok N := by
  rcases exists_last_nondigit N with h | ⟨A, c, T, hN, hc, hT⟩
  · exact stripSuffix_digits N hne hlen h
  · subst hN
    rw [cutsAtHyphen_split A c T hc hT] at hcut
    by_cases hh : c = '-'
    · have hA : A.length < 2 := by
        by_contra hcon
        have : decide (c = '-' ∧ 2 ≤ A.length) = true := by
          simp only [decide_eq_true_eq]
          exact ⟨hh, by omega⟩
        rw [this] at hcut
        exact absurd hcut (by simp)
      exact stripSuffix_low A c T hA hT hlen
    · exact stripSuffix_other A c T hc hh hT hlen

/-! ## Claims about the name left alone -/

/-- C6, as stated, fails for the name `stream:`, which is taken for the marker
so that `FOUND` is reported as the name, and for the name `abc-`, whose
closing hyphen is cut off although no digit follows it. -/
theorem ScanFile_name_unchanged_counterexample :
    ("stream:".toList ≠ [] ∧ ' ' ∉ "stream:".toList ∧ ¬ "Win.".toList <+: "stream:".toList) ∧
    (GetResponse ⟨[], [], ["1: stream: stream: FOUND".toList], []⟩).1 =
      .ok ([] ++ "stream: ".toList ++ "stream:".toList ++ " FOUND".toList) ∧
    (ScanFile ⟨[], [], ["1: stream: stream: FOUND".toList], []⟩ [Read.gives [1]] []).returned =
      .ok (VirusCheckResult.Infected, "FOUND".toList) ∧
    ("abc-".toList ≠ [] ∧ ' ' ∉ "abc-".toList ∧ ¬ "Win.".toList <+: "abc-".toList) ∧
    (GetResponse ⟨[], [], ["1: stream: abc- FOUND".toList], []⟩).1 =
      .ok ([] ++ "stream: ".toList ++ "abc-".toList ++ " FOUND".toList) ∧
    (ScanFile ⟨[], [], ["1: stream: abc- FOUND".toList], []⟩ [Read.gives [1]] []).returned =
      .ok (VirusCheckResult.Infected, "abc".toList) :=
  ⟨⟨by decide, by decide, by decide⟩, rfl, rfl, ⟨by decide, by decide, by decide⟩, rfl, rfl⟩

/-- C6, amended: for a source whose first read gives a non-empty chunk and
none of whose reads fails, and a non-empty name `N` that contains no space,
does not start with `Win.`, does not end in `stream:` and, once its trailing
decimal digits (zero or more) are removed, does not end in a hyphen at index
2 or more, when the decoded response is `P ++ "stream: " ++ N ++ " FOUND"`
(of a length that fits a `size_t`), the result is `Infected` and the reported
name is `N` unchanged. -/
theorem ScanFile_name_unchanged (t : Transport) (c : List Nat) (rest : Source)
    (vn P N : Str) (hc : c ≠ []) (hrest : ∀ left, Read.fails left ∉ rest)
    (hne : N ≠ []) (hsp : ' ' ∉ N) (hwin : ¬ "Win.".toList <+: N)
    (hsuf : ¬ "stream:".toList <:+ N) (hcut : cutsAtHyphen N = false)
    (hlen : (P ++ "stream: ".toList ++ N ++ " FOUND".toList).length < SIZE_MOD)
    (hresp : (GetResponse t).1 = .ok (P ++ "stream: ".toList ++ N ++ " FOUND".toList)) :
    (ScanFile t (Read.gives c :: rest) vn).returned = .ok (VirusCheckResult.Infected, N) := by
  rw [ScanFile_returned t c rest vn _ hc hrest hresp]
  have hlen2 : N.length < SIZE_MOD := by
    simp only [List.length_append] at hlen
    omega
  exact parseVerdict_found P N N N hsp hsuf hlen (stripWin_other N hwin)
    (stripSuffix_kept N hne hlen2 hcut)

theorem ScanFile_name_unchanged_witness :
    ([1] ≠ [] ∧ (∀ left, Read.fails left ∉ ([] : Source)) ∧
      "EICAR-Test-Signature".toList ≠ [] ∧ ' ' ∉ "EICAR-Test-Signature".toList ∧
      ¬ "Win.".toList <+: "EICAR-Test-Signature".toList ∧
      ¬ "stream:".toList <:+ "EICAR-Test-Signature".toList ∧
      cutsAtHyphen "EICAR-Test-Signature".toList = false) ∧
    (ScanFile ⟨[], [], ["1: stream: EICAR-Test-Signature FOUND".toList], []⟩
      (Read.gives [1] :: []) []).returned =
        .ok (VirusCheckResult.Infected, "EICAR-Test-Signature".toList) ∧
    (cutsAtHyphen "-".toList = false ∧ cutsAtHyphen "a-".toList = false ∧
      cutsAtHyphen "a-1".toList = false ∧ cutsAtHyphen "abc-".toList = true ∧
      cutsAtHyphen "abc-1".toList = true) ∧
    (ScanFile ⟨[], [], ["1: stream: - FOUND".toList], []⟩ (Read.gives [1] :: [])
      []).returned = .ok (VirusCheckResult.Infected, "-".toList) ∧
    (ScanFile ⟨[], [], ["1: stream: a- FOUND".toList], []⟩ (Read.gives [1] :: [])
      []).returned = .ok (VirusCheckResult.Infected, "a-".toList) :=
  ⟨⟨by decide, by simp, by decide, by decide, by decide, by decide, by decide⟩,
   ScanFile_name_unchanged ⟨[], [], ["1: stream: EICAR-Test-Signature FOUND".toList], []⟩
     [1] [] [] [] "EICAR-Test-Signature".toList (by decide) (by simp) (by decide)
     (by decide) (by decide) (by decide) (by decide) (by decide) rfl,
   ⟨by decide, by decide, by decide, by decide, by decide⟩,
   ScanFile_name_unchanged ⟨[], [], ["1: stream: - FOUND".toList], []⟩
     [1] [] [] [] "-".toList (by decide) (by simp) (by decide)
     (by decide) (by decide) (by decide) (by decide) (by decide) rfl,
   ScanFile_name_unchanged ⟨[], [], ["1: stream: a- FOUND".toList], []⟩
     [1] [] [] [] "a-".toList (by decide) (by simp) (by decide)
     (by decide) (by decide) (by decide) (by decide) (by decide) rfl⟩

/-! ## The suffix scan with the unchecked access -/

/-- Where the checked scan yields a name, the unchecked scan yields the
same. -/
theorem stripSuffixLoop_unchecked_agrees (peek : Nat → Char) (name : Str) :
    ∀ (pos : Nat) (res : Str), stripSuffixLoop name pos = .ok res →
      stripSuffixLoop_unchecked peek name pos = .ok res := by
  intro pos
  induction pos using Nat.strongRecOn with
  | _ pos ih =>
    intro res h
    match pos, ih with
    | 0, _ => exact h
    | 1, _ => exact h
    | p + 2, ih =>
      cases hc : charAt name (p + 2) with
      | error e =>
        simp only [stripSuffixLoop, hc] at h
        cases h
      | ok c =>
        have hu : charAt_unchecked peek name (p + 2) = c := by
          simp only [charAt_unchecked, hc]
        simp only [stripSuffixLoop, hc] at h
        rw [stripSuffixLoop_unchecked]
        simp only [hu]
        by_cases hd : '0' ≤ c ∧ c ≤ '9'
        · rw [if_pos hd] at h ⊢
          exact ih (p + 1) (by omega) res h
        · rw [if_neg hd] at h ⊢
          exact h

/-- On the empty name the unchecked scan, wherever it starts and whatever it
reads, yields the empty name. -/
theorem stripSuffixLoop_unchecked_nil (peek : Nat → Char) :
    ∀ pos : Nat, stripSuffixLoop_unchecked peek [] pos = .ok [] := by
  intro pos
  induction pos using Nat.strongRecOn with
  | _ pos ih =>
    match pos, ih with
    | 0, _ => rfl
    | 1, _ => rfl
    | p + 2, ih =>
      rw [stripSuffixLoop_unchecked]
      by_cases hd : '0' ≤ charAt_unchecked peek [] (p + 2) ∧
          charAt_unchecked peek [] (p + 2) ≤ '9'
      · simp only [hd, and_self, if_true]
        exact ih (p + 1) (by omega)
      · simp only [hd, if_false]
        by_cases hh : charAt_unchecked peek [] (p + 2) ≠ '-'
        · rw [if_pos hh]
        · rw [if_neg hh]
          rfl

/-- The unchecked extraction, its positions spelled out. -/
theorem extractName_unchecked_unfold (peek : Nat → Char) (response : Str)
    (pos_name pos_status : Nat) :
    extractName_unchecked peek response pos_name pos_status =
      match substr response (pos_name + 8) (size_sub (size_sub pos_status pos_name) 8) with
      | .error e => .error e
      | .ok name0 =>
        match stripWin name0 with
        | .error e => .error e
        | .ok name1 => stripSuffix_unchecked peek name1 := rfl

/-- The unchecked extraction on the text cut out of the response. -/
theorem extractName_unchecked_step1 (peek : Nat → Char) (X : Str) :
    (match (Except.ok X : Except Fault Str) with
      | .error e => (Except.error e : Except Fault Str)
      | .ok name0 =>
        match stripWin name0 with
        | .error e => .error e
        | .ok name1 => stripSuffix_unchecked peek name1) =
    match stripWin X with
    | .error e => .error e
    | .ok name1 => stripSuffix_unchecked peek name1 := rfl

/-- The unchecked extraction after the prefix rule. -/
theorem extractName_unchecked_step2 (peek : Nat → Char) (n1 : Str) :
    (match (Except.ok n1 : Except Fault Str) with
      | .error e => (Except.error e : Except Fault Str)
      | .ok name1 => stripSuffix_unchecked peek name1) = stripSuffix_unchecked peek n1 := rfl

/-- The unchecked extraction once the marker is found: the two rules applied
to the text cut out of the response. -/
theorem extractName_unchecked_of_stripWin (peek : Nat → Char) (response : Str)
    (pos_name pos_status : Nat) (n1 : Str) (h8 : pos_name + 8 ≤ response.length)
    (hw : stripWin ((response.drop (pos_name + 8)).take
      (size_sub (size_sub pos_status pos_name) 8)) = .ok n1) :
    extractName_unchecked peek response pos_name pos_status = stripSuffix_unchecked peek n1 := by
  rw [extractName_unchecked_unfold, substr_ok _ _ _ h8, extractName_unchecked_step1, hw,
    extractName_unchecked_step2]

/-- Where the checked extraction yields a name, the unchecked one yields the
same. -/
theorem extractName_unchecked_agrees (peek : Nat → Char) (response : Str)
    (pos_name pos_status : Nat) (name : Str) (h8 : pos_name + 8 ≤ response.length)
    (h : extractName response pos_name pos_status = .ok name) :
    extractName_unchecked peek response pos_name pos_status = .ok name := by
  obtain ⟨n1, hw, _, _⟩ := stripWin_total
    ((response.drop (pos_name + 8)).take (size_sub (size_sub pos_status pos_name) 8))
  rw [extractName_of_stripWin _ _ _ n1 h8 hw] at h
  rw [extractName_unchecked_of_stripWin peek _ _ _ n1 h8 hw]
  exact stripSuffixLoop_unchecked_agrees peek n1 _ name h

/-! ## The parser and `ScanFile` with the unchecked access -/

/-- The unchecked parser on a status `OK`. -/
theorem parseVerdict_unchecked_status_ok (peek : Nat → Char) (response : Str)
    (pos_name pos_status : Nat)
    (hn : rfind response "stream: ".toList = some pos_name)
    (hs : rfind response [' '] = some pos_status)
    (hok : response.drop (pos_status + 1) = "OK".toList) :
    parseVerdict_unchecked peek response = .ok (VirusCheckResult.Clean, []) := by
  have hsp := (rfind_some_spec _ _ _ hs).2
  have h1 : pos_status + 1 ≤ response.length := by simpa using hsp
  unfold parseVerdict_unchecked
  rw [hn, hs]
  simp only [substrFrom, h1, if_true, hok]

/-- The unchecked parser on a status that is neither `OK` nor `FOUND`. -/
theorem parseVerdict_unchecked_status_other (peek : Nat → Char) (response : Str)
    (pos_name pos_status : Nat)
    (hn : rfind response "stream: ".toList = some pos_name)
    (hs : rfind response [' '] = some pos_status)
    (hok : response.drop (pos_status + 1) ≠ "OK".toList)
    (hfound : response.drop (pos_status + 1) ≠ "FOUND".toList) :
    parseVerdict_unchecked peek response = .ok (VirusCheckResult.ScannerError, []) := by
  have hsp := (rfind_some_spec _ _ _ hs).2
  have h1 : pos_status + 1 ≤ response.length := by simpa using hsp
  unfold parseVerdict_unchecked
  rw [hn, hs]
  simp only [substrFrom, h1, if_true, hok, hfound, if_false]

/-- The unchecked parser on a status `FOUND` whose name is extracted. -/
theorem parseVerdict_unchecked_status_found (peek : Nat → Char) (response : Str)
    (pos_name pos_status : Nat) (name : Str)
    (hn : rfind response "stream: ".toList = some pos_name)
    (hs : rfind response [' '] = some pos_status)
    (hfound : response.drop (pos_status + 1) = "FOUND".toList)
    (hguard : ¬ pos_name ≥ pos_status)
    (hex : extractName_unchecked peek response pos_name pos_status = .ok name) :
    parseVerdict_unchecked peek response = .ok (VirusCheckResult.Infected, name) := by
  have hsp := (rfind_some_spec _ _ _ hs).2
  have h1 : pos_status + 1 ≤ response.length := by simpa using hsp
  have hok : ¬ "FOUND".toList = "OK".toList := by decide
  unfold parseVerdict_unchecked
  rw [hn, hs]
  simp only [substrFrom, h1, if_true, hfound, hok, if_false, hguard, hex]

/-- The unchecked parser when the marker or the space is missing. -/
theorem parseVerdict_unchecked_missing (peek : Nat → Char) (response : Str)
    (h : rfind response "stream: ".toList = none ∨ rfind response [' '] = none) :
    parseVerdict_unchecked peek response = .ok (VirusCheckResult.ScannerError, []) := by
  unfold parseVerdict_unchecked
  rcases h with h | h
  · rw [h]
  · rw [h]
    cases rfind response "stream: ".toList with
    | none => rfl
    | some _ => rfl

/-- Where the checked parser yields a verdict, the unchecked parser yields
the same. -/
theorem parseVerdict_unchecked_agrees (peek : Nat → Char) (response : Str)
    (v : VirusCheckResult × Str) (h : parseVerdict response = .ok v) :
    parseVerdict_unchecked peek response = .ok v := by
  cases hn : rfind response "stream: ".toList with
  | none =>
    rw [parseVerdict_missing _ (Or.inl hn)] at h
    rw [parseVerdict_unchecked_missing peek _ (Or.inl hn)]
    exact h
  | some pos_name =>
    cases hs : rfind response [' '] with
    | none =>
      rw [parseVerdict_missing _ (Or.inr hs)] at h
      rw [parseVerdict_unchecked_missing peek _ (Or.inr hs)]
      exact h
    | some pos_status =>
      have hnm := (rfind_some_spec _ _ _ hn).2
      have h8 : pos_name + 8 ≤ response.length := by simpa [marker_toList] using hnm
      by_cases hok : response.drop (pos_status + 1) = "OK".toList
      · rw [parseVerdict_status_ok _ _ _ hn hs hok] at h
        rw [parseVerdict_unchecked_status_ok peek _ _ _ hn hs hok]
        exact h
      · by_cases hfound : response.drop (pos_status + 1) = "FOUND".toList
        · obtain ⟨j', hs', hge⟩ := rfind_space_ge_marker response pos_name hn
          rw [hs] at hs'
          have hjj : pos_status = j' := Option.some.inj hs'
          subst hjj
          have hguard : ¬ pos_name ≥ pos_status := by omega
          cases hex : extractName response pos_name pos_status with
          | error e =>
            rw [parseVerdict_status_fault _ _ _ _ hn hs hfound hguard hex] at h
            cases h
          | ok name =>
            rw [parseVerdict_status_found _ _ _ _ hn hs hfound hguard hex] at h
            rw [parseVerdict_unchecked_status_found peek _ _ _ _ hn hs hfound hguard
              (extractName_unchecked_agrees peek _ _ _ _ h8 hex)]
            exact h
        · rw [parseVerdict_status_other _ _ _ hn hs hok hfound] at h
          rw [parseVerdict_unchecked_status_other peek _ _ _ hn hs hok hfound]
          exact h

/-- The two embeddings of `ScanFile` side by side: both return `ReadError`,
both return `Clean`, or both parse the same response; they leave the same
transport and the same source. -/
theorem ScanFile_unchecked_shape (peek : Nat → Char) (t : Transport) (src : Source)
    (vn : Str) :
    ((ScanFile t src vn).returned = .ok (VirusCheckResult.ReadError, []) ∧
      (ScanFile_unchecked peek t src vn).returned = .ok (VirusCheckResult.ReadError, [])) ∨
    ((ScanFile t src vn).returned = .ok (VirusCheckResult.Clean, []) ∧
      (ScanFile_unchecked peek t src vn).returned = .ok (VirusCheckResult.Clean, [])) ∨
    ∃ response, (ScanFile t src vn).returned = parseVerdict response ∧
      (ScanFile_unchecked peek t src vn).returned = parseVerdict_unchecked peek response := by
  unfold ScanFile ScanFile_unchecked
  by_cases hr : (DOS_ReadFile src UINT16_MAX).1 = true
  · by_cases hz : (DOS_ReadFile src UINT16_MAX).2.1.length = 0
    · refine Or.inr (Or.inl ?_)
      simp only [hr, Bool.not_true, Bool.false_eq_true, if_false, hz, if_true, clear, and_self]
    · generalize hs : (uploadLoop ((DOS_ReadFile src UINT16_MAX).2.2.length + 1)
        ⟨(DOS_ReadFile src UINT16_MAX).2.1, false, (SendCommand t "INSTREAM".toList).2,
          (DOS_ReadFile src UINT16_MAX).2.2⟩) = s
      obtain ⟨r, hg⟩ := GetResponse_ok (s.transport.SendBuffer (frameHeader 0)).2
      by_cases he : s.read_error = true
      · refine Or.inl ?_
        simp only [hr, Bool.not_true, Bool.false_eq_true, if_false, hz, hs, hg, he, if_true,
          clear, and_self]
      · refine Or.inr (Or.inr ⟨r, ?_⟩)
        simp only [hr, Bool.not_true, Bool.false_eq_true, if_false, hz, hs, hg, he]
        constructor
        · cases parseVerdict r with
          | error e => rfl
          | ok p =>
            cases p
            rfl
        · cases parseVerdict_unchecked peek r with
          | error e => rfl
          | ok p =>
            cases p
            rfl
  · refine Or.inl ?_
    simp only [hr, Bool.not_false, if_true, clear, and_self]

/-- Where `ScanFile` returns a verdict, `ScanFile_unchecked` returns the
same, whatever lies in memory outside the name. -/
theorem ScanFile_unchecked_agrees (peek : Nat → Char) (t : Transport) (src : Source)
    (vn : Str) (v : VirusCheckResult × Str) (h : (ScanFile t src vn).returned = .ok v) :
    (ScanFile_unchecked peek t src vn).returned = .ok v := by
  rcases ScanFile_unchecked_shape peek t src vn with ⟨h1, h2⟩ | ⟨h1, h2⟩ | ⟨r, h1, h2⟩
  · rw [h2, ← h1, h]
  · rw [h2, ← h1, h]
  · rw [h2]
    rw [h1] at h
    exact parseVerdict_unchecked_agrees peek r v h

/-- A source whose first read gives a non-empty chunk and none of whose reads
fails: `ScanFile_unchecked` returns what the unchecked parser makes of the
decoded response. -/
theorem ScanFile_unchecked_returned (peek : Nat → Char) (t : Transport) (c : List Nat)
    (rest : Source) (vn response : Str) (hc : c ≠ [])
    (hrest : ∀ left, Read.fails left ∉ rest) (hresp : (GetResponse t).1 = .ok response) :
    (ScanFile_unchecked peek t (Read.gives c :: rest) vn).returned =
      parseVerdict_unchecked peek response := by
  have hne : (c.take UINT16_MAX).length ≠ 0 := by
    cases c with
    | nil => exact absurd rfl hc
    | cons x xs => simp [UINT16_MAX]
  have hloop := uploadLoop_no_error (rest.length + 1)
    ⟨c.take UINT16_MAX, false, (SendCommand t "INSTREAM".toList).2, rest⟩ hrest rfl
  have hrecv : ((uploadLoop (rest.length + 1)
      ⟨c.take UINT16_MAX, false, (SendCommand t "INSTREAM".toList).2, rest⟩).transport.SendBuffer
        (frameHeader 0)).2.recvResults = t.recvResults := by
    have := hloop.2
    simpa [Transport.SendBuffer, SendCommand, Transport.Send] using this
  have hg := GetResponse_congr _ _ hrecv
  rw [hresp] at hg
  simp only [ScanFile_unchecked, DOS_ReadFile, Bool.not_true, Bool.false_eq_true, if_false,
    hne, hg, hloop.1]
  cases parseVerdict_unchecked peek response with
  | error e => rfl
  | ok v => rfl

/-- The response `a stream:  FOUND`, whose name region is empty: the scan
reads outside the empty name, and whatever it reads there the call returns
`Infected` with the empty name. -/
theorem ScanFile_unchecked_empty_name (peek : Nat → Char) :
    (ScanFile_unchecked peek ⟨[], [], ["1: a stream:  FOUND".toList], []⟩
      [Read.gives [1]] []).returned = .ok (VirusCheckResult.Infected, []) := by
  rw [ScanFile_unchecked_returned peek ⟨[], [], ["1: a stream:  FOUND".toList], []⟩ [1] [] []
    "a stream:  FOUND".toList (by decide) (by simp) rfl]
  have hex : extractName_unchecked peek "a stream:  FOUND".toList 2 10 = .ok [] := by
    rw [extractName_unchecked_of_stripWin peek "a stream:  FOUND".toList 2 10 []
      (by decide) rfl]
    exact stripSuffixLoop_unchecked_nil peek _
  exact parseVerdict_unchecked_status_found peek _ 2 10 [] rfl rfl rfl (by decide) hex

/-! ## Claims about the verdicts of `ScanFile` as the build runs it -/

end Antivir
